import Mathlib

/-!
# Schedules of the libpnbc varying-count collectives
A shallow embedding of `ompi/mca/coll/libpnbc/pnbc_iallgatherv.c` and
`ompi/mca/coll/libpnbc/pnbc_ialltoallv.c`.
Modelling conventions:
* C `int`, `MPI_Aint` and `ptrdiff_t` values are mathematical integers (`Int`).  The
  only arithmetic the builders do on ranks is `rank + i`, `rank + p - i`, `(p+1)/2`,
  `p/2`, which stay inside `int` for every communicator size below `2^30`; C's `%` and
  `/` are `Int.tmod` and `Int.tdiv` (truncation toward zero).
* A buffer pointer is the integer address it holds, so `(char *) buf + d * ext` is
  `buf + d * ext`, and `(void *)(-gap)` is `-gap`.
* A count or displacement table (`const int *`) is a function from index to value.
* A datatype handle is a natural number.
* A schedule is the list of append calls made on it, each with the arguments of the
  call, the trailing `barrier` flag included.
* A function that can fail returns `Except Int`, the error carrying the returned code;
  the collaborators of a call (datatype service, handle pool, allocation) are the
  fields of `System` and `Heap`, and a full entry point returns an `Outcome`.
* The progress engine and the transport are not among the sources: the run of a round
  (`postRound`, `completeRound`, `runRound`) follows sections 4.2 and 5 of the
  specification, over a `Memory` that holds one element value per address.
-/

namespace PNBC

abbrev MPI_Datatype := Nat

abbrev MPI_Aint := Int

def MPI_SUCCESS : Int := 0

def OMPI_SUCCESS : Int := 0

/-- Modelled from the spec: the out-of-resources condition of section 7; its header is
not part of the sources at hand, the value is Open MPI's and only its being different
from `OMPI_SUCCESS` is used. -/
def OMPI_ERR_OUT_OF_RESOURCE : Int := -2

/-- One scheduled unit of work, with the arguments of the append call that made it. -/
inductive Action where
  | send (buf : Int) (tmpbuf : Bool) (count : Int) (datatype : MPI_Datatype) (dest : Int)
  | recv (buf : Int) (tmpbuf : Bool) (count : Int) (datatype : MPI_Datatype) (source : Int)
  | copy (src : Int) (tmpsrc : Bool) (srccount : Int) (srctype : MPI_Datatype)
      (tgt : Int) (tmptgt : Bool) (tgtcount : Int) (tgttype : MPI_Datatype)
  deriving DecidableEq, Repr

/-- An append call: the action and the trailing `barrier` argument. -/
structure Entry where
  act : Action
  barrier : Bool
  deriving DecidableEq, Repr

abbrev PNBC_Schedule := List Entry

/-- Modelled from the spec: `PNBC_Sched_send` is declared in `pnbc_internal.h` and its
body is outside the sources at hand.  Section 4.1: an append adds its action to the
schedule and fails "with an out-of-resources condition if underlying storage growth
fails"; `cap` is the number of entries the storage can grow to. -/
def PNBC_Sched_send (cap : Nat) (buf : Int) (tmpbuf : Bool) (count : Int)
    (datatype : MPI_Datatype) (dest : Int) (schedule : PNBC_Schedule) (barrier : Bool) :
    Except Int PNBC_Schedule :=
  if schedule.length < cap then
    .ok (schedule ++ [⟨.send buf tmpbuf count datatype dest, barrier⟩])
  else .error OMPI_ERR_OUT_OF_RESOURCE

/-- Modelled from the spec: `PNBC_Sched_recv`, as `PNBC_Sched_send` (section 4.1). -/
def PNBC_Sched_recv (cap : Nat) (buf : Int) (tmpbuf : Bool) (count : Int)
    (datatype : MPI_Datatype) (source : Int) (schedule : PNBC_Schedule) (barrier : Bool) :
    Except Int PNBC_Schedule :=
  if schedule.length < cap then
    .ok (schedule ++ [⟨.recv buf tmpbuf count datatype source, barrier⟩])
  else .error OMPI_ERR_OUT_OF_RESOURCE

/-- Modelled from the spec: `PNBC_Sched_copy`, as `PNBC_Sched_send` (section 4.1). -/
def PNBC_Sched_copy (cap : Nat) (src : Int) (tmpsrc : Bool) (srccount : Int)
    (srctype : MPI_Datatype) (tgt : Int) (tmptgt : Bool) (tgtcount : Int)
    (tgttype : MPI_Datatype) (schedule : PNBC_Schedule) (barrier : Bool) :
    Except Int PNBC_Schedule :=
  if schedule.length < cap then
    .ok (schedule ++ [⟨.copy src tmpsrc srccount srctype tgt tmptgt tgtcount tgttype, barrier⟩])
  else .error OMPI_ERR_OUT_OF_RESOURCE

/-- The values `i` takes in `for (int i = lo ; i < hi ; ++i)`. -/
def forRange (lo hi : Int) : List Int :=
  (List.range (hi - lo).toNat).map (fun (k : Nat) => lo + (k : Int))

/-- The rounds of a schedule: a round ends after an entry appended with `barrier = true`. -/
def rounds : PNBC_Schedule → List (List Action)
  | [] => []
  | e :: es =>
    if e.barrier then [e.act] :: rounds es
    else
      match rounds es with
      | [] => [[e.act]]
      | r :: rs => (e.act :: r) :: rs

/-! ## pnbc_ialltoallv.c : the three round strategies -/

def a2av_sched_linear (cap : Nat) (rank p : Int) (schedule : PNBC_Schedule)
    (sendbuf : Int) (sendcounts sdispls : Int → Int) (sndext : MPI_Aint)
    (sendtype : MPI_Datatype)
    (recvbuf : Int) (recvcounts rdispls : Int → Int) (rcvext : MPI_Aint)
    (recvtype : MPI_Datatype) : Except Int PNBC_Schedule :=
  (forRange 0 p).foldlM (fun schedule i =>
    if i = rank then
      pure schedule
    else do
      -- post send
      let schedule ←
        if sendcounts i ≠ 0 then
          PNBC_Sched_send cap (sendbuf + sdispls i * sndext) false (sendcounts i) sendtype i
            schedule false
        else pure schedule
      -- post receive
      if recvcounts i ≠ 0 then
        PNBC_Sched_recv cap (recvbuf + rdispls i * rcvext) false (recvcounts i) recvtype i
          schedule false
      else pure schedule) schedule

def a2av_sched_pairwise (cap : Nat) (rank p : Int) (schedule : PNBC_Schedule)
    (sendbuf : Int) (sendcounts sdispls : Int → Int) (sndext : MPI_Aint)
    (sendtype : MPI_Datatype)
    (recvbuf : Int) (recvcounts rdispls : Int → Int) (rcvext : MPI_Aint)
    (recvtype : MPI_Datatype) : Except Int PNBC_Schedule :=
  (forRange 1 p).foldlM (fun schedule i =>
    let sndpeer := (rank + i).tmod p
    let rcvpeer := (rank + p - i).tmod p
    do
      -- post send
      let schedule ←
        if sendcounts sndpeer ≠ 0 then
          PNBC_Sched_send cap (sendbuf + sdispls sndpeer * sndext) false (sendcounts sndpeer)
            sendtype sndpeer schedule false
        else pure schedule
      -- post receive
      if recvcounts rcvpeer ≠ 0 then
        PNBC_Sched_recv cap (recvbuf + rdispls rcvpeer * rcvext) false (recvcounts rcvpeer)
          recvtype rcvpeer schedule true
      else pure schedule) schedule

def a2av_sched_inplace (cap : Nat) (rank p : Int) (schedule : PNBC_Schedule)
    (buf : Int) (counts displs : Int → Int) (ext : MPI_Aint) (type : MPI_Datatype)
    (gap : Int) : Except Int PNBC_Schedule := do
  let schedule ← (forRange 1 ((p + 1).tdiv 2)).foldlM (fun schedule i =>
    let speer := (rank + i).tmod p
    let rpeer := (rank + p - i).tmod p
    let sbuf := buf + displs speer * ext
    let rbuf := buf + displs rpeer * ext
    do
      let schedule ←
        if 0 ≠ counts rpeer then
          PNBC_Sched_copy cap rbuf false (counts rpeer) type (-gap) true (counts rpeer) type
            schedule true
        else pure schedule
      let schedule ←
        if 0 ≠ counts speer then
          PNBC_Sched_send cap sbuf false (counts speer) type speer schedule false
        else pure schedule
      let schedule ←
        if 0 ≠ counts rpeer then
          PNBC_Sched_recv cap rbuf false (counts rpeer) type rpeer schedule true
        else pure schedule
      let schedule ←
        if 0 ≠ counts rpeer then
          PNBC_Sched_send cap (-gap) true (counts rpeer) type rpeer schedule false
        else pure schedule
      if 0 ≠ counts speer then
        PNBC_Sched_recv cap sbuf false (counts speer) type speer schedule true
      else pure schedule) schedule
  if 0 = p.tmod 2 then
    let peer := (rank + p.tdiv 2).tmod p
    let tbuf := buf + displs peer * ext
    let schedule ←
      PNBC_Sched_copy cap tbuf false (counts peer) type (-gap) true (counts peer) type
        schedule true
    if 0 ≠ counts peer then
      let schedule ← PNBC_Sched_send cap (-gap) true (counts peer) type peer schedule false
      PNBC_Sched_recv cap tbuf false (counts peer) type peer schedule true
    else pure schedule
  else pure schedule

/-! ## The surroundings of a call -/

/-- The group context of a call: what `ompi_comm_rank`, `ompi_comm_size` and
`ompi_comm_remote_size` answer for the communicator. -/
structure ompi_communicator_t where
  rank : Int
  size : Int
  remote_size : Int

/-- The answers of the external collaborators during one call (section 6): the datatype
service, the local copy, the allocation of the schedule object, the storage the schedule
can grow to, the commit, the handle pool and the start of a schedule. -/
structure System where
  extent : MPI_Datatype → Int × MPI_Aint
  copy_res : Int
  obj_new : Bool
  cap : Nat
  commit_res : Int
  init_handle_res : Int
  start_res : Int

structure PNBC_Handle where
  schedule : Option PNBC_Schedule
  tmpbuf : Option Int
  deriving DecidableEq, Repr

/-- What a call may store through `ompi_request_t ** request`. -/
inductive Request where
  | handle (h : PNBC_Handle)
  | empty
  deriving DecidableEq, Repr

/-- The calls a function makes on its collaborators, in program order. -/
inductive Effect where
  | copy (src : Int) (srccount : Int) (srctype : MPI_Datatype)
      (tgt : Int) (tgtcount : Int) (tgttype : MPI_Datatype)
  | obj_new
  | obj_release
  | init_handle
  | return_handle
  | start (schedule : PNBC_Schedule)
  | malloc (size : Int)
  deriving DecidableEq, Repr

/-- The result of a call: the returned code, what was stored through `request` (`none`
when it was left unassigned), and the calls made. -/
structure Outcome where
  res : Int
  request : Option Request
  trace : List Effect
  deriving DecidableEq, Repr

/-- The schedule attached to the handle a call produced, if it produced one. -/
def Outcome.schedule (o : Outcome) : Option PNBC_Schedule :=
  match o.request with
  | some (.handle h) => h.schedule
  | _ => none

/-- Modelled from the spec: the macro `PNBC_IN_PLACE` comes from `pnbc_internal.h`,
outside the sources at hand.  Glossary: in-place means the "caller supplies the same
buffer for both the logical send and receive roles". -/
def PNBC_IN_PLACE (sendbuf recvbuf : Int) : Bool :=
  decide (sendbuf = recvbuf)

/-! ## pnbc_iallgatherv.c -/

/-- Lines 75-95 of `ompi_coll_libpnbc_iallgatherv_init`: the loop `do p-1 rounds` on the
fresh schedule. -/
def iallgatherv_init_rounds (cap : Nat) (rank p : Int) (recvbuf : Int)
    (recvcounts displs : Int → Int) (rcvext : MPI_Aint) (recvtype : MPI_Datatype)
    (schedule : PNBC_Schedule) : Except Int PNBC_Schedule :=
  let sbuf := recvbuf + displs rank * rcvext
  (forRange 1 p).foldlM (fun schedule r =>
    let speer := (rank + r).tmod p
    let rpeer := (rank - r + p).tmod p
    let rbuf := recvbuf + displs rpeer * rcvext
    do
      let schedule ←
        PNBC_Sched_recv cap rbuf false (recvcounts rpeer) recvtype rpeer schedule false
      -- send to rank r - not from the sendbuf to optimize MPI_IN_PLACE
      PNBC_Sched_send cap sbuf false (recvcounts rank) recvtype speer schedule false) schedule

def ompi_coll_libpnbc_iallgatherv_init (sys : System) (sendbuf : Int) (sendcount : Int)
    (sendtype : MPI_Datatype) (recvbuf : Int) (recvcounts displs : Int → Int)
    (recvtype : MPI_Datatype) (comm : ompi_communicator_t) : Outcome :=
  let inplace := PNBC_IN_PLACE sendbuf recvbuf
  let rank := comm.rank
  let p := comm.size
  let (res, rcvext) := sys.extent recvtype
  if res ≠ MPI_SUCCESS then ⟨res, none, []⟩
  else
    -- in place the send arguments are redefined and nothing is copied
    let copied : List Effect :=
      if inplace then []
      else [.copy sendbuf sendcount sendtype (recvbuf + displs rank * rcvext)
              (recvcounts rank) recvtype]
    if ¬ inplace ∧ sys.copy_res ≠ OMPI_SUCCESS then ⟨sys.copy_res, none, copied⟩
    else if ¬ sys.obj_new then ⟨OMPI_ERR_OUT_OF_RESOURCE, none, copied⟩
    else
      match iallgatherv_init_rounds sys.cap rank p recvbuf recvcounts displs rcvext recvtype [] with
      | .error res => ⟨res, none, copied ++ [.obj_new, .obj_release]⟩
      | .ok schedule =>
        if sys.commit_res ≠ OMPI_SUCCESS then
          ⟨sys.commit_res, none, copied ++ [.obj_new, .obj_release]⟩
        else if sys.init_handle_res ≠ OMPI_SUCCESS then
          ⟨sys.init_handle_res, none, copied ++ [.obj_new, .obj_release]⟩
        else
          ⟨OMPI_SUCCESS, some (.handle ⟨some schedule, none⟩), copied ++ [.obj_new, .init_handle]⟩

/-- Lines 139-160 of `ompi_coll_libpnbc_iallgatherv_inter`: the receive loop and the
send loop on the fresh schedule. -/
def iallgatherv_inter_rounds (cap : Nat) (rsize : Int) (sendbuf : Int) (sendcount : Int)
    (sendtype : MPI_Datatype) (recvbuf : Int) (recvcounts displs : Int → Int)
    (rcvext : MPI_Aint) (recvtype : MPI_Datatype) (schedule : PNBC_Schedule) :
    Except Int PNBC_Schedule := do
  let schedule ← (forRange 0 rsize).foldlM (fun schedule r =>
    let rbuf := recvbuf + displs r * rcvext
    if recvcounts r ≠ 0 then
      PNBC_Sched_recv cap rbuf false (recvcounts r) recvtype r schedule false
    else pure schedule) schedule
  if sendcount ≠ 0 then
    (forRange 0 rsize).foldlM (fun schedule r =>
      PNBC_Sched_send cap sendbuf false sendcount sendtype r schedule false) schedule
  else pure schedule

/-- The inter-group all-gather.  `PNBC_Start_internal` is modelled from the spec
(section 4.2: the committed schedule is attached to the handle and started). -/
def ompi_coll_libpnbc_iallgatherv_inter (sys : System) (sendbuf : Int) (sendcount : Int)
    (sendtype : MPI_Datatype) (recvbuf : Int) (recvcounts displs : Int → Int)
    (recvtype : MPI_Datatype) (comm : ompi_communicator_t) : Outcome :=
  let rsize := comm.remote_size
  let (res, rcvext) := sys.extent recvtype
  if res ≠ MPI_SUCCESS then ⟨res, none, []⟩
  else if ¬ sys.obj_new then ⟨OMPI_ERR_OUT_OF_RESOURCE, none, []⟩
  else
    match iallgatherv_inter_rounds sys.cap rsize sendbuf sendcount sendtype recvbuf recvcounts
        displs rcvext recvtype [] with
    | .error res => ⟨res, none, [.obj_new, .obj_release]⟩
    | .ok schedule =>
      if sys.commit_res ≠ OMPI_SUCCESS then ⟨sys.commit_res, none, [.obj_new, .obj_release]⟩
      else if sys.init_handle_res ≠ OMPI_SUCCESS then
        ⟨sys.init_handle_res, none, [.obj_new, .obj_release]⟩
      else if sys.start_res ≠ OMPI_SUCCESS then
        ⟨sys.start_res, none, [.obj_new, .init_handle, .start schedule, .return_handle]⟩
      else
        ⟨OMPI_SUCCESS, some (.handle ⟨some schedule, none⟩),
          [.obj_new, .init_handle, .start schedule]⟩

/-! ## pnbc_ialltoallv.c : the inter-group variant -/

/-- Lines 177-196 of `ompi_coll_libpnbc_ialltoallv_inter`: the loop on the fresh
schedule. -/
def ialltoallv_inter_rounds (cap : Nat) (rsize : Int) (sendbuf : Int)
    (sendcounts sdispls : Int → Int) (sndext : MPI_Aint) (sendtype : MPI_Datatype)
    (recvbuf : Int) (recvcounts rdispls : Int → Int) (rcvext : MPI_Aint)
    (recvtype : MPI_Datatype) (schedule : PNBC_Schedule) : Except Int PNBC_Schedule :=
  (forRange 0 rsize).foldlM (fun schedule i => do
    -- post all sends
    let schedule ←
      if sendcounts i ≠ 0 then
        PNBC_Sched_send cap (sendbuf + sdispls i * sndext) false (sendcounts i) sendtype i
          schedule false
      else pure schedule
    -- post all receives
    if recvcounts i ≠ 0 then
      PNBC_Sched_recv cap (recvbuf + rdispls i * rcvext) false (recvcounts i) recvtype i
        schedule false
    else pure schedule) schedule

/-- The inter-group all-to-all.  `PNBC_Start_internal` is modelled from the spec
(section 4.2: the committed schedule is attached to the handle and started). -/
def ompi_coll_libpnbc_ialltoallv_inter (sys : System) (sendbuf : Int)
    (sendcounts sdispls : Int → Int) (sendtype : MPI_Datatype) (recvbuf : Int)
    (recvcounts rdispls : Int → Int) (recvtype : MPI_Datatype)
    (comm : ompi_communicator_t) : Outcome :=
  let (res, sndext) := sys.extent sendtype
  if res ≠ MPI_SUCCESS then ⟨res, none, []⟩
  else
    let (res, rcvext) := sys.extent recvtype
    if res ≠ MPI_SUCCESS then ⟨res, none, []⟩
    else
      let rsize := comm.remote_size
      if ¬ sys.obj_new then ⟨OMPI_ERR_OUT_OF_RESOURCE, none, []⟩
      else
        match ialltoallv_inter_rounds sys.cap rsize sendbuf sendcounts sdispls sndext sendtype
            recvbuf recvcounts rdispls rcvext recvtype [] with
        | .error res => ⟨res, none, [.obj_new, .obj_release]⟩
        | .ok schedule =>
          if sys.commit_res ≠ OMPI_SUCCESS then
            ⟨sys.commit_res, none, [.obj_new, .obj_release]⟩
          else if sys.init_handle_res ≠ OMPI_SUCCESS then
            ⟨sys.init_handle_res, none, [.obj_new, .obj_release]⟩
          else if sys.start_res ≠ OMPI_SUCCESS then
            ⟨sys.start_res, none,
              [.obj_new, .init_handle, .start schedule, .return_handle, .obj_release]⟩
          else
            ⟨OMPI_SUCCESS, some (.handle ⟨some schedule, none⟩),
              [.obj_new, .init_handle, .start schedule]⟩

/-! ## Reading a schedule -/

/-- The peer of a Send or Receive. -/
def Action.peer : Action → Option Int
  | .send _ _ _ _ dest => some dest
  | .recv _ _ _ _ source => some source
  | .copy .. => none

/-- The element count of an action (of its source side for a LocalCopy). -/
def Action.count : Action → Int
  | .send _ _ count _ _ => count
  | .recv _ _ count _ _ => count
  | .copy _ _ srccount _ _ _ _ _ => srccount

def Action.isSend : Action → Bool
  | .send .. => true
  | _ => false

def Action.isRecv : Action → Bool
  | .recv .. => true
  | _ => false

def Action.isCopy : Action → Bool
  | .copy .. => true
  | _ => false

/-- Whether the entry is a Send to `q`. -/
def Entry.sendsTo (q : Int) (e : Entry) : Bool :=
  e.act.isSend && decide (e.act.peer = some q)

/-- Whether the entry is a Receive from `q`. -/
def Entry.recvsFrom (q : Int) (e : Entry) : Bool :=
  e.act.isRecv && decide (e.act.peer = some q)

/-! ## Blocks of entries: what each builder appends -/

/-- Appending the entries `es` one after the other: the whole block is appended when the
storage can take it, and the first append that does not fit reports out-of-resources. -/
def emitAll (cap : Nat) (es : List Entry) (s : PNBC_Schedule) : Except Int PNBC_Schedule :=
  if es = [] ∨ s.length + es.length ≤ cap then .ok (s ++ es)
  else .error OMPI_ERR_OUT_OF_RESOURCE

/-- Entries of one iteration of the loop of `a2av_sched_linear`. -/
def linearStep (rank : Int) (sendbuf : Int) (sendcounts sdispls : Int → Int)
    (sndext : MPI_Aint) (sendtype : MPI_Datatype) (recvbuf : Int)
    (recvcounts rdispls : Int → Int) (rcvext : MPI_Aint) (recvtype : MPI_Datatype)
    (i : Int) : List Entry :=
  if i = rank then []
  else
    (if sendcounts i ≠ 0 then
        [⟨.send (sendbuf + sdispls i * sndext) false (sendcounts i) sendtype i, false⟩]
      else []) ++
    (if recvcounts i ≠ 0 then
        [⟨.recv (recvbuf + rdispls i * rcvext) false (recvcounts i) recvtype i, false⟩]
      else [])

/-- Entries of one iteration of the loop of `a2av_sched_pairwise`. -/
def pairwiseStep (rank p : Int) (sendbuf : Int) (sendcounts sdispls : Int → Int)
    (sndext : MPI_Aint) (sendtype : MPI_Datatype) (recvbuf : Int)
    (recvcounts rdispls : Int → Int) (rcvext : MPI_Aint) (recvtype : MPI_Datatype)
    (i : Int) : List Entry :=
  (if sendcounts ((rank + i).tmod p) ≠ 0 then
      [⟨.send (sendbuf + sdispls ((rank + i).tmod p) * sndext) false
          (sendcounts ((rank + i).tmod p)) sendtype ((rank + i).tmod p), false⟩]
    else []) ++
  (if recvcounts ((rank + p - i).tmod p) ≠ 0 then
      [⟨.recv (recvbuf + rdispls ((rank + p - i).tmod p) * rcvext) false
          (recvcounts ((rank + p - i).tmod p)) recvtype ((rank + p - i).tmod p), true⟩]
    else [])

/-- Entries of one iteration of the loop of `a2av_sched_inplace`, for the peers `speer`
and `rpeer` of that iteration. -/
def inplaceStep (buf : Int) (counts displs : Int → Int) (ext : MPI_Aint)
    (type : MPI_Datatype) (gap : Int) (speer rpeer : Int) : List Entry :=
  (if 0 ≠ counts rpeer then
      [⟨.copy (buf + displs rpeer * ext) false (counts rpeer) type (-gap) true (counts rpeer)
          type, true⟩]
    else []) ++
  ((if 0 ≠ counts speer then
      [⟨.send (buf + displs speer * ext) false (counts speer) type speer, false⟩]
    else []) ++
  ((if 0 ≠ counts rpeer then
      [⟨.recv (buf + displs rpeer * ext) false (counts rpeer) type rpeer, true⟩]
    else []) ++
  ((if 0 ≠ counts rpeer then
      [⟨.send (-gap) true (counts rpeer) type rpeer, false⟩]
    else []) ++
  (if 0 ≠ counts speer then
      [⟨.recv (buf + displs speer * ext) false (counts speer) type speer, true⟩]
    else []))))

/-- Entries of the part of `a2av_sched_inplace` after the loop. -/
def inplaceTail (rank p : Int) (buf : Int) (counts displs : Int → Int) (ext : MPI_Aint)
    (type : MPI_Datatype) (gap : Int) : List Entry :=
  if 0 = p.tmod 2 then
    ⟨.copy (buf + displs ((rank + p.tdiv 2).tmod p) * ext) false
        (counts ((rank + p.tdiv 2).tmod p)) type (-gap) true
        (counts ((rank + p.tdiv 2).tmod p)) type, true⟩ ::
    (if 0 ≠ counts ((rank + p.tdiv 2).tmod p) then
      [⟨.send (-gap) true (counts ((rank + p.tdiv 2).tmod p)) type
          ((rank + p.tdiv 2).tmod p), false⟩,
       ⟨.recv (buf + displs ((rank + p.tdiv 2).tmod p) * ext) false
          (counts ((rank + p.tdiv 2).tmod p)) type ((rank + p.tdiv 2).tmod p), true⟩]
    else [])
  else []

/-- All entries `a2av_sched_inplace` appends when the storage takes them. -/
def inplaceEntries (rank p : Int) (buf : Int) (counts displs : Int → Int) (ext : MPI_Aint)
    (type : MPI_Datatype) (gap : Int) : List Entry :=
  (forRange 1 ((p + 1).tdiv 2)).flatMap (fun i =>
      inplaceStep buf counts displs ext type gap ((rank + i).tmod p) ((rank + p - i).tmod p))
    ++ inplaceTail rank p buf counts displs ext type gap

/-- Entries of one iteration of the loop of `ompi_coll_libpnbc_iallgatherv_init`. -/
def allgathervStep (rank p : Int) (recvbuf : Int) (recvcounts displs : Int → Int)
    (rcvext : MPI_Aint) (recvtype : MPI_Datatype) (r : Int) : List Entry :=
  [⟨.recv (recvbuf + displs ((rank - r + p).tmod p) * rcvext) false
      (recvcounts ((rank - r + p).tmod p)) recvtype ((rank - r + p).tmod p), false⟩,
   ⟨.send (recvbuf + displs rank * rcvext) false (recvcounts rank) recvtype
      ((rank + r).tmod p), false⟩]

/-- The plan of the Linear strategy in the words of the specification: for each peer
`i = 0 .. p-1` other than `rank`, in ascending order, a Send of `sendcounts[i]` elements
from `sendbuf + sdispls[i]*sndext` to `i` when `sendcounts[i] != 0`, then a Receive of
`recvcounts[i]` elements into `recvbuf + rdispls[i]*rcvext` from `i` when
`recvcounts[i] != 0`; no append asks for a round barrier. -/
def linearPlan (rank p : Int) (sendbuf : Int) (sendcounts sdispls : Int → Int)
    (sndext : MPI_Aint) (sendtype : MPI_Datatype) (recvbuf : Int)
    (recvcounts rdispls : Int → Int) (rcvext : MPI_Aint) (recvtype : MPI_Datatype) :
    List Entry :=
  (((List.range p.toNat).map (fun (k : Nat) => (k : Int))).filter (fun i => i ≠ rank)).flatMap
    (fun i =>
      (if sendcounts i ≠ 0 then
          [⟨.send (sendbuf + sdispls i * sndext) false (sendcounts i) sendtype i, false⟩]
        else []) ++
      (if recvcounts i ≠ 0 then
          [⟨.recv (recvbuf + rdispls i * rcvext) false (recvcounts i) recvtype i, false⟩]
        else []))

/-- Every collaborator of a call succeeds: the extent query answers `rcvext`, the local
copy, the creation of the schedule, the commit, the handle pool and the start succeed,
and the storage of the schedule takes `need` entries. -/
def System.succeeds (sys : System) (recvtype : MPI_Datatype) (rcvext : MPI_Aint)
    (need : Nat) : Prop :=
  sys.extent recvtype = (MPI_SUCCESS, rcvext) ∧ sys.copy_res = OMPI_SUCCESS ∧
    sys.obj_new = true ∧ need ≤ sys.cap ∧ sys.commit_res = OMPI_SUCCESS ∧
    sys.init_handle_res = OMPI_SUCCESS ∧ sys.start_res = OMPI_SUCCESS

/-- All entries `ompi_coll_libpnbc_iallgatherv_init` appends when the storage takes them. -/
def allgathervEntries (rank p : Int) (recvbuf : Int) (recvcounts displs : Int → Int)
    (rcvext : MPI_Aint) (recvtype : MPI_Datatype) : List Entry :=
  (forRange 1 p).flatMap (allgathervStep rank p recvbuf recvcounts displs rcvext recvtype)

/-- The plan of the local all-gather in the words of the specification: for
`r = 1, 2, .., p-1` in that order, a Receive of `recvcounts[(rank - r) mod p]` elements of
`recvtype` from rank `(rank - r) mod p` into `recvbuf + displs[(rank - r) mod p] * extent`,
followed by a Send of `recvcounts[rank]` elements of `recvtype` from
`recvbuf + displs[rank] * extent` to rank `(rank + r) mod p`. -/
def allgathervPlan (rank p : Int) (recvbuf : Int) (recvcounts displs : Int → Int)
    (extent : MPI_Aint) (recvtype : MPI_Datatype) : List Action :=
  ((List.range (p - 1).toNat).map (fun (k : Nat) => (k : Int) + 1)).flatMap (fun r =>
    [.recv (recvbuf + displs ((rank - r) % p) * extent) false (recvcounts ((rank - r) % p))
        recvtype ((rank - r) % p),
     .send (recvbuf + displs rank * extent) false (recvcounts rank) recvtype
        ((rank + r) % p)])

/-- The peers of a rank: `0 .. p-1` without `rank`, ascending. -/
def peersOf (rank p : Int) : List Int :=
  (forRange 0 p).filter (fun i => i ≠ rank)

/-- The Send both strategies append for the peer `i`, if any. -/
def sendFor (sendbuf : Int) (sendcounts sdispls : Int → Int) (sndext : MPI_Aint)
    (sendtype : MPI_Datatype) (i : Int) : List Action :=
  if sendcounts i ≠ 0 then
    [.send (sendbuf + sdispls i * sndext) false (sendcounts i) sendtype i]
  else []

/-- The Receive both strategies append for the peer `i`, if any. -/
def recvFor (recvbuf : Int) (recvcounts rdispls : Int → Int) (rcvext : MPI_Aint)
    (recvtype : MPI_Datatype) (i : Int) : List Action :=
  if recvcounts i ≠ 0 then
    [.recv (recvbuf + rdispls i * rcvext) false (recvcounts i) recvtype i]
  else []

/-- The shape of an entry of the in-place schedule that concerns the peer `q`: the
LocalCopy of slot `q` into the temporary buffer, the Send of slot `q`, the Send of the
temporary buffer, or the Receive into slot `q`; `strict` says the LocalCopy is known to
have a nonzero count. -/
def InplaceShape (buf : Int) (counts displs : Int → Int) (ext : MPI_Aint)
    (type : MPI_Datatype) (gap : Int) (strict : Prop) (q : Int) (e : Entry) : Prop :=
  (e = ⟨.copy (buf + displs q * ext) false (counts q) type (-gap) true (counts q) type, true⟩
      ∧ (counts q = 0 → ¬ strict)) ∨
  (counts q ≠ 0 ∧
    (e = ⟨.send (buf + displs q * ext) false (counts q) type q, false⟩ ∨
     e = ⟨.send (-gap) true (counts q) type q, false⟩ ∨
     e = ⟨.recv (buf + displs q * ext) false (counts q) type q, true⟩))

/-- Entries of the receive loop of `ompi_coll_libpnbc_iallgatherv_inter` for the remote
rank `r`. -/
def allgathervInterRecv (recvbuf : Int) (recvcounts displs : Int → Int) (rcvext : MPI_Aint)
    (recvtype : MPI_Datatype) (r : Int) : List Entry :=
  if recvcounts r ≠ 0 then
    [⟨.recv (recvbuf + displs r * rcvext) false (recvcounts r) recvtype r, false⟩]
  else []

/-- All entries `ompi_coll_libpnbc_iallgatherv_inter` appends when the storage takes
them. -/
def allgathervInterEntries (rsize : Int) (sendbuf : Int) (sendcount : Int)
    (sendtype : MPI_Datatype) (recvbuf : Int) (recvcounts displs : Int → Int)
    (rcvext : MPI_Aint) (recvtype : MPI_Datatype) : List Entry :=
  (forRange 0 rsize).flatMap (allgathervInterRecv recvbuf recvcounts displs rcvext recvtype) ++
  (if sendcount ≠ 0 then
    (forRange 0 rsize).flatMap (fun r => [⟨.send sendbuf false sendcount sendtype r, false⟩])
  else [])

/-- Entries of one iteration of the loop of `ompi_coll_libpnbc_ialltoallv_inter`. -/
def alltoallvInterStep (sendbuf : Int) (sendcounts sdispls : Int → Int)
    (sndext : MPI_Aint) (sendtype : MPI_Datatype) (recvbuf : Int)
    (recvcounts rdispls : Int → Int) (rcvext : MPI_Aint) (recvtype : MPI_Datatype)
    (i : Int) : List Entry :=
  (if sendcounts i ≠ 0 then
      [⟨.send (sendbuf + sdispls i * sndext) false (sendcounts i) sendtype i, false⟩]
    else []) ++
  (if recvcounts i ≠ 0 then
      [⟨.recv (recvbuf + rdispls i * rcvext) false (recvcounts i) recvtype i, false⟩]
    else [])

/-! ## Plans in the words of the specification -/

/-- The staged exchange of the specification with the send peer `speer` and the receive
peer `rpeer`: LocalCopy of slot `rpeer` into the temporary buffer, Send of slot `speer`
to `speer`, Receive from `rpeer` into slot `rpeer`, Send of the temporary buffer to
`rpeer`, Receive from `speer` into slot `speer`. -/
def stagedExchange (buf : Int) (counts displs : Int → Int) (ext : MPI_Aint)
    (type : MPI_Datatype) (gap : Int) (speer rpeer : Int) : List Action :=
  [.copy (buf + displs rpeer * ext) false (counts rpeer) type (-gap) true (counts rpeer) type,
   .send (buf + displs speer * ext) false (counts speer) type speer,
   .recv (buf + displs rpeer * ext) false (counts rpeer) type rpeer,
   .send (-gap) true (counts rpeer) type rpeer,
   .recv (buf + displs speer * ext) false (counts speer) type speer]

/-- The exchange with the opposite rank of an even group: LocalCopy of slot `peer` into
the temporary buffer, Send of the temporary buffer to `peer`, Receive from `peer` into
slot `peer`. -/
def oppositeExchange (buf : Int) (counts displs : Int → Int) (ext : MPI_Aint)
    (type : MPI_Datatype) (gap : Int) (peer : Int) : List Action :=
  [.copy (buf + displs peer * ext) false (counts peer) type (-gap) true (counts peer) type,
   .send (-gap) true (counts peer) type peer,
   .recv (buf + displs peer * ext) false (counts peer) type peer]

/-- The plan of the Pairwise strategy in the words of the specification: for the offsets
`i = 1, .., p-1` in ascending order, a Send of `sendcounts[s]` elements to
`s = (rank + i) mod p` when `sendcounts[s] != 0`, appended without a barrier, followed by
a Receive of `recvcounts[q]` elements from `q = (rank - i + p) mod p` when
`recvcounts[q] != 0`, appended with the barrier flag set. -/
def pairwisePlan (rank p : Int) (sendbuf : Int) (sendcounts sdispls : Int → Int)
    (sndext : MPI_Aint) (sendtype : MPI_Datatype) (recvbuf : Int)
    (recvcounts rdispls : Int → Int) (rcvext : MPI_Aint) (recvtype : MPI_Datatype) :
    List Entry :=
  ((List.range (p - 1).toNat).map (fun (k : Nat) => (k : Int) + 1)).flatMap (fun i =>
    (if sendcounts ((rank + i) % p) ≠ 0 then
        [⟨.send (sendbuf + sdispls ((rank + i) % p) * sndext) false
            (sendcounts ((rank + i) % p)) sendtype ((rank + i) % p), false⟩]
      else []) ++
    (if recvcounts ((rank - i + p) % p) ≠ 0 then
        [⟨.recv (recvbuf + rdispls ((rank - i + p) % p) * rcvext) false
            (recvcounts ((rank - i + p) % p)) recvtype ((rank - i + p) % p), true⟩]
      else []))

/-- The plan of the inter-group all-gather in the words of the specification: first, for
the remote ranks `r = 0 .. rsize-1` ascending, a Receive of `recvcounts[r]` elements from
`r` into `recvbuf + displs[r]*extent` when `recvcounts[r] != 0`; then, after all
Receives, a Send of `sendcount` elements of `sendbuf` to each remote rank, ascending,
when `sendcount != 0`; no append asks for a round barrier. -/
def allgathervInterPlan (rsize : Int) (sendbuf : Int) (sendcount : Int)
    (sendtype : MPI_Datatype) (recvbuf : Int) (recvcounts displs : Int → Int)
    (extent : MPI_Aint) (recvtype : MPI_Datatype) : List Entry :=
  ((List.range rsize.toNat).map (fun (k : Nat) => (k : Int))).flatMap (fun r =>
    if recvcounts r ≠ 0 then
      [⟨.recv (recvbuf + displs r * extent) false (recvcounts r) recvtype r, false⟩]
    else []) ++
  ((List.range rsize.toNat).map (fun (k : Nat) => (k : Int))).flatMap (fun r =>
    if sendcount ≠ 0 then [⟨.send sendbuf false sendcount sendtype r, false⟩] else [])

/-- The plan of the inter-group all-to-all in the words of the specification: for each
remote rank `i = 0 .. rsize-1` ascending, a Send of `sendcounts[i]` elements from
`sendbuf + sdispls[i]*sndext` to `i` when `sendcounts[i] != 0` and, independently, a
Receive of `recvcounts[i]` elements into `recvbuf + rdispls[i]*rcvext` from `i` when
`recvcounts[i] != 0`; no remote rank is left out and no append asks for a barrier. -/
def alltoallvInterPlan (rsize : Int) (sendbuf : Int) (sendcounts sdispls : Int → Int)
    (sndext : MPI_Aint) (sendtype : MPI_Datatype) (recvbuf : Int)
    (recvcounts rdispls : Int → Int) (rcvext : MPI_Aint) (recvtype : MPI_Datatype) :
    List Entry :=
  ((List.range rsize.toNat).map (fun (k : Nat) => (k : Int))).flatMap (fun i =>
    (if sendcounts i ≠ 0 then
        [⟨.send (sendbuf + sdispls i * sndext) false (sendcounts i) sendtype i, false⟩]
      else []) ++
    (if recvcounts i ≠ 0 then
        [⟨.recv (recvbuf + rdispls i * rcvext) false (recvcounts i) recvtype i, false⟩]
      else []))

/-! ## pnbc_ialltoallv.c : the local entry point -/

/-- The answers of the memory collaborators during one call (section 6):
`span(datatype, count)`, giving the byte size and the leading gap, and whether
`allocate(byte_size)` yields a buffer. -/
structure Heap where
  span : MPI_Datatype → Int → Int × Int
  malloc : Int → Bool

/-- Lines 74-79 of `ompi_coll_libpnbc_ialltoallv_init`: the element count that sizes the
temporary buffer, `count = 0; for i < p: if (recvcounts[i] > count) count = recvcounts[i]`. -/
def ialltoallv_init_count (p : Int) (recvcounts : Int → Int) : Int :=
  (forRange 0 p).foldl (fun count i => if recvcounts i > count then recvcounts i else count) 0

/-- The local all-to-all.  `PNBC_Return_handle` is modelled from the spec (section 3: the
handle goes back to the pool together with the temporary buffer it owns).  The first
stage, lines 72-108, either returns or leaves the calls made so far, the temporary
buffer, `gap` and `sndext`; `gap` is only set in place and `sndext` only otherwise. -/
def ompi_coll_libpnbc_ialltoallv_init (sys : System) (heap : Heap) (sendbuf : Int)
    (sendcounts sdispls : Int → Int) (sendtype : MPI_Datatype) (recvbuf : Int)
    (recvcounts rdispls : Int → Int) (recvtype : MPI_Datatype)
    (comm : ompi_communicator_t) : Outcome :=
  let inplace := PNBC_IN_PLACE sendbuf recvbuf
  let rank := comm.rank
  let p := comm.size
  let (res, rcvext) := sys.extent recvtype
  if res ≠ MPI_SUCCESS then ⟨res, none, []⟩
  else if sys.init_handle_res ≠ OMPI_SUCCESS then ⟨sys.init_handle_res, none, []⟩
  else
    -- copy data to receivbuffer
    let staged : Except Outcome (List Effect × Option Int × Int × MPI_Aint) :=
      if inplace then
        let count := ialltoallv_init_count p recvcounts
        let (span, gap) := heap.span recvtype count
        if span = 0 then
          .error ⟨MPI_SUCCESS, some .empty, [.init_handle, .return_handle]⟩
        else if ¬ heap.malloc span then
          .error ⟨OMPI_ERR_OUT_OF_RESOURCE, none, [.init_handle, .return_handle]⟩
        else
          -- sendcounts = recvcounts; sdispls = rdispls
          .ok ([.init_handle, .malloc span], some span, gap, 0)
      else
        let (res, sndext) := sys.extent sendtype
        if res ≠ MPI_SUCCESS then .error ⟨res, none, [.init_handle, .return_handle]⟩
        else if sendcounts rank ≠ 0 then
          if sys.copy_res ≠ OMPI_SUCCESS then
            .error ⟨sys.copy_res, none,
              [.init_handle, .copy (sendbuf + sdispls rank * sndext) (sendcounts rank) sendtype
                (recvbuf + rdispls rank * rcvext) (recvcounts rank) recvtype]⟩
          else
            .ok ([.init_handle, .copy (sendbuf + sdispls rank * sndext) (sendcounts rank)
                sendtype (recvbuf + rdispls rank * rcvext) (recvcounts rank) recvtype],
              none, 0, sndext)
        else .ok ([.init_handle], none, 0, sndext)
    match staged with
    | .error o => o
    | .ok (trace, tmpbuf, gap, sndext) =>
      if ¬ sys.obj_new then ⟨OMPI_ERR_OUT_OF_RESOURCE, none, trace ++ [.return_handle]⟩
      else
        let built :=
          if inplace then
            a2av_sched_inplace sys.cap rank p [] recvbuf recvcounts rdispls rcvext recvtype gap
          else
            a2av_sched_linear sys.cap rank p [] sendbuf sendcounts sdispls sndext sendtype
              recvbuf recvcounts rdispls rcvext recvtype
        match built with
        | .error res => ⟨res, none, trace ++ [.obj_new, .return_handle, .obj_release]⟩
        | .ok schedule =>
          if sys.commit_res ≠ OMPI_SUCCESS then
            ⟨sys.commit_res, none, trace ++ [.obj_new, .return_handle, .obj_release]⟩
          else
            ⟨OMPI_SUCCESS, some (.handle ⟨some schedule, tmpbuf⟩), trace ++ [.obj_new]⟩

/-- Whether a call ends with a handle drawn from the pool and not returned to it. -/
def Outcome.handleHeld (o : Outcome) : Bool :=
  decide (o.trace.count .return_handle < o.trace.count .init_handle)

/-- Whether a call ends with a schedule object created and not released. -/
def Outcome.scheduleHeld (o : Outcome) : Bool :=
  decide (o.trace.count .obj_release < o.trace.count .obj_new)

/-- Whether an action reads or writes the temporary buffer of the handle. -/
def Action.usesTmp : Action → Bool
  | .send _ tmpbuf _ _ _ => tmpbuf
  | .recv _ tmpbuf _ _ _ => tmpbuf
  | .copy _ tmpsrc _ _ _ tmptgt _ _ => tmpsrc || tmptgt

/-- The largest element count an action moves: for a LocalCopy the larger of its source
and target counts. -/
def Action.maxCount : Action → Int
  | .send _ _ count _ _ => count
  | .recv _ _ count _ _ => count
  | .copy _ _ srccount _ _ _ tgtcount _ => max srccount tgtcount

/-- The index of the round the entry at position `k` lies in: the number of entries
before it that were appended with a barrier. -/
def roundOf (s : PNBC_Schedule) (k : Nat) : Nat :=
  ((s.take k).filter (fun e => e.barrier)).length

def Action.sendsFromTmp : Action → Bool
  | .send _ true _ _ _ => true
  | _ => false

def Action.copiesIntoTmp : Action → Bool
  | .copy _ _ _ _ _ true _ _ => true
  | _ => false

/-- The entries at positions `a < b` conflict on the temporary buffer: one is a Send out
of it and the other a LocalCopy into it, in either order, and the later one is not in a
strictly later round than the earlier one. -/
def tmpConflict (s : PNBC_Schedule) (a b : Nat) : Bool :=
  match s.get? a, s.get? b with
  | some ea, some eb =>
    decide (a < b) &&
      ((ea.act.sendsFromTmp && eb.act.copiesIntoTmp) ||
        (ea.act.copiesIntoTmp && eb.act.sendsFromTmp)) &&
      decide (roundOf s b ≤ roundOf s a)
  | _, _ => false

/-! ## Running a round -/

/-- Modelled from the spec: the memory of one rank while its operation runs, the value
of the element stored at each address; the flag tells an address of caller memory
(`false`) from an offset into the temporary buffer of the handle (`true`), the two kinds
of Buffer Descriptor of section 3.  The progress engine and the transport are outside
the sources at hand. -/
abbrev Memory := Bool → Int → Int

/-- Modelled from the spec: the `count` elements of extent `ext` that start at `buf`,
what a Send or a LocalCopy reads (section 3, Action). -/
def readElems (m : Memory) (tmp : Bool) (buf count : Int) (ext : MPI_Aint) : List Int :=
  (List.range count.toNat).map (fun (j : Nat) => m tmp (buf + (j : Int) * ext))

/-- Modelled from the spec: the memory after one element was stored. -/
def setElem (m : Memory) (tmp : Bool) (addr v : Int) : Memory :=
  fun t x => if t = tmp ∧ x = addr then v else m t x

/-- Modelled from the spec: the memory after the elements `data`, at most `count` of
them, were stored one after the other from `buf` on, what a Receive or a LocalCopy
writes (section 3, Action). -/
def writeElems (m : Memory) (tmp : Bool) (buf count : Int) (ext : MPI_Aint)
    (data : List Int) : Memory :=
  (List.range (min count.toNat data.length)).foldl
    (fun m' (j : Nat) => setElem m' tmp (buf + (j : Int) * ext) (data.getD j 0)) m

/-- Modelled from the spec: posting the Actions of a Round in order (section 4.2).  A
Send is handed to the transport as a non-blocking request, here the message
`(peer, data)` with the data its buffer holds at that moment; a Receive is posted and
changes nothing yet; a LocalCopy is "executed synchronously at post time".  The result
is the memory after the posting and the messages handed over, in order. -/
def postRound (extent : MPI_Datatype → MPI_Aint) :
    List Action → Memory → Memory × List (Int × List Int)
  | [], m => (m, [])
  | .send buf tmpbuf count datatype dest :: acts, m =>
    ((postRound extent acts m).1,
      (dest, readElems m tmpbuf buf count (extent datatype)) :: (postRound extent acts m).2)
  | .recv _ _ _ _ _ :: acts, m => postRound extent acts m
  | .copy src tmpsrc srccount srctype tgt tmptgt tgtcount tgttype :: acts, m =>
    postRound extent acts
      (writeElems m tmptgt tgt tgtcount (extent tgttype)
        (readElems m tmpsrc src srccount (extent srctype)))

/-- Modelled from the spec: of the messages a rank handed to the transport, the data of
those addressed to rank `b`, in the order of posting. -/
def inboxFrom (posted : List (Int × List Int)) (b : Int) : List (List Int) :=
  posted.filterMap (fun msg => if msg.1 = b then some msg.2 else none)

/-- Modelled from the spec: the Actions of a posted Round being observed complete in the
order `done` (section 5: "Actions within a Round may complete in any order").  A Receive
from `source` completes with the next message that rank sent here, stored into its
buffer; `inbox a` holds the messages of rank `a` not yet received.  The result is `none`
when a Receive has no message to complete with, the Round then never being satisfied. -/
def completeRound (extent : MPI_Datatype → MPI_Aint) :
    List Action → (Int → List (List Int)) → Memory → Option Memory
  | [], _, m => some m
  | .recv buf tmpbuf count datatype source :: done, inbox, m =>
    match inbox source with
    | [] => none
    | data :: rest =>
      completeRound extent done (fun a => if a = source then rest else inbox a)
        (writeElems m tmpbuf buf count (extent datatype) data)
  | .send _ _ _ _ _ :: done, inbox, m => completeRound extent done inbox m
  | .copy _ _ _ _ _ _ _ _ :: done, inbox, m => completeRound extent done inbox m

/-- Modelled from the spec: the memory of rank `b` after the group ran one Round each
(sections 4.2 and 5): rank `a` posts the Round `round a` on the memory `mems a`, and the
Actions of rank `b` complete in the order `done b`, its Receives taking the messages the
other ranks posted for it. -/
def runRound (extent : MPI_Datatype → MPI_Aint) (round done : Int → List Action)
    (mems : Int → Memory) (b : Int) : Option Memory :=
  completeRound extent (done b)
    (fun a => inboxFrom (postRound extent (round a) (mems a)).2 b)
    (postRound extent (round b) (mems b)).1

/-- Modelled from the spec: the Round that is posted when the operation of a call is
started, the first Round of the schedule on its handle (section 4.2, `Started`); no
Action when there is no handle or the schedule is empty. -/
def Outcome.firstRound (o : Outcome) : List Action :=
  ((o.schedule.map rounds).getD []).headD []

/-! ## Each builder appends its block of entries -/

theorem emitAll_nil (cap : Nat) (s : PNBC_Schedule) : emitAll cap [] s = pure s := by
  simp [emitAll, pure, Except.pure]

theorem emitAll_of_le (cap : Nat) (es : List Entry) (s : PNBC_Schedule)
    (h : s.length + es.length ≤ cap) : emitAll cap es s = .ok (s ++ es) := by
  simp [emitAll, h]

theorem PNBC_Sched_send_eq (cap : Nat) (buf : Int) (t : Bool) (c : Int) (d : MPI_Datatype)
    (q : Int) (s : PNBC_Schedule) (b : Bool) :
    PNBC_Sched_send cap buf t c d q s b = emitAll cap [⟨.send buf t c d q, b⟩] s := by
  simp [PNBC_Sched_send, emitAll, Nat.lt_iff_add_one_le]

theorem PNBC_Sched_recv_eq (cap : Nat) (buf : Int) (t : Bool) (c : Int) (d : MPI_Datatype)
    (q : Int) (s : PNBC_Schedule) (b : Bool) :
    PNBC_Sched_recv cap buf t c d q s b = emitAll cap [⟨.recv buf t c d q, b⟩] s := by
  simp [PNBC_Sched_recv, emitAll, Nat.lt_iff_add_one_le]

theorem PNBC_Sched_copy_eq (cap : Nat) (src : Int) (ts : Bool) (sc : Int) (sd : MPI_Datatype)
    (tgt : Int) (tt : Bool) (tc : Int) (td : MPI_Datatype) (s : PNBC_Schedule) (b : Bool) :
    PNBC_Sched_copy cap src ts sc sd tgt tt tc td s b
      = emitAll cap [⟨.copy src ts sc sd tgt tt tc td, b⟩] s := by
  simp [PNBC_Sched_copy, emitAll, Nat.lt_iff_add_one_le]

theorem emitAll_bind (cap : Nat) (es es' : List Entry) (s : PNBC_Schedule) :
    (emitAll cap es s >>= fun s' => emitAll cap es' s') = emitAll cap (es ++ es') s := by
  by_cases h : es = []
  · subst h
    simp [emitAll, bind, Except.bind]
  · by_cases h' : es' = []
    · subst h'
      by_cases hc : s.length + es.length ≤ cap
      · simp [emitAll, bind, Except.bind, h, hc]
      · simp [emitAll, bind, Except.bind, h, hc]
    · by_cases hc : s.length + es.length ≤ cap
      · simp [emitAll, bind, Except.bind, h, h', hc, Nat.add_assoc]
      · have hc' : ¬ s.length + (es.length + es'.length) ≤ cap := by omega
        simp [emitAll, bind, Except.bind, h, hc, hc']

theorem foldlM_emitAll (cap : Nat) {α : Type} (f : α → List Entry) (l : List α)
    (s : PNBC_Schedule) :
    l.foldlM (fun s i => emitAll cap (f i) s) s = emitAll cap (l.flatMap f) s := by
  induction l generalizing s with
  | nil => simp [emitAll_nil]
  | cons a l ih =>
    simp only [List.foldlM_cons, List.flatMap_cons, ← emitAll_bind]
    congr 1
    funext s'
    exact ih s'

theorem a2av_sched_linear_eq (cap : Nat) (rank p : Int) (s : PNBC_Schedule)
    (sendbuf : Int) (sendcounts sdispls : Int → Int) (sndext : MPI_Aint)
    (sendtype : MPI_Datatype) (recvbuf : Int) (recvcounts rdispls : Int → Int)
    (rcvext : MPI_Aint) (recvtype : MPI_Datatype) :
    a2av_sched_linear cap rank p s sendbuf sendcounts sdispls sndext sendtype
        recvbuf recvcounts rdispls rcvext recvtype
      = emitAll cap ((forRange 0 p).flatMap (linearStep rank sendbuf sendcounts sdispls
          sndext sendtype recvbuf recvcounts rdispls rcvext recvtype)) s := by
  unfold a2av_sched_linear
  rw [← foldlM_emitAll]
  congr 1
  funext s i
  unfold linearStep
  by_cases h : i = rank
  · simp [h, emitAll_nil]
  · by_cases h1 : sendcounts i = 0 <;> by_cases h2 : recvcounts i = 0 <;>
      simp [h, h1, h2, emitAll_nil, PNBC_Sched_send_eq, PNBC_Sched_recv_eq, emitAll_bind]

theorem zero_eq_iff (x : Int) : (0 = x) ↔ (x = 0) := eq_comm

theorem a2av_sched_pairwise_eq (cap : Nat) (rank p : Int) (s : PNBC_Schedule)
    (sendbuf : Int) (sendcounts sdispls : Int → Int) (sndext : MPI_Aint)
    (sendtype : MPI_Datatype) (recvbuf : Int) (recvcounts rdispls : Int → Int)
    (rcvext : MPI_Aint) (recvtype : MPI_Datatype) :
    a2av_sched_pairwise cap rank p s sendbuf sendcounts sdispls sndext sendtype
        recvbuf recvcounts rdispls rcvext recvtype
      = emitAll cap ((forRange 1 p).flatMap (pairwiseStep rank p sendbuf sendcounts sdispls
          sndext sendtype recvbuf recvcounts rdispls rcvext recvtype)) s := by
  unfold a2av_sched_pairwise
  rw [← foldlM_emitAll]
  congr 1
  funext s i
  unfold pairwiseStep
  by_cases h1 : sendcounts ((rank + i).tmod p) = 0 <;>
    by_cases h2 : recvcounts ((rank + p - i).tmod p) = 0 <;>
    simp [h1, h2, emitAll_nil, PNBC_Sched_send_eq, PNBC_Sched_recv_eq, emitAll_bind]

theorem a2av_sched_inplace_eq (cap : Nat) (rank p : Int) (s : PNBC_Schedule)
    (buf : Int) (counts displs : Int → Int) (ext : MPI_Aint) (type : MPI_Datatype)
    (gap : Int) :
    a2av_sched_inplace cap rank p s buf counts displs ext type gap
      = emitAll cap (inplaceEntries rank p buf counts displs ext type gap) s := by
  unfold a2av_sched_inplace inplaceEntries
  rw [← emitAll_bind, ← foldlM_emitAll]
  congr 1
  · congr 1
    funext s i
    unfold inplaceStep
    by_cases h1 : counts ((rank + i).tmod p) = 0 <;>
      by_cases h2 : counts ((rank + p - i).tmod p) = 0 <;>
      simp [zero_eq_iff, h1, h2, emitAll_nil, PNBC_Sched_send_eq, PNBC_Sched_recv_eq,
        PNBC_Sched_copy_eq, emitAll_bind]
  · funext s
    unfold inplaceTail
    by_cases h : p.tmod 2 = 0
    · by_cases h1 : counts ((rank + p.tdiv 2).tmod p) = 0
      · simp [zero_eq_iff, h, h1, emitAll_nil, PNBC_Sched_send_eq, PNBC_Sched_recv_eq,
          PNBC_Sched_copy_eq, emitAll_bind]
      · simp [zero_eq_iff, h, h1, emitAll_nil, PNBC_Sched_send_eq, PNBC_Sched_recv_eq,
          PNBC_Sched_copy_eq, emitAll_bind]
    · simp [zero_eq_iff, h, emitAll_nil]

theorem iallgatherv_init_rounds_eq (cap : Nat) (rank p : Int) (recvbuf : Int)
    (recvcounts displs : Int → Int) (rcvext : MPI_Aint) (recvtype : MPI_Datatype)
    (s : PNBC_Schedule) :
    iallgatherv_init_rounds cap rank p recvbuf recvcounts displs rcvext recvtype s
      = emitAll cap ((forRange 1 p).flatMap
          (allgathervStep rank p recvbuf recvcounts displs rcvext recvtype)) s := by
  unfold iallgatherv_init_rounds
  dsimp only
  rw [← foldlM_emitAll]
  congr 1
  funext s r
  simp [allgathervStep, PNBC_Sched_send_eq, PNBC_Sched_recv_eq, emitAll_bind]

/-! ## Arithmetic of the loops -/

theorem mem_forRange (lo hi i : Int) : i ∈ forRange lo hi ↔ lo ≤ i ∧ i < hi := by
  unfold forRange
  simp only [List.mem_map, List.mem_range]
  constructor
  · rintro ⟨k, hk, rfl⟩
    omega
  · rintro ⟨h1, h2⟩
    exact ⟨(i - lo).toNat, by omega, by omega⟩

theorem nodup_forRange (lo hi : Int) : (forRange lo hi).Nodup := by
  unfold forRange
  apply List.Nodup.map _ (List.nodup_range _)
  intro a b h
  simpa using h

theorem length_forRange (lo hi : Int) : (forRange lo hi).length = (hi - lo).toNat := by
  simp [forRange]

theorem emod_add_peer {rank p i : Int} (h0 : 0 ≤ rank) (hlt : rank < p) (hi0 : 0 ≤ i)
    (hi : i < p) : (rank + i) % p = if rank + i < p then rank + i else rank + i - p := by
  split
  · exact Int.emod_eq_of_lt (by omega) (by omega)
  · have h : rank + i = (rank + i - p) + p := by omega
    rw [h, Int.add_emod_self]
    have h' : rank + i - p + p - p = rank + i - p := by omega
    rw [h']
    exact Int.emod_eq_of_lt (by omega) (by omega)

theorem emod_sub_peer {rank p i : Int} (h0 : 0 ≤ rank) (hlt : rank < p) (hi0 : 0 ≤ i)
    (hi : i ≤ p) : (rank - i) % p = if i ≤ rank then rank - i else rank + p - i := by
  split
  · exact Int.emod_eq_of_lt (by omega) (by omega)
  · have h : (rank - i) % p = (rank - i + p) % p := by rw [Int.add_emod_self]
    rw [h]
    have h' : rank - i + p = rank + p - i := by omega
    rw [h']
    exact Int.emod_eq_of_lt (by omega) (by omega)

theorem tmod_add_peer {rank p i : Int} (h0 : 0 ≤ rank) (hlt : rank < p) (hi0 : 0 ≤ i)
    (hi : i < p) : (rank + i).tmod p = if rank + i < p then rank + i else rank + i - p := by
  rw [Int.tmod_eq_emod (by omega) (by omega)]
  exact emod_add_peer h0 hlt hi0 hi

theorem tmod_sub_peer {rank p i : Int} (h0 : 0 ≤ rank) (hlt : rank < p) (hi0 : 0 ≤ i)
    (hi : i ≤ p) : (rank + p - i).tmod p = if i ≤ rank then rank - i else rank + p - i := by
  rw [Int.tmod_eq_emod (by omega) (by omega)]
  have h : rank + p - i = rank - i + p := by omega
  rw [h, Int.add_emod_self, emod_sub_peer h0 hlt hi0 hi]
  split <;> omega

theorem tmod_sub_peer' {rank p i : Int} (h0 : 0 ≤ rank) (hlt : rank < p) (hi0 : 0 ≤ i)
    (hi : i ≤ p) : (rank - i + p).tmod p = if i ≤ rank then rank - i else rank + p - i := by
  have h : rank - i + p = rank + p - i := by omega
  rw [h]
  exact tmod_sub_peer h0 hlt hi0 hi

theorem tdiv_two (p : Int) (hp : 0 ≤ p) : p.tdiv 2 = p / 2 :=
  Int.tdiv_eq_ediv hp (by decide)

theorem tmod_two (p : Int) (hp : 0 ≤ p) : p.tmod 2 = p % 2 :=
  Int.tmod_eq_emod hp (by decide)

/-! ## The Linear strategy -/

theorem forRange_zero (p : Int) :
    forRange 0 p = (List.range p.toNat).map (fun (k : Nat) => (k : Int)) := by
  simp [forRange]

theorem flatMap_filter_eq {α β : Type} (q : α → Bool) (f : α → List β) (l : List α) :
    (l.filter q).flatMap f = l.flatMap (fun i => if q i then f i else []) := by
  induction l with
  | nil => rfl
  | cons a l ih =>
    by_cases h : q a
    · simp [List.filter_cons, h, ih]
    · simp [List.filter_cons, h, ih]

theorem rounds_of_no_barrier (s : PNBC_Schedule) (h : ∀ e ∈ s, e.barrier = false) :
    (rounds s).length ≤ 1 := by
  induction s with
  | nil => simp [rounds]
  | cons e es ih =>
    have he : e.barrier = false := h e (List.mem_cons_self _ _)
    have ih' := ih (fun e' h' => h e' (List.mem_cons_of_mem _ h'))
    simp only [rounds, he]
    cases hr : rounds es with
    | nil => simp
    | cons r rs =>
      rw [hr] at ih'
      simpa using ih'

theorem linearPlan_eq (rank p : Int) (sendbuf : Int) (sendcounts sdispls : Int → Int)
    (sndext : MPI_Aint) (sendtype : MPI_Datatype) (recvbuf : Int)
    (recvcounts rdispls : Int → Int) (rcvext : MPI_Aint) (recvtype : MPI_Datatype) :
    linearPlan rank p sendbuf sendcounts sdispls sndext sendtype recvbuf recvcounts rdispls
        rcvext recvtype
      = (forRange 0 p).flatMap (linearStep rank sendbuf sendcounts sdispls sndext sendtype
          recvbuf recvcounts rdispls rcvext recvtype) := by
  unfold linearPlan
  rw [flatMap_filter_eq, forRange_zero]
  congr 1
  funext i
  unfold linearStep
  by_cases h : i = rank <;> simp [h]

theorem linearStep_flags (rank : Int) (sendbuf : Int) (sendcounts sdispls : Int → Int)
    (sndext : MPI_Aint) (sendtype : MPI_Datatype) (recvbuf : Int)
    (recvcounts rdispls : Int → Int) (rcvext : MPI_Aint) (recvtype : MPI_Datatype)
    (i : Int) (e : Entry)
    (he : e ∈ linearStep rank sendbuf sendcounts sdispls sndext sendtype recvbuf recvcounts
      rdispls rcvext recvtype i) :
    e.barrier = false ∧ e.act.peer = some i ∧ i ≠ rank ∧ e.act.count ≠ 0 ∧
      e.act.isCopy = false := by
  unfold linearStep at he
  by_cases h : i = rank
  · simp [h] at he
  · by_cases h1 : sendcounts i = 0 <;> by_cases h2 : recvcounts i = 0 <;>
      simp [h, h1, h2] at he
    · subst he
      simp [Action.peer, Action.count, Action.isCopy, h, h2]
    · subst he
      simp [Action.peer, Action.count, Action.isCopy, h, h1]
    · rcases he with he | he <;> subst he <;>
        simp [Action.peer, Action.count, Action.isCopy, h, h1, h2]

/-- C3: for every rank and group size and every send/receive tables, when the storage
takes the plan, `a2av_sched_linear` on a fresh schedule returns exactly the plan of the
specification: for each peer `i = 0 .. p-1` other than `rank`, ascending, a Send of
`sendcounts[i]` elements from `sendbuf + sdispls[i]*sndext` to `i` exactly when
`sendcounts[i] != 0`, then a Receive of `recvcounts[i]` elements into
`recvbuf + rdispls[i]*rcvext` from `i` exactly when `recvcounts[i] != 0`; no action names
the peer `rank`, no append closes a round, and the whole schedule is at most one round. -/
theorem a2av_sched_linear_plan (cap : Nat) (rank p : Int) (sendbuf : Int)
    (sendcounts sdispls : Int → Int) (sndext : MPI_Aint) (sendtype : MPI_Datatype)
    (recvbuf : Int) (recvcounts rdispls : Int → Int) (rcvext : MPI_Aint)
    (recvtype : MPI_Datatype) (hp : 1 ≤ p) (h0 : 0 ≤ rank) (hlt : rank < p)
    (hcap : (linearPlan rank p sendbuf sendcounts sdispls sndext sendtype recvbuf recvcounts
      rdispls rcvext recvtype).length ≤ cap) :
    a2av_sched_linear cap rank p [] sendbuf sendcounts sdispls sndext sendtype
        recvbuf recvcounts rdispls rcvext recvtype
      = .ok (linearPlan rank p sendbuf sendcounts sdispls sndext sendtype recvbuf recvcounts
          rdispls rcvext recvtype) ∧
    (∀ e ∈ linearPlan rank p sendbuf sendcounts sdispls sndext sendtype recvbuf recvcounts
        rdispls rcvext recvtype, e.barrier = false ∧ e.act.peer ≠ some rank) ∧
    (rounds (linearPlan rank p sendbuf sendcounts sdispls sndext sendtype recvbuf recvcounts
        rdispls rcvext recvtype)).length ≤ 1 := by
  have _ := hp
  have _ := h0
  have _ := hlt
  have hflags : ∀ e ∈ linearPlan rank p sendbuf sendcounts sdispls sndext sendtype recvbuf
      recvcounts rdispls rcvext recvtype, e.barrier = false ∧ e.act.peer ≠ some rank := by
    intro e he
    rw [linearPlan_eq, List.mem_flatMap] at he
    obtain ⟨i, _, hi⟩ := he
    have := linearStep_flags _ _ _ _ _ _ _ _ _ _ _ i e hi
    refine ⟨this.1, ?_⟩
    rw [this.2.1]
    intro h
    exact this.2.2.1 (Option.some.inj h)
  refine ⟨?_, hflags, rounds_of_no_barrier _ (fun e he => (hflags e he).1)⟩
  rw [a2av_sched_linear_eq, ← linearPlan_eq]
  simpa using emitAll_of_le cap _ [] (by simpa using hcap)

/-- Witness for C3, the scenario of the specification: `p = 3`, rank 0,
`sendcounts = recvcounts = {1,2,0}` (displacements `{0,1,3}`, extent 4) gives exactly a
Send of 2 elements to rank 1 and a Receive of 2 elements from rank 1. -/
theorem a2av_sched_linear_plan_witness :
    a2av_sched_linear 2 0 3 [] 1000 (fun i => if i = 0 then 1 else if i = 1 then 2 else 0)
        (fun i => if i = 0 then 0 else if i = 1 then 1 else 3) 4 7
        2000 (fun i => if i = 0 then 1 else if i = 1 then 2 else 0)
        (fun i => if i = 0 then 0 else if i = 1 then 1 else 3) 4 7
      = .ok [⟨.send 1004 false 2 7 1, false⟩, ⟨.recv 2004 false 2 7 1, false⟩] :=
  (a2av_sched_linear_plan 2 0 3 1000 (fun i => if i = 0 then 1 else if i = 1 then 2 else 0)
    (fun i => if i = 0 then 0 else if i = 1 then 1 else 3) 4 7
    2000 (fun i => if i = 0 then 1 else if i = 1 then 2 else 0)
    (fun i => if i = 0 then 0 else if i = 1 then 1 else 3) 4 7
    (by decide) (by decide) (by decide) (by decide)).1

/-! ## The local all-gather -/

theorem length_flatMap_const {α β : Type} (c : Nat) (f : α → List β) (l : List α)
    (h : ∀ i, (f i).length = c) : (l.flatMap f).length = c * l.length := by
  induction l with
  | nil => simp
  | cons a l ih => simp [List.flatMap_cons, h, ih, Nat.mul_succ, Nat.add_comm]

theorem length_allgathervEntries (rank p : Int) (recvbuf : Int)
    (recvcounts displs : Int → Int) (rcvext : MPI_Aint) (recvtype : MPI_Datatype) :
    (allgathervEntries rank p recvbuf recvcounts displs rcvext recvtype).length
      = 2 * (p - 1).toNat := by
  unfold allgathervEntries
  rw [length_flatMap_const 2 (allgathervStep rank p recvbuf recvcounts displs rcvext recvtype) _
    (fun i => rfl), length_forRange]

theorem iallgatherv_init_ok (sys : System) (sendbuf : Int) (sendcount : Int)
    (sendtype : MPI_Datatype) (recvbuf : Int) (recvcounts displs : Int → Int)
    (recvtype : MPI_Datatype) (comm : ompi_communicator_t) (rcvext : MPI_Aint)
    (hs : sys.succeeds recvtype rcvext (2 * (comm.size - 1).toNat)) :
    ompi_coll_libpnbc_iallgatherv_init sys sendbuf sendcount sendtype recvbuf recvcounts
        displs recvtype comm
      = ⟨OMPI_SUCCESS,
          some (.handle ⟨some (allgathervEntries comm.rank comm.size recvbuf recvcounts displs
            rcvext recvtype), none⟩),
          (if PNBC_IN_PLACE sendbuf recvbuf then []
            else [.copy sendbuf sendcount sendtype (recvbuf + displs comm.rank * rcvext)
              (recvcounts comm.rank) recvtype]) ++ [.obj_new, .init_handle]⟩ := by
  obtain ⟨h1, h2, h3, h4, h5, h6, _⟩ := hs
  have hb := emitAll_of_le sys.cap (allgathervEntries comm.rank comm.size recvbuf recvcounts
    displs rcvext recvtype) [] (by rw [length_allgathervEntries]; simpa using h4)
  unfold ompi_coll_libpnbc_iallgatherv_init
  simp only [h1, h2, h3, h5, h6, iallgatherv_init_rounds_eq]
  unfold allgathervEntries at hb
  rw [hb]
  simp [allgathervEntries]

theorem flatMap_congr_mem {α β : Type} (f g : α → List β) (l : List α)
    (h : ∀ i ∈ l, f i = g i) : l.flatMap f = l.flatMap g := by
  induction l with
  | nil => rfl
  | cons a l ih =>
    simp only [List.flatMap_cons]
    rw [h a (List.mem_cons_self _ _), ih (fun i hi => h i (List.mem_cons_of_mem _ hi))]

theorem forRange_one (p : Int) :
    forRange 1 p = (List.range (p - 1).toNat).map (fun (k : Nat) => (k : Int) + 1) := by
  unfold forRange
  apply List.map_congr_left
  intro k _
  omega

theorem allgathervEntries_acts (rank p : Int) (recvbuf : Int)
    (recvcounts displs : Int → Int) (rcvext : MPI_Aint) (recvtype : MPI_Datatype)
    (h0 : 0 ≤ rank) (hlt : rank < p) :
    (allgathervEntries rank p recvbuf recvcounts displs rcvext recvtype).map Entry.act
      = allgathervPlan rank p recvbuf recvcounts displs rcvext recvtype := by
  unfold allgathervEntries allgathervPlan
  rw [List.map_flatMap, ← forRange_one]
  apply flatMap_congr_mem
  intro r hr
  rw [mem_forRange] at hr
  have e1 : (rank - r + p).tmod p = (rank - r) % p := by
    rw [tmod_sub_peer' h0 hlt (by omega) (by omega), emod_sub_peer h0 hlt (by omega) (by omega)]
  have e2 : (rank + r).tmod p = (rank + r) % p := Int.tmod_eq_emod (by omega) (by omega)
  simp [allgathervStep, e1, e2]

/-- C2: for every `p >= 1` and `0 <= rank < p`, when every collaborator succeeds,
`ompi_coll_libpnbc_iallgatherv_init` returns success with a handle whose schedule is
the plan of the specification: for `r = 1 .. p-1` in that order a Receive of
`recvcounts[(rank - r) mod p]` elements from `(rank - r) mod p` into
`recvbuf + displs[(rank - r) mod p] * extent`, then a Send of `recvcounts[rank]`
elements from `recvbuf + displs[rank] * extent` to `(rank + r) mod p`; the list has
exactly `2*(p-1)` actions. -/
theorem iallgatherv_init_plan (sys : System) (sendbuf : Int) (sendcount : Int)
    (sendtype : MPI_Datatype) (recvbuf : Int) (recvcounts displs : Int → Int)
    (recvtype : MPI_Datatype) (rank p rsize : Int) (rcvext : MPI_Aint)
    (hp : 1 ≤ p) (h0 : 0 ≤ rank) (hlt : rank < p)
    (hs : sys.succeeds recvtype rcvext (2 * (p - 1).toNat)) :
    (ompi_coll_libpnbc_iallgatherv_init sys sendbuf sendcount sendtype recvbuf recvcounts
        displs recvtype ⟨rank, p, rsize⟩).res = OMPI_SUCCESS ∧
    (ompi_coll_libpnbc_iallgatherv_init sys sendbuf sendcount sendtype recvbuf recvcounts
        displs recvtype ⟨rank, p, rsize⟩).schedule.map (List.map Entry.act)
      = some (allgathervPlan rank p recvbuf recvcounts displs rcvext recvtype) ∧
    ((allgathervPlan rank p recvbuf recvcounts displs rcvext recvtype).length : Int)
      = 2 * (p - 1) := by
  rw [iallgatherv_init_ok sys sendbuf sendcount sendtype recvbuf recvcounts displs recvtype
    ⟨rank, p, rsize⟩ rcvext hs]
  refine ⟨rfl, ?_, ?_⟩
  · simp only [Outcome.schedule, Option.map_some']
    rw [allgathervEntries_acts _ _ _ _ _ _ _ h0 hlt]
  · rw [← allgathervEntries_acts _ _ _ _ _ _ _ h0 hlt, List.length_map,
      length_allgathervEntries]
    omega

/-- Witness for C2: `p = 4`, rank 1, `recvcounts = {2,1,3,2}`, `displs = {0,2,3,6}`,
extent 4, receive buffer at 1000. -/
theorem iallgatherv_init_plan_witness :
    (ompi_coll_libpnbc_iallgatherv_init ⟨fun _ => (0, 4), 0, true, 6, 0, 0, 0⟩ 500 1 7 1000
        (fun i => if i = 0 then 2 else if i = 1 then 1 else if i = 2 then 3 else 2)
        (fun i => if i = 0 then 0 else if i = 1 then 2 else if i = 2 then 3 else 6)
        7 ⟨1, 4, 0⟩).schedule.map (List.map Entry.act)
      = some [.recv 1000 false 2 7 0, .send 1008 false 1 7 2,
              .recv 1024 false 2 7 3, .send 1008 false 1 7 3,
              .recv 1012 false 3 7 2, .send 1008 false 1 7 0] :=
  (iallgatherv_init_plan ⟨fun _ => (0, 4), 0, true, 6, 0, 0, 0⟩ 500 1 7 1000
    (fun i => if i = 0 then 2 else if i = 1 then 1 else if i = 2 then 3 else 2)
    (fun i => if i = 0 then 0 else if i = 1 then 2 else if i = 2 then 3 else 6)
    7 1 4 0 4 (by decide) (by decide) (by decide)
    ⟨rfl, rfl, rfl, by decide, rfl, rfl, rfl⟩).2.1

theorem countP_flatMap_zero {α β : Type} (P : β → Bool) (f : α → List β) (l : List α)
    (h : ∀ i ∈ l, (f i).countP P = 0) : (l.flatMap f).countP P = 0 := by
  induction l with
  | nil => rfl
  | cons a l ih =>
    rw [List.flatMap_cons, List.countP_append, h a (List.mem_cons_self _ _),
      ih (fun i hi => h i (List.mem_cons_of_mem _ hi))]

theorem countP_flatMap_unique {α β : Type} (P : β → Bool) (f : α → List β) (l : List α)
    (hl : l.Nodup) (i0 : α) (hi0 : i0 ∈ l) (h1 : (f i0).countP P = 1)
    (h0 : ∀ i ∈ l, i ≠ i0 → (f i).countP P = 0) : (l.flatMap f).countP P = 1 := by
  induction l with
  | nil => cases hi0
  | cons a l ih =>
    rw [List.flatMap_cons, List.countP_append]
    rw [List.nodup_cons] at hl
    by_cases ha : a = i0
    · subst ha
      rw [h1, countP_flatMap_zero P f l]
      intro i hi
      apply h0 i (List.mem_cons_of_mem _ hi)
      intro h
      subst h
      exact hl.1 hi
    · have hmem : i0 ∈ l := by
        rcases List.mem_cons.mp hi0 with h | h
        · exact absurd h.symm ha
        · exact h
      rw [h0 a (List.mem_cons_self _ _) ha,
        ih hl.2 hmem (fun i hi => h0 i (List.mem_cons_of_mem _ hi))]

theorem allgathervStep_sendsTo (rank p : Int) (recvbuf : Int) (recvcounts displs : Int → Int)
    (rcvext : MPI_Aint) (recvtype : MPI_Datatype) (r q : Int) :
    (allgathervStep rank p recvbuf recvcounts displs rcvext recvtype r).countP
        (Entry.sendsTo q) = if (rank + r).tmod p = q then 1 else 0 := by
  simp [allgathervStep, List.countP_cons, Entry.sendsTo, Action.isSend, Action.peer]

theorem allgathervStep_recvsFrom (rank p : Int) (recvbuf : Int)
    (recvcounts displs : Int → Int) (rcvext : MPI_Aint) (recvtype : MPI_Datatype)
    (r q : Int) :
    (allgathervStep rank p recvbuf recvcounts displs rcvext recvtype r).countP
        (Entry.recvsFrom q) = if (rank - r + p).tmod p = q then 1 else 0 := by
  simp [allgathervStep, List.countP_cons, Entry.recvsFrom, Action.isRecv, Action.peer]

theorem allgathervEntries_one_send (rank p : Int) (recvbuf : Int)
    (recvcounts displs : Int → Int) (rcvext : MPI_Aint) (recvtype : MPI_Datatype)
    (q : Int) (h0 : 0 ≤ rank) (hlt : rank < p) (hq0 : 0 ≤ q) (hq : q < p) (hne : q ≠ rank) :
    (allgathervEntries rank p recvbuf recvcounts displs rcvext recvtype).countP
        (Entry.sendsTo q) = 1 ∧
    ⟨.send (recvbuf + displs rank * rcvext) false (recvcounts rank) recvtype q, false⟩
      ∈ allgathervEntries rank p recvbuf recvcounts displs rcvext recvtype := by
  have hi0 : (if rank < q then q - rank else q - rank + p) ∈ forRange 1 p := by
    rw [mem_forRange]; split <;> omega
  have hpeer : (rank + (if rank < q then q - rank else q - rank + p)).tmod p = q := by
    rw [tmod_add_peer h0 hlt (by split <;> omega) (by split <;> omega)]
    split <;> split <;> omega
  constructor
  · unfold allgathervEntries
    apply countP_flatMap_unique _ _ _ (nodup_forRange 1 p) _ hi0
    · rw [allgathervStep_sendsTo, hpeer]; simp
    · intro i hi hne'
      rw [mem_forRange] at hi
      rw [allgathervStep_sendsTo, tmod_add_peer h0 hlt (by omega) (by omega)]
      have : ¬ (if rank + i < p then rank + i else rank + i - p) = q := by
        split <;> split at hne' <;> omega
      simp [this]
  · unfold allgathervEntries
    rw [List.mem_flatMap]
    refine ⟨_, hi0, ?_⟩
    simp [allgathervStep, hpeer]

theorem allgathervEntries_one_recv (rank p : Int) (recvbuf : Int)
    (recvcounts displs : Int → Int) (rcvext : MPI_Aint) (recvtype : MPI_Datatype)
    (q : Int) (h0 : 0 ≤ rank) (hlt : rank < p) (hq0 : 0 ≤ q) (hq : q < p) (hne : q ≠ rank) :
    (allgathervEntries rank p recvbuf recvcounts displs rcvext recvtype).countP
        (Entry.recvsFrom q) = 1 ∧
    ⟨.recv (recvbuf + displs q * rcvext) false (recvcounts q) recvtype q, false⟩
      ∈ allgathervEntries rank p recvbuf recvcounts displs rcvext recvtype := by
  have hi0 : (if q < rank then rank - q else rank - q + p) ∈ forRange 1 p := by
    rw [mem_forRange]; split <;> omega
  have hpeer : (rank - (if q < rank then rank - q else rank - q + p) + p).tmod p = q := by
    rw [tmod_sub_peer' h0 hlt (by split <;> omega) (by split <;> omega)]
    split <;> split <;> omega
  constructor
  · unfold allgathervEntries
    apply countP_flatMap_unique _ _ _ (nodup_forRange 1 p) _ hi0
    · rw [allgathervStep_recvsFrom, hpeer]; simp
    · intro i hi hne'
      rw [mem_forRange] at hi
      rw [allgathervStep_recvsFrom, tmod_sub_peer' h0 hlt (by omega) (by omega)]
      have : ¬ (if i ≤ rank then rank - i else rank + p - i) = q := by
        split <;> split at hne' <;> omega
      simp [this]
  · unfold allgathervEntries
    rw [List.mem_flatMap]
    refine ⟨_, hi0, ?_⟩
    simp [allgathervStep, hpeer]

/-! ## Linear and Pairwise exchange the same messages -/

theorem mem_peersOf (rank p q : Int) : q ∈ peersOf rank p ↔ (0 ≤ q ∧ q < p) ∧ q ≠ rank := by
  simp [peersOf, mem_forRange]

theorem nodup_peersOf (rank p : Int) : (peersOf rank p).Nodup :=
  (nodup_forRange 0 p).filter _

theorem peersOf_perm_ahead (rank p : Int) (h0 : 0 ≤ rank) (hlt : rank < p) :
    ((forRange 1 p).map (fun i => (rank + i).tmod p)).Perm (peersOf rank p) := by
  rw [List.perm_ext_iff_of_nodup _ (nodup_peersOf rank p)]
  · intro q
    rw [mem_peersOf, List.mem_map]
    constructor
    · rintro ⟨i, hi, rfl⟩
      rw [mem_forRange] at hi
      rw [tmod_add_peer h0 hlt (by omega) (by omega)]
      split <;> omega
    · rintro ⟨⟨hq0, hq⟩, hne⟩
      refine ⟨if rank < q then q - rank else q - rank + p, ?_, ?_⟩
      · rw [mem_forRange]; split <;> omega
      · rw [tmod_add_peer h0 hlt (by split <;> omega) (by split <;> omega)]
        split <;> split <;> omega
  · apply List.Nodup.map_on _ (nodup_forRange 1 p)
    intro i hi j hj hij
    rw [mem_forRange] at hi hj
    rw [tmod_add_peer h0 hlt (by omega) (by omega),
      tmod_add_peer h0 hlt (by omega) (by omega)] at hij
    split at hij <;> split at hij <;> omega

theorem peersOf_perm_behind (rank p : Int) (h0 : 0 ≤ rank) (hlt : rank < p) :
    ((forRange 1 p).map (fun i => (rank + p - i).tmod p)).Perm (peersOf rank p) := by
  rw [List.perm_ext_iff_of_nodup _ (nodup_peersOf rank p)]
  · intro q
    rw [mem_peersOf, List.mem_map]
    constructor
    · rintro ⟨i, hi, rfl⟩
      rw [mem_forRange] at hi
      rw [tmod_sub_peer h0 hlt (by omega) (by omega)]
      split <;> omega
    · rintro ⟨⟨hq0, hq⟩, hne⟩
      refine ⟨if q < rank then rank - q else rank - q + p, ?_, ?_⟩
      · rw [mem_forRange]; split <;> omega
      · rw [tmod_sub_peer h0 hlt (by split <;> omega) (by split <;> omega)]
        split <;> split <;> omega
  · apply List.Nodup.map_on _ (nodup_forRange 1 p)
    intro i hi j hj hij
    rw [mem_forRange] at hi hj
    rw [tmod_sub_peer h0 hlt (by omega) (by omega),
      tmod_sub_peer h0 hlt (by omega) (by omega)] at hij
    split at hij <;> split at hij <;> omega

theorem linear_acts (rank p : Int) (sendbuf : Int) (sendcounts sdispls : Int → Int)
    (sndext : MPI_Aint) (sendtype : MPI_Datatype) (recvbuf : Int)
    (recvcounts rdispls : Int → Int) (rcvext : MPI_Aint) (recvtype : MPI_Datatype) :
    ((forRange 0 p).flatMap (linearStep rank sendbuf sendcounts sdispls sndext sendtype
        recvbuf recvcounts rdispls rcvext recvtype)).map Entry.act
      = (peersOf rank p).flatMap (fun i =>
          sendFor sendbuf sendcounts sdispls sndext sendtype i ++
          recvFor recvbuf recvcounts rdispls rcvext recvtype i) := by
  unfold peersOf
  rw [flatMap_filter_eq, List.map_flatMap]
  congr 1
  funext i
  unfold linearStep sendFor recvFor
  by_cases h : i = rank
  · simp [h]
  · by_cases h1 : sendcounts i = 0 <;> by_cases h2 : recvcounts i = 0 <;> simp [h, h1, h2]

theorem pairwise_acts (rank p : Int) (sendbuf : Int) (sendcounts sdispls : Int → Int)
    (sndext : MPI_Aint) (sendtype : MPI_Datatype) (recvbuf : Int)
    (recvcounts rdispls : Int → Int) (rcvext : MPI_Aint) (recvtype : MPI_Datatype) :
    ((forRange 1 p).flatMap (pairwiseStep rank p sendbuf sendcounts sdispls sndext sendtype
        recvbuf recvcounts rdispls rcvext recvtype)).map Entry.act
      = (forRange 1 p).flatMap (fun i =>
          sendFor sendbuf sendcounts sdispls sndext sendtype ((rank + i).tmod p) ++
          recvFor recvbuf recvcounts rdispls rcvext recvtype ((rank + p - i).tmod p)) := by
  rw [List.map_flatMap]
  congr 1
  funext i
  unfold pairwiseStep sendFor recvFor
  by_cases h1 : sendcounts ((rank + i).tmod p) = 0 <;>
    by_cases h2 : recvcounts ((rank + p - i).tmod p) = 0 <;> simp [h1, h2]

theorem flatMap_map_eq {α β γ : Type} (g : α → β) (f : β → List γ) (l : List α) :
    (l.map g).flatMap f = l.flatMap (fun i => f (g i)) := by
  induction l with
  | nil => rfl
  | cons a l ih => simp [List.flatMap_cons, ih]

theorem pairwise_perm_linear_acts (rank p : Int) (sendbuf : Int)
    (sendcounts sdispls : Int → Int) (sndext : MPI_Aint) (sendtype : MPI_Datatype)
    (recvbuf : Int) (recvcounts rdispls : Int → Int) (rcvext : MPI_Aint)
    (recvtype : MPI_Datatype) (h0 : 0 ≤ rank) (hlt : rank < p) :
    (((forRange 1 p).flatMap (pairwiseStep rank p sendbuf sendcounts sdispls sndext sendtype
        recvbuf recvcounts rdispls rcvext recvtype)).map Entry.act).Perm
      (((forRange 0 p).flatMap (linearStep rank sendbuf sendcounts sdispls sndext sendtype
        recvbuf recvcounts rdispls rcvext recvtype)).map Entry.act) := by
  rw [linear_acts, pairwise_acts]
  refine ((List.flatMap_append_perm _ _ _).symm.trans ?_).trans
    (List.flatMap_append_perm _ _ _)
  rw [← flatMap_map_eq (fun i => (rank + i).tmod p)
      (sendFor sendbuf sendcounts sdispls sndext sendtype),
    ← flatMap_map_eq (fun i => (rank + p - i).tmod p)
      (recvFor recvbuf recvcounts rdispls rcvext recvtype)]
  exact List.Perm.append
    (List.Perm.flatMap_right _ (peersOf_perm_ahead rank p h0 hlt))
    (List.Perm.flatMap_right _ (peersOf_perm_behind rank p h0 hlt))

/-- C4: for every `p >= 1`, `0 <= rank < p` and identical inputs, when the storage takes
the Linear plan, `a2av_sched_linear` and `a2av_sched_pairwise` both succeed on a fresh
schedule and the actions of the Pairwise schedule are a permutation of the actions of the
Linear schedule, an action being its kind, buffer, count, datatype and peer (the trailing
barrier flag of the append is left out); in particular both have the same number of
Sends and the same number of Receives. -/
theorem a2av_pairwise_perm_linear (cap : Nat) (rank p : Int) (sendbuf : Int)
    (sendcounts sdispls : Int → Int) (sndext : MPI_Aint) (sendtype : MPI_Datatype)
    (recvbuf : Int) (recvcounts rdispls : Int → Int) (rcvext : MPI_Aint)
    (recvtype : MPI_Datatype) (hp : 1 ≤ p) (h0 : 0 ≤ rank) (hlt : rank < p)
    (hcap : (linearPlan rank p sendbuf sendcounts sdispls sndext sendtype recvbuf recvcounts
      rdispls rcvext recvtype).length ≤ cap) :
    ∃ sl sp : PNBC_Schedule,
      a2av_sched_linear cap rank p [] sendbuf sendcounts sdispls sndext sendtype
          recvbuf recvcounts rdispls rcvext recvtype = .ok sl ∧
      a2av_sched_pairwise cap rank p [] sendbuf sendcounts sdispls sndext sendtype
          recvbuf recvcounts rdispls rcvext recvtype = .ok sp ∧
      (sp.map Entry.act).Perm (sl.map Entry.act) ∧
      (sp.map Entry.act).countP Action.isSend = (sl.map Entry.act).countP Action.isSend ∧
      (sp.map Entry.act).countP Action.isRecv = (sl.map Entry.act).countP Action.isRecv := by
  have _ := hp
  have hperm := pairwise_perm_linear_acts rank p sendbuf sendcounts sdispls sndext sendtype
    recvbuf recvcounts rdispls rcvext recvtype h0 hlt
  rw [linearPlan_eq] at hcap
  have hlen := hperm.length_eq
  rw [List.length_map, List.length_map] at hlen
  refine ⟨_, _, ?_, ?_, hperm, hperm.countP_eq _, hperm.countP_eq _⟩
  · rw [a2av_sched_linear_eq]
    simpa using emitAll_of_le cap _ [] (by simpa using hcap)
  · rw [a2av_sched_pairwise_eq]
    simpa using emitAll_of_le cap _ [] (by simpa [hlen] using hcap)

/-- Witness for C4: `p = 3`, rank 1, `sendcounts = {1,2,3}`, `recvcounts = {4,0,6}`. -/
theorem a2av_pairwise_perm_linear_witness :
    ∃ sl sp : PNBC_Schedule,
      a2av_sched_linear 4 1 3 [] 1000 (fun i => i + 1) (fun i => 2 * i) 4 7
          2000 (fun i => if i = 1 then 0 else i + 4) (fun i => 3 * i) 8 9 = .ok sl ∧
      a2av_sched_pairwise 4 1 3 [] 1000 (fun i => i + 1) (fun i => 2 * i) 4 7
          2000 (fun i => if i = 1 then 0 else i + 4) (fun i => 3 * i) 8 9 = .ok sp ∧
      (sp.map Entry.act).Perm (sl.map Entry.act) ∧
      (sp.map Entry.act).countP Action.isSend = (sl.map Entry.act).countP Action.isSend ∧
      (sp.map Entry.act).countP Action.isRecv = (sl.map Entry.act).countP Action.isRecv :=
  a2av_pairwise_perm_linear 4 1 3 1000 (fun i => i + 1) (fun i => 2 * i) 4 7
    2000 (fun i => if i = 1 then 0 else i + 4) (fun i => 3 * i) 8 9
    (by decide) (by decide) (by decide) (by decide)

/-! ## The in-place strategy -/

theorem peer_ahead_cases {rank p i : Int} (h0 : 0 ≤ rank) (hlt : rank < p) (hi0 : 0 ≤ i)
    (hi : i < p) :
    ((rank + i).tmod p = rank + i ∧ rank + i < p) ∨
    ((rank + i).tmod p = rank + i - p ∧ p ≤ rank + i) := by
  rw [tmod_add_peer h0 hlt hi0 hi]
  split <;> omega

theorem peer_behind_cases {rank p i : Int} (h0 : 0 ≤ rank) (hlt : rank < p) (hi0 : 0 ≤ i)
    (hi : i ≤ p) :
    ((rank + p - i).tmod p = rank - i ∧ i ≤ rank) ∨
    ((rank + p - i).tmod p = rank + p - i ∧ rank < i) := by
  rw [tmod_sub_peer h0 hlt hi0 hi]
  split <;> omega

theorem mem_inplace_range (p i : Int) (hp : 0 ≤ p) :
    i ∈ forRange 1 ((p + 1).tdiv 2) ↔ 1 ≤ i ∧ 2 * i < p := by
  rw [mem_forRange, tdiv_two _ (by omega)]
  omega

theorem inplaceStep_sendsTo (buf : Int) (counts displs : Int → Int) (ext : MPI_Aint)
    (type : MPI_Datatype) (gap : Int) (sp rp j : Int) :
    (inplaceStep buf counts displs ext type gap sp rp).countP (Entry.sendsTo j)
      = (if counts sp ≠ 0 ∧ sp = j then 1 else 0) + (if counts rp ≠ 0 ∧ rp = j then 1 else 0) := by
  unfold inplaceStep
  by_cases h1 : counts sp = 0 <;> by_cases h2 : counts rp = 0 <;>
    simp [zero_eq_iff, h1, h2, List.countP_cons, Entry.sendsTo, Action.isSend,
      Action.peer]
  exact Nat.add_comm _ _

theorem inplaceStep_recvsFrom (buf : Int) (counts displs : Int → Int) (ext : MPI_Aint)
    (type : MPI_Datatype) (gap : Int) (sp rp j : Int) :
    (inplaceStep buf counts displs ext type gap sp rp).countP (Entry.recvsFrom j)
      = (if counts sp ≠ 0 ∧ sp = j then 1 else 0) + (if counts rp ≠ 0 ∧ rp = j then 1 else 0) := by
  unfold inplaceStep
  by_cases h1 : counts sp = 0 <;> by_cases h2 : counts rp = 0 <;>
    simp [zero_eq_iff, h1, h2, List.countP_cons, Entry.recvsFrom, Action.isRecv,
      Action.peer]

theorem inplaceTail_sendsTo (rank p : Int) (buf : Int) (counts displs : Int → Int)
    (ext : MPI_Aint) (type : MPI_Datatype) (gap : Int) (j : Int) :
    (inplaceTail rank p buf counts displs ext type gap).countP (Entry.sendsTo j)
      = if p.tmod 2 = 0 ∧ counts ((rank + p.tdiv 2).tmod p) ≠ 0 ∧
          (rank + p.tdiv 2).tmod p = j then 1 else 0 := by
  unfold inplaceTail
  by_cases h : p.tmod 2 = 0 <;> by_cases h1 : counts ((rank + p.tdiv 2).tmod p) = 0 <;>
    simp [zero_eq_iff, h, h1, List.countP_cons, Entry.sendsTo, Action.isSend, Action.peer]

theorem inplaceTail_recvsFrom (rank p : Int) (buf : Int) (counts displs : Int → Int)
    (ext : MPI_Aint) (type : MPI_Datatype) (gap : Int) (j : Int) :
    (inplaceTail rank p buf counts displs ext type gap).countP (Entry.recvsFrom j)
      = if p.tmod 2 = 0 ∧ counts ((rank + p.tdiv 2).tmod p) ≠ 0 ∧
          (rank + p.tdiv 2).tmod p = j then 1 else 0 := by
  unfold inplaceTail
  by_cases h : p.tmod 2 = 0 <;> by_cases h1 : counts ((rank + p.tdiv 2).tmod p) = 0 <;>
    simp [zero_eq_iff, h, h1, List.countP_cons, Entry.recvsFrom, Action.isRecv, Action.peer]

/-- Counting, in one iteration of the loop of `a2av_sched_inplace`, the entries that
exchange with a peer `j` of nonzero count: `d` is the offset of `j` ahead of `rank`. -/
theorem inplace_step_count_pos (P : Entry → Bool) (rank p : Int) (buf : Int)
    (counts displs : Int → Int) (ext : MPI_Aint) (type : MPI_Datatype) (gap : Int)
    (j d i : Int)
    (hstep : ∀ sp rp, (inplaceStep buf counts displs ext type gap sp rp).countP P
      = (if counts sp ≠ 0 ∧ sp = j then 1 else 0) + (if counts rp ≠ 0 ∧ rp = j then 1 else 0))
    (h0 : 0 ≤ rank) (hlt : rank < p) (hj0 : 0 ≤ j) (hj : j < p) (hcj : counts j ≠ 0)
    (hd : (rank < j ∧ d = j - rank) ∨ (j < rank ∧ d = j - rank + p))
    (hi : 1 ≤ i) (h2i : 2 * i < p) :
    (inplaceStep buf counts displs ext type gap ((rank + i).tmod p)
        ((rank + p - i).tmod p)).countP P
      = (if i = d then 1 else 0) + (if i = p - d then 1 else 0) := by
  rw [hstep]
  have hs := peer_ahead_cases h0 hlt (show 0 ≤ i by omega) (show i < p by omega)
  have hr := peer_behind_cases h0 hlt (show 0 ≤ i by omega) (show i ≤ p by omega)
  generalize (rank + i).tmod p = sp at hs ⊢
  generalize (rank + p - i).tmod p = rp at hr ⊢
  have e1 : (counts sp ≠ 0 ∧ sp = j) ↔ i = d := by
    constructor
    · rintro ⟨_, h⟩
      omega
    · intro h
      have : sp = j := by omega
      subst this
      exact ⟨hcj, rfl⟩
  have e2 : (counts rp ≠ 0 ∧ rp = j) ↔ i = p - d := by
    constructor
    · rintro ⟨_, h⟩
      omega
    · intro h
      have : rp = j := by omega
      subst this
      exact ⟨hcj, rfl⟩
  simp only [e1, e2]

/-- In one iteration of the loop of `a2av_sched_inplace` nothing is exchanged with a
peer `j` that has count zero, is the rank itself or is outside the group. -/
theorem inplace_step_count_zero (P : Entry → Bool) (rank p : Int) (buf : Int)
    (counts displs : Int → Int) (ext : MPI_Aint) (type : MPI_Datatype) (gap : Int)
    (j i : Int)
    (hstep : ∀ sp rp, (inplaceStep buf counts displs ext type gap sp rp).countP P
      = (if counts sp ≠ 0 ∧ sp = j then 1 else 0) + (if counts rp ≠ 0 ∧ rp = j then 1 else 0))
    (h0 : 0 ≤ rank) (hlt : rank < p)
    (hj : ¬ ((0 ≤ j ∧ j < p) ∧ j ≠ rank ∧ counts j ≠ 0))
    (hi : 1 ≤ i) (h2i : 2 * i < p) :
    (inplaceStep buf counts displs ext type gap ((rank + i).tmod p)
        ((rank + p - i).tmod p)).countP P = 0 := by
  rw [hstep]
  have hs := peer_ahead_cases h0 hlt (show 0 ≤ i by omega) (show i < p by omega)
  have hr := peer_behind_cases h0 hlt (show 0 ≤ i by omega) (show i ≤ p by omega)
  generalize (rank + i).tmod p = sp at hs ⊢
  generalize (rank + p - i).tmod p = rp at hr ⊢
  have e1 : ¬ (counts sp ≠ 0 ∧ sp = j) := by
    rintro ⟨hc, h⟩
    subst h
    exact hj ⟨⟨by omega, by omega⟩, by omega, hc⟩
  have e2 : ¬ (counts rp ≠ 0 ∧ rp = j) := by
    rintro ⟨hc, h⟩
    subst h
    exact hj ⟨⟨by omega, by omega⟩, by omega, hc⟩
  simp only [e1, e2, if_false]

theorem tail_peer_cases {rank p : Int} (h0 : 0 ≤ rank) (hlt : rank < p) :
    ((rank + p.tdiv 2).tmod p = rank + p / 2 ∧ rank + p / 2 < p) ∨
    ((rank + p.tdiv 2).tmod p = rank + p / 2 - p ∧ p ≤ rank + p / 2) := by
  rw [tdiv_two p (by omega)]
  exact peer_ahead_cases h0 hlt (by omega) (by omega)

/-- Counting the entries of the whole in-place schedule that exchange with the peer `j`:
one when `j` is another rank of the group with nonzero count, none otherwise. -/
theorem inplace_count (P : Entry → Bool) (rank p : Int) (buf : Int)
    (counts displs : Int → Int) (ext : MPI_Aint) (type : MPI_Datatype) (gap : Int) (j : Int)
    (hstep : ∀ sp rp, (inplaceStep buf counts displs ext type gap sp rp).countP P
      = (if counts sp ≠ 0 ∧ sp = j then 1 else 0) + (if counts rp ≠ 0 ∧ rp = j then 1 else 0))
    (htail : (inplaceTail rank p buf counts displs ext type gap).countP P
      = if p.tmod 2 = 0 ∧ counts ((rank + p.tdiv 2).tmod p) ≠ 0 ∧
          (rank + p.tdiv 2).tmod p = j then 1 else 0)
    (h0 : 0 ≤ rank) (hlt : rank < p) :
    (inplaceEntries rank p buf counts displs ext type gap).countP P
      = if (0 ≤ j ∧ j < p) ∧ j ≠ rank ∧ counts j ≠ 0 then 1 else 0 := by
  unfold inplaceEntries
  rw [List.countP_append, htail, tmod_two p (by omega)]
  have ht := tail_peer_cases h0 hlt
  generalize (rank + p.tdiv 2).tmod p = tp at ht ⊢
  by_cases hj : (0 ≤ j ∧ j < p) ∧ j ≠ rank ∧ counts j ≠ 0
  · rw [if_pos hj]
    obtain ⟨⟨hj0, hjp⟩, hne, hcj⟩ := hj
    obtain ⟨d, hd⟩ : ∃ d : Int, (rank < j ∧ d = j - rank) ∨ (j < rank ∧ d = j - rank + p) := by
      by_cases h : rank < j
      · exact ⟨j - rank, Or.inl ⟨h, rfl⟩⟩
      · exact ⟨j - rank + p, Or.inr ⟨by omega, rfl⟩⟩
    have hloop : ∀ i ∈ forRange 1 ((p + 1).tdiv 2),
        (inplaceStep buf counts displs ext type gap ((rank + i).tmod p)
          ((rank + p - i).tmod p)).countP P
        = (if i = d then 1 else 0) + (if i = p - d then 1 else 0) := by
      intro i hi
      rw [mem_inplace_range p i (by omega)] at hi
      exact inplace_step_count_pos P rank p buf counts displs ext type gap j d i hstep h0 hlt
        hj0 hjp hcj hd hi.1 hi.2
    rcases Int.lt_trichotomy (2 * d) p with hlt2 | heq2 | hgt2
    · have hmem : d ∈ forRange 1 ((p + 1).tdiv 2) := by
        rw [mem_inplace_range p d (by omega)]; omega
      rw [countP_flatMap_unique P _ _ (nodup_forRange _ _) d hmem]
      · have : ¬ (p % 2 = 0 ∧ counts tp ≠ 0 ∧ tp = j) := by
          rintro ⟨h1, _, h3⟩
          omega
        rw [if_neg this]
      · rw [hloop d hmem]
        have : ¬ d = p - d := by omega
        rw [if_pos rfl, if_neg this]
      · intro i hi hne'
        rw [hloop i hi]
        rw [mem_inplace_range p i (by omega)] at hi
        have : ¬ i = p - d := by omega
        rw [if_neg hne', if_neg this]
    · rw [countP_flatMap_zero P]
      · have : p % 2 = 0 ∧ counts tp ≠ 0 ∧ tp = j := by
          have : tp = j := by omega
          subst this
          exact ⟨by omega, hcj, rfl⟩
        rw [if_pos this]
      · intro i hi
        rw [hloop i hi]
        rw [mem_inplace_range p i (by omega)] at hi
        have h1 : ¬ i = d := by omega
        have h2 : ¬ i = p - d := by omega
        rw [if_neg h1, if_neg h2]
    · have hmem : p - d ∈ forRange 1 ((p + 1).tdiv 2) := by
        rw [mem_inplace_range p (p - d) (by omega)]; omega
      rw [countP_flatMap_unique P _ _ (nodup_forRange _ _) (p - d) hmem]
      · have : ¬ (p % 2 = 0 ∧ counts tp ≠ 0 ∧ tp = j) := by
          rintro ⟨h1, _, h3⟩
          omega
        rw [if_neg this]
      · rw [hloop (p - d) hmem]
        have : ¬ p - d = d := by omega
        rw [if_neg this, if_pos rfl]
      · intro i hi hne'
        rw [hloop i hi]
        rw [mem_inplace_range p i (by omega)] at hi
        have : ¬ i = d := by omega
        rw [if_neg this, if_neg hne']
  · rw [if_neg hj, countP_flatMap_zero P]
    · have : ¬ (p % 2 = 0 ∧ counts tp ≠ 0 ∧ tp = j) := by
        rintro ⟨h1, hc, h3⟩
        subst h3
        exact hj ⟨⟨by omega, by omega⟩, by omega, hc⟩
      rw [if_neg this]
    · intro i hi
      rw [mem_inplace_range p i (by omega)] at hi
      exact inplace_step_count_zero P rank p buf counts displs ext type gap j i hstep h0 hlt hj
        hi.1 hi.2

theorem inplaceStep_shape (buf : Int) (counts displs : Int → Int) (ext : MPI_Aint)
    (type : MPI_Datatype) (gap : Int) (strict : Prop) (sp rp : Int) (e : Entry)
    (he : e ∈ inplaceStep buf counts displs ext type gap sp rp) :
    InplaceShape buf counts displs ext type gap strict sp e ∨
    InplaceShape buf counts displs ext type gap strict rp e := by
  unfold inplaceStep at he
  unfold InplaceShape
  by_cases h1 : counts sp = 0 <;> by_cases h2 : counts rp = 0 <;>
    simp [zero_eq_iff, h1, h2] at he
  · rcases he with he | he | he <;> subst he <;> simp [h2]
  · rcases he with he | he <;> subst he <;> simp [h1]
  · rcases he with he | he | he | he | he <;> subst he <;> simp [h1, h2]

theorem inplaceTail_shape (rank p : Int) (buf : Int) (counts displs : Int → Int)
    (ext : MPI_Aint) (type : MPI_Datatype) (gap : Int) (e : Entry)
    (he : e ∈ inplaceTail rank p buf counts displs ext type gap) :
    p.tmod 2 = 0 ∧
    InplaceShape buf counts displs ext type gap (p.tmod 2 ≠ 0) ((rank + p.tdiv 2).tmod p) e := by
  unfold inplaceTail at he
  unfold InplaceShape
  by_cases h : p.tmod 2 = 0
  · by_cases h1 : counts ((rank + p.tdiv 2).tmod p) = 0
    · simp [zero_eq_iff, h, h1] at he
      subst he
      simp [h, h1]
    · simp [zero_eq_iff, h, h1] at he
      rcases he with he | he | he <;> subst he <;> simp [h, h1]
  · simp [zero_eq_iff, h] at he

/-- Every entry of the in-place schedule has one of the four shapes, for a peer `q` of
the group other than `rank`; its LocalCopy has a nonzero count when `p` is odd. -/
theorem inplaceEntries_shape (rank p : Int) (buf : Int) (counts displs : Int → Int)
    (ext : MPI_Aint) (type : MPI_Datatype) (gap : Int) (h0 : 0 ≤ rank) (hlt : rank < p)
    (e : Entry) (he : e ∈ inplaceEntries rank p buf counts displs ext type gap) :
    ∃ q : Int, (0 ≤ q ∧ q < p ∧ q ≠ rank) ∧
      InplaceShape buf counts displs ext type gap (p.tmod 2 ≠ 0) q e := by
  unfold inplaceEntries at he
  rw [List.mem_append, List.mem_flatMap] at he
  rcases he with ⟨i, hi, he⟩ | he
  · rw [mem_inplace_range p i (by omega)] at hi
    have hs := peer_ahead_cases h0 hlt (show 0 ≤ i by omega) (show i < p by omega)
    have hr := peer_behind_cases h0 hlt (show 0 ≤ i by omega) (show i ≤ p by omega)
    rcases inplaceStep_shape buf counts displs ext type gap (p.tmod 2 ≠ 0) _ _ e he with h | h
    · exact ⟨_, ⟨by omega, by omega, by omega⟩, h⟩
    · exact ⟨_, ⟨by omega, by omega, by omega⟩, h⟩
  · have ht := tail_peer_cases h0 hlt
    obtain ⟨hev, h⟩ := inplaceTail_shape rank p buf counts displs ext type gap e he
    rw [tmod_two p (by omega)] at hev
    exact ⟨_, ⟨by omega, by omega, by omega⟩, h⟩

theorem length_flatMap_le {α β : Type} (c : Nat) (f : α → List β) (l : List α)
    (h : ∀ i, (f i).length ≤ c) : (l.flatMap f).length ≤ c * l.length := by
  induction l with
  | nil => simp
  | cons a l ih =>
    simp only [List.flatMap_cons, List.length_append, List.length_cons, Nat.mul_succ]
    have := h a
    omega

theorem length_inplaceStep_le (buf : Int) (counts displs : Int → Int) (ext : MPI_Aint)
    (type : MPI_Datatype) (gap : Int) (sp rp : Int) :
    (inplaceStep buf counts displs ext type gap sp rp).length ≤ 5 := by
  unfold inplaceStep
  by_cases h1 : counts sp = 0 <;> by_cases h2 : counts rp = 0 <;> simp [zero_eq_iff, h1, h2]

theorem length_inplaceTail_le (rank p : Int) (buf : Int) (counts displs : Int → Int)
    (ext : MPI_Aint) (type : MPI_Datatype) (gap : Int) :
    (inplaceTail rank p buf counts displs ext type gap).length
      ≤ if p.tmod 2 = 0 then 3 else 0 := by
  unfold inplaceTail
  by_cases h : p.tmod 2 = 0 <;> by_cases h1 : counts ((rank + p.tdiv 2).tmod p) = 0 <;>
    simp [zero_eq_iff, h, h1]

theorem length_inplaceEntries_le (rank p : Int) (buf : Int) (counts displs : Int → Int)
    (ext : MPI_Aint) (type : MPI_Datatype) (gap : Int) (hp : 1 ≤ p) :
    (inplaceEntries rank p buf counts displs ext type gap).length ≤ 3 * p.toNat := by
  unfold inplaceEntries
  rw [List.length_append]
  have h1 := length_flatMap_le 5 (fun i => inplaceStep buf counts displs ext type gap
    ((rank + i).tmod p) ((rank + p - i).tmod p)) (forRange 1 ((p + 1).tdiv 2))
    (fun i => length_inplaceStep_le _ _ _ _ _ _ _ _)
  have h2 := length_inplaceTail_le rank p buf counts displs ext type gap
  have h3 := tdiv_two (p + 1) (by omega)
  rw [length_forRange] at h1
  rw [tmod_two p (by omega)] at h2
  split at h2 <;> omega

theorem a2av_sched_inplace_ok (cap : Nat) (rank p : Int) (buf : Int)
    (counts displs : Int → Int) (ext : MPI_Aint) (type : MPI_Datatype) (gap : Int)
    (hp : 1 ≤ p) (hcap : 3 * p.toNat ≤ cap) :
    a2av_sched_inplace cap rank p [] buf counts displs ext type gap
      = .ok (inplaceEntries rank p buf counts displs ext type gap) := by
  rw [a2av_sched_inplace_eq]
  have := length_inplaceEntries_le rank p buf counts displs ext type gap hp
  simpa using emitAll_of_le cap _ [] (by simp only [List.length_nil]; omega)

theorem InplaceShape.of_sendsTo {buf : Int} {counts displs : Int → Int} {ext : MPI_Aint}
    {type : MPI_Datatype} {gap : Int} {strict : Prop} {q j : Int} {e : Entry}
    (h : InplaceShape buf counts displs ext type gap strict q e)
    (hs : e.sendsTo j = true) : e.act.count = counts j := by
  rcases h with ⟨rfl, _⟩ | ⟨_, rfl | rfl | rfl⟩ <;>
    simp [Entry.sendsTo, Action.isSend, Action.peer] at hs
  all_goals simp [Action.count, hs]

theorem InplaceShape.of_recvsFrom {buf : Int} {counts displs : Int → Int} {ext : MPI_Aint}
    {type : MPI_Datatype} {gap : Int} {strict : Prop} {q j : Int} {e : Entry}
    (h : InplaceShape buf counts displs ext type gap strict q e)
    (hr : e.recvsFrom j = true) :
    e.act = .recv (buf + displs j * ext) false (counts j) type j := by
  rcases h with ⟨rfl, _⟩ | ⟨_, rfl | rfl | rfl⟩ <;>
    simp [Entry.recvsFrom, Action.isRecv, Action.peer] at hr
  simp [hr]

/-- C5: for every `p >= 1`, `0 <= rank < p` and every counts/displs table, when the
storage takes `3*p` entries, `a2av_sched_inplace` succeeds on a fresh schedule and its
schedule contains, for every peer `j != rank` of the group with `counts[j] != 0`,
exactly one Send to `j`, of `counts[j]` elements, and exactly one Receive from `j`, of
`counts[j]` elements into `buf + displs[j]*ext`; and it contains no Send and no Receive
for a peer `j` with `counts[j] = 0` or `j = rank`.  This is the exchange of the Linear
strategy run with the send table equal to the receive table, for odd and for even `p`. -/
theorem a2av_sched_inplace_exchange (cap : Nat) (rank p : Int) (buf : Int)
    (counts displs : Int → Int) (ext : MPI_Aint) (type : MPI_Datatype) (gap : Int)
    (hp : 1 ≤ p) (h0 : 0 ≤ rank) (hlt : rank < p) (hcap : 3 * p.toNat ≤ cap) :
    ∃ s : PNBC_Schedule,
      a2av_sched_inplace cap rank p [] buf counts displs ext type gap = .ok s ∧
      (∀ j : Int, 0 ≤ j → j < p → j ≠ rank → counts j ≠ 0 →
        s.countP (Entry.sendsTo j) = 1 ∧
        (∀ e ∈ s, e.sendsTo j = true → e.act.count = counts j) ∧
        s.countP (Entry.recvsFrom j) = 1 ∧
        (∀ e ∈ s, e.recvsFrom j = true →
          e.act = .recv (buf + displs j * ext) false (counts j) type j)) ∧
      (∀ j : Int, counts j = 0 ∨ j = rank →
        s.countP (Entry.sendsTo j) = 0 ∧ s.countP (Entry.recvsFrom j) = 0) := by
  have hS := fun j => inplace_count (Entry.sendsTo j) rank p buf counts displs ext type gap j
    (fun sp rp => inplaceStep_sendsTo buf counts displs ext type gap sp rp j)
    (inplaceTail_sendsTo rank p buf counts displs ext type gap j) h0 hlt
  have hR := fun j => inplace_count (Entry.recvsFrom j) rank p buf counts displs ext type gap j
    (fun sp rp => inplaceStep_recvsFrom buf counts displs ext type gap sp rp j)
    (inplaceTail_recvsFrom rank p buf counts displs ext type gap j) h0 hlt
  refine ⟨_, a2av_sched_inplace_ok cap rank p buf counts displs ext type gap hp hcap, ?_, ?_⟩
  · intro j hj0 hjp hne hc
    refine ⟨?_, ?_, ?_, ?_⟩
    · rw [hS j, if_pos ⟨⟨hj0, hjp⟩, hne, hc⟩]
    · intro e he hs
      obtain ⟨q, _, hq⟩ := inplaceEntries_shape rank p buf counts displs ext type gap h0 hlt e he
      exact hq.of_sendsTo hs
    · rw [hR j, if_pos ⟨⟨hj0, hjp⟩, hne, hc⟩]
    · intro e he hr
      obtain ⟨q, _, hq⟩ := inplaceEntries_shape rank p buf counts displs ext type gap h0 hlt e he
      exact hq.of_recvsFrom hr
  · intro j hj
    have hneg : ¬ ((0 ≤ j ∧ j < p) ∧ j ≠ rank ∧ counts j ≠ 0) := by
      rintro ⟨_, h1, h2⟩
      rcases hj with h | h
      · exact h2 h
      · exact h1 h
    exact ⟨by rw [hS j, if_neg hneg], by rw [hR j, if_neg hneg]⟩

/-- Witness for C5: `p = 4` (even, with the extra exchange), rank 1,
`counts = {3,5,0,2}`, `displs = {0,3,8,8}`. -/
theorem a2av_sched_inplace_exchange_witness :
    ∃ s : PNBC_Schedule,
      a2av_sched_inplace 12 1 4 [] 1000 (fun i => if i = 0 then 3 else if i = 1 then 5
          else if i = 2 then 0 else 2) (fun i => if i = 0 then 0 else if i = 1 then 3 else 8)
          4 7 16 = .ok s ∧
      (∀ j : Int, 0 ≤ j → j < 4 → j ≠ 1 →
        (fun i : Int => if i = 0 then (3 : Int) else if i = 1 then 5
          else if i = 2 then 0 else 2) j ≠ 0 →
        s.countP (Entry.sendsTo j) = 1 ∧
        (∀ e ∈ s, e.sendsTo j = true → e.act.count
          = (fun i : Int => if i = 0 then (3 : Int) else if i = 1 then 5
              else if i = 2 then 0 else 2) j) ∧
        s.countP (Entry.recvsFrom j) = 1 ∧
        (∀ e ∈ s, e.recvsFrom j = true →
          e.act = .recv (1000 + (fun i : Int => if i = 0 then (0 : Int) else if i = 1 then 3
              else 8) j * 4) false
            ((fun i : Int => if i = 0 then (3 : Int) else if i = 1 then 5
              else if i = 2 then 0 else 2) j) 7 j)) ∧
      (∀ j : Int, (fun i : Int => if i = 0 then (3 : Int) else if i = 1 then 5
          else if i = 2 then 0 else 2) j = 0 ∨ j = 1 →
        s.countP (Entry.sendsTo j) = 0 ∧ s.countP (Entry.recvsFrom j) = 0) :=
  a2av_sched_inplace_exchange 12 1 4 1000 (fun i => if i = 0 then 3 else if i = 1 then 5
    else if i = 2 then 0 else 2) (fun i => if i = 0 then 0 else if i = 1 then 3 else 8)
    4 7 16 (by decide) (by decide) (by decide) (by decide)

/-! ## Invariants of the local-group builders -/

theorem length_linearStep_le (rank : Int) (sendbuf : Int) (sendcounts sdispls : Int → Int)
    (sndext : MPI_Aint) (sendtype : MPI_Datatype) (recvbuf : Int)
    (recvcounts rdispls : Int → Int) (rcvext : MPI_Aint) (recvtype : MPI_Datatype) (i : Int) :
    (linearStep rank sendbuf sendcounts sdispls sndext sendtype recvbuf recvcounts rdispls
      rcvext recvtype i).length ≤ 2 := by
  unfold linearStep
  by_cases h : i = rank <;> by_cases h1 : sendcounts i = 0 <;>
    by_cases h2 : recvcounts i = 0 <;> simp [h, h1, h2]

theorem length_pairwiseStep_le (rank p : Int) (sendbuf : Int)
    (sendcounts sdispls : Int → Int) (sndext : MPI_Aint) (sendtype : MPI_Datatype)
    (recvbuf : Int) (recvcounts rdispls : Int → Int) (rcvext : MPI_Aint)
    (recvtype : MPI_Datatype) (i : Int) :
    (pairwiseStep rank p sendbuf sendcounts sdispls sndext sendtype recvbuf recvcounts rdispls
      rcvext recvtype i).length ≤ 2 := by
  unfold pairwiseStep
  by_cases h1 : sendcounts ((rank + i).tmod p) = 0 <;>
    by_cases h2 : recvcounts ((rank + p - i).tmod p) = 0 <;> simp [h1, h2]

theorem a2av_sched_linear_ok (cap : Nat) (rank p : Int) (sendbuf : Int)
    (sendcounts sdispls : Int → Int) (sndext : MPI_Aint) (sendtype : MPI_Datatype)
    (recvbuf : Int) (recvcounts rdispls : Int → Int) (rcvext : MPI_Aint)
    (recvtype : MPI_Datatype) (hcap : 2 * p.toNat ≤ cap) :
    a2av_sched_linear cap rank p [] sendbuf sendcounts sdispls sndext sendtype
        recvbuf recvcounts rdispls rcvext recvtype
      = .ok ((forRange 0 p).flatMap (linearStep rank sendbuf sendcounts sdispls sndext
          sendtype recvbuf recvcounts rdispls rcvext recvtype)) := by
  rw [a2av_sched_linear_eq]
  have h := length_flatMap_le 2 (linearStep rank sendbuf sendcounts sdispls sndext
    sendtype recvbuf recvcounts rdispls rcvext recvtype) (forRange 0 p)
    (length_linearStep_le _ _ _ _ _ _ _ _ _ _ _)
  rw [length_forRange] at h
  simpa using emitAll_of_le cap _ [] (by simp only [List.length_nil]; omega)

theorem a2av_sched_pairwise_ok (cap : Nat) (rank p : Int) (sendbuf : Int)
    (sendcounts sdispls : Int → Int) (sndext : MPI_Aint) (sendtype : MPI_Datatype)
    (recvbuf : Int) (recvcounts rdispls : Int → Int) (rcvext : MPI_Aint)
    (recvtype : MPI_Datatype) (hcap : 2 * p.toNat ≤ cap) :
    a2av_sched_pairwise cap rank p [] sendbuf sendcounts sdispls sndext sendtype
        recvbuf recvcounts rdispls rcvext recvtype
      = .ok ((forRange 1 p).flatMap (pairwiseStep rank p sendbuf sendcounts sdispls sndext
          sendtype recvbuf recvcounts rdispls rcvext recvtype)) := by
  rw [a2av_sched_pairwise_eq]
  have h := length_flatMap_le 2 (pairwiseStep rank p sendbuf sendcounts sdispls sndext
    sendtype recvbuf recvcounts rdispls rcvext recvtype) (forRange 1 p)
    (length_pairwiseStep_le _ _ _ _ _ _ _ _ _ _ _ _)
  rw [length_forRange] at h
  simpa using emitAll_of_le cap _ [] (by simp only [List.length_nil]; omega)

/-- An entry of the Pairwise schedule: a Send to the peer ahead or a Receive from the
peer behind, of nonzero count, the Receive with the barrier flag and the Send without. -/
theorem pairwiseStep_mem (rank p : Int) (sendbuf : Int) (sendcounts sdispls : Int → Int)
    (sndext : MPI_Aint) (sendtype : MPI_Datatype) (recvbuf : Int)
    (recvcounts rdispls : Int → Int) (rcvext : MPI_Aint) (recvtype : MPI_Datatype)
    (i : Int) (e : Entry)
    (he : e ∈ pairwiseStep rank p sendbuf sendcounts sdispls sndext sendtype recvbuf
      recvcounts rdispls rcvext recvtype i) :
    (e.act.peer = some ((rank + i).tmod p) ∨ e.act.peer = some ((rank + p - i).tmod p)) ∧
      e.act.count ≠ 0 ∧ e.act.isCopy = false := by
  unfold pairwiseStep at he
  by_cases h1 : sendcounts ((rank + i).tmod p) = 0 <;>
    by_cases h2 : recvcounts ((rank + p - i).tmod p) = 0 <;>
    simp [h1, h2] at he
  · subst he
    simp [Action.peer, Action.count, Action.isCopy, h2]
  · subst he
    simp [Action.peer, Action.count, Action.isCopy, h1]
  · rcases he with he | he <;> subst he <;>
      simp [Action.peer, Action.count, Action.isCopy, h1, h2]

theorem allgathervStep_mem (rank p : Int) (recvbuf : Int) (recvcounts displs : Int → Int)
    (rcvext : MPI_Aint) (recvtype : MPI_Datatype) (r : Int) (e : Entry)
    (he : e ∈ allgathervStep rank p recvbuf recvcounts displs rcvext recvtype r) :
    (e.act.peer = some ((rank + r).tmod p) ∨ e.act.peer = some ((rank - r + p).tmod p)) ∧
      e.barrier = false := by
  unfold allgathervStep at he
  simp at he
  rcases he with he | he <;> subst he <;> simp [Action.peer]

theorem InplaceShape.peer_eq {buf : Int} {counts displs : Int → Int} {ext : MPI_Aint}
    {type : MPI_Datatype} {gap : Int} {strict : Prop} {q j : Int} {e : Entry}
    (h : InplaceShape buf counts displs ext type gap strict q e)
    (hj : e.act.peer = some j) : j = q := by
  rcases h with ⟨rfl, _⟩ | ⟨_, rfl | rfl | rfl⟩ <;> simp [Action.peer] at hj <;> omega

theorem iallgatherv_init_schedule (sys : System) (sendbuf : Int) (sendcount : Int)
    (sendtype : MPI_Datatype) (recvbuf : Int) (recvcounts displs : Int → Int)
    (recvtype : MPI_Datatype) (comm : ompi_communicator_t) (rcvext : MPI_Aint)
    (hs : sys.succeeds recvtype rcvext (2 * (comm.size - 1).toNat)) :
    (ompi_coll_libpnbc_iallgatherv_init sys sendbuf sendcount sendtype recvbuf recvcounts
        displs recvtype comm).schedule
      = some (allgathervEntries comm.rank comm.size recvbuf recvcounts displs rcvext
          recvtype) := by
  rw [iallgatherv_init_ok sys sendbuf sendcount sendtype recvbuf recvcounts displs recvtype
    comm rcvext hs]
  rfl

/-- C6: for every `p >= 1` and `0 <= rank < p`, when the collaborators succeed (the
storage taking `3*p` entries), each of `ompi_coll_libpnbc_iallgatherv_init`,
`a2av_sched_linear`, `a2av_sched_pairwise` and `a2av_sched_inplace` builds a schedule
in which every Send and every Receive has a peer `q` with `0 <= q < p` and
`q != rank`. -/
theorem local_builders_peer_invariant (sys : System) (sendbuf : Int) (sendcount : Int)
    (sendcounts sdispls : Int → Int) (sndext : MPI_Aint) (sendtype : MPI_Datatype)
    (recvbuf : Int) (recvcounts rdispls : Int → Int) (rcvext : MPI_Aint)
    (recvtype : MPI_Datatype) (gap : Int) (rank p rsize : Int)
    (hp : 1 ≤ p) (h0 : 0 ≤ rank) (hlt : rank < p)
    (hs : sys.succeeds recvtype rcvext (3 * p.toNat)) :
    (∃ s, (ompi_coll_libpnbc_iallgatherv_init sys sendbuf sendcount sendtype recvbuf
          recvcounts rdispls recvtype ⟨rank, p, rsize⟩).schedule = some s ∧
        ∀ e ∈ s, ∀ q, e.act.peer = some q → 0 ≤ q ∧ q < p ∧ q ≠ rank) ∧
    (∃ s, a2av_sched_linear sys.cap rank p [] sendbuf sendcounts sdispls sndext sendtype
          recvbuf recvcounts rdispls rcvext recvtype = .ok s ∧
        ∀ e ∈ s, ∀ q, e.act.peer = some q → 0 ≤ q ∧ q < p ∧ q ≠ rank) ∧
    (∃ s, a2av_sched_pairwise sys.cap rank p [] sendbuf sendcounts sdispls sndext sendtype
          recvbuf recvcounts rdispls rcvext recvtype = .ok s ∧
        ∀ e ∈ s, ∀ q, e.act.peer = some q → 0 ≤ q ∧ q < p ∧ q ≠ rank) ∧
    (∃ s, a2av_sched_inplace sys.cap rank p [] recvbuf recvcounts rdispls rcvext recvtype gap
          = .ok s ∧
        ∀ e ∈ s, ∀ q, e.act.peer = some q → 0 ≤ q ∧ q < p ∧ q ≠ rank) := by
  have hcap : 3 * p.toNat ≤ sys.cap := hs.2.2.2.1
  have hs' : sys.succeeds recvtype rcvext (2 * (p - 1).toNat) :=
    ⟨hs.1, hs.2.1, hs.2.2.1, by omega, hs.2.2.2.2⟩
  refine ⟨⟨_, iallgatherv_init_schedule sys sendbuf sendcount sendtype recvbuf recvcounts
      rdispls recvtype ⟨rank, p, rsize⟩ rcvext hs', ?_⟩, ⟨_, a2av_sched_linear_ok sys.cap rank p sendbuf sendcounts sdispls
      sndext sendtype recvbuf recvcounts rdispls rcvext recvtype (by omega), ?_⟩,
    ⟨_, a2av_sched_pairwise_ok sys.cap rank p sendbuf sendcounts sdispls
      sndext sendtype recvbuf recvcounts rdispls rcvext recvtype (by omega), ?_⟩,
    ⟨_, a2av_sched_inplace_ok sys.cap rank p recvbuf recvcounts rdispls rcvext recvtype gap
      hp hcap, ?_⟩⟩
  · intro e he q hq
    simp only [allgathervEntries, List.mem_flatMap] at he
    obtain ⟨r, hr, he⟩ := he
    rw [mem_forRange] at hr
    have hsp := peer_ahead_cases h0 hlt (show 0 ≤ r by omega) (show r < p by omega)
    have hrp := peer_behind_cases h0 hlt (show 0 ≤ r by omega) (show r ≤ p by omega)
    have e' : rank - r + p = rank + p - r := by omega
    have hm := (allgathervStep_mem rank p recvbuf recvcounts rdispls rcvext recvtype r e he).1
    rw [e', hq] at hm
    rcases hm with hm | hm <;> have hm' := Option.some.inj hm <;> omega
  · intro e he q hq
    rw [List.mem_flatMap] at he
    obtain ⟨i, hi, he⟩ := he
    rw [mem_forRange] at hi
    have hm := linearStep_flags _ _ _ _ _ _ _ _ _ _ _ i e he
    rw [hq] at hm
    have := Option.some.inj hm.2.1
    have := hm.2.2.1
    omega
  · intro e he q hq
    rw [List.mem_flatMap] at he
    obtain ⟨i, hi, he⟩ := he
    rw [mem_forRange] at hi
    have hsp := peer_ahead_cases h0 hlt (show 0 ≤ i by omega) (show i < p by omega)
    have hrp := peer_behind_cases h0 hlt (show 0 ≤ i by omega) (show i ≤ p by omega)
    have hm := (pairwiseStep_mem _ _ _ _ _ _ _ _ _ _ _ _ i e he).1
    rw [hq] at hm
    rcases hm with hm | hm <;> have hm' := Option.some.inj hm <;> omega
  · intro e he q hq
    obtain ⟨q', hq', hsh⟩ := inplaceEntries_shape rank p recvbuf recvcounts rdispls rcvext
      recvtype gap h0 hlt e he
    have := hsh.peer_eq hq
    omega

/-- Witness for C6: `p = 4`, rank 3, counts `i + 1`, displacements `2 * i`. -/
theorem local_builders_peer_invariant_witness :
    (∃ s, (ompi_coll_libpnbc_iallgatherv_init ⟨fun _ => (0, 4), 0, true, 12, 0, 0, 0⟩ 500 4 7
          1000 (fun i => i + 1) (fun i => 2 * i) 7 ⟨3, 4, 0⟩).schedule = some s ∧
        ∀ e ∈ s, ∀ q, e.act.peer = some q → 0 ≤ q ∧ q < 4 ∧ q ≠ 3) ∧
    (∃ s, a2av_sched_linear 12 3 4 [] 500 (fun i => i + 1) (fun i => 2 * i) 4 7
          1000 (fun i => i + 1) (fun i => 2 * i) 4 7 = .ok s ∧
        ∀ e ∈ s, ∀ q, e.act.peer = some q → 0 ≤ q ∧ q < 4 ∧ q ≠ 3) ∧
    (∃ s, a2av_sched_pairwise 12 3 4 [] 500 (fun i => i + 1) (fun i => 2 * i) 4 7
          1000 (fun i => i + 1) (fun i => 2 * i) 4 7 = .ok s ∧
        ∀ e ∈ s, ∀ q, e.act.peer = some q → 0 ≤ q ∧ q < 4 ∧ q ≠ 3) ∧
    (∃ s, a2av_sched_inplace 12 3 4 [] 1000 (fun i => i + 1) (fun i => 2 * i) 4 7 16
          = .ok s ∧
        ∀ e ∈ s, ∀ q, e.act.peer = some q → 0 ≤ q ∧ q < 4 ∧ q ≠ 3) :=
  local_builders_peer_invariant ⟨fun _ => (0, 4), 0, true, 12, 0, 0, 0⟩ 500 4
    (fun i => i + 1) (fun i => 2 * i) 4 7 1000 (fun i => i + 1) (fun i => 2 * i) 4 7 16 3 4 0
    (by decide) (by decide) (by decide) ⟨rfl, rfl, rfl, by decide, rfl, rfl, rfl⟩

/-! ## The inter-group builders and zero counts -/

theorem iallgatherv_inter_rounds_eq (cap : Nat) (rsize : Int) (sendbuf : Int)
    (sendcount : Int) (sendtype : MPI_Datatype) (recvbuf : Int)
    (recvcounts displs : Int → Int) (rcvext : MPI_Aint) (recvtype : MPI_Datatype)
    (s : PNBC_Schedule) :
    iallgatherv_inter_rounds cap rsize sendbuf sendcount sendtype recvbuf recvcounts displs
        rcvext recvtype s
      = emitAll cap (allgathervInterEntries rsize sendbuf sendcount sendtype recvbuf
          recvcounts displs rcvext recvtype) s := by
  unfold iallgatherv_inter_rounds allgathervInterEntries
  rw [← emitAll_bind, ← foldlM_emitAll]
  congr 1
  · congr 1
    funext s r
    unfold allgathervInterRecv
    by_cases h : recvcounts r = 0 <;> simp [h, emitAll_nil, PNBC_Sched_recv_eq]
  · funext s
    by_cases h : sendcount = 0
    · simp [h, emitAll_nil]
    · simp only [ne_eq, h, not_false_eq_true, if_true, ← foldlM_emitAll]
      congr 1
      funext s r
      rw [PNBC_Sched_send_eq]

theorem ialltoallv_inter_rounds_eq (cap : Nat) (rsize : Int) (sendbuf : Int)
    (sendcounts sdispls : Int → Int) (sndext : MPI_Aint) (sendtype : MPI_Datatype)
    (recvbuf : Int) (recvcounts rdispls : Int → Int) (rcvext : MPI_Aint)
    (recvtype : MPI_Datatype) (s : PNBC_Schedule) :
    ialltoallv_inter_rounds cap rsize sendbuf sendcounts sdispls sndext sendtype recvbuf
        recvcounts rdispls rcvext recvtype s
      = emitAll cap ((forRange 0 rsize).flatMap (alltoallvInterStep sendbuf sendcounts sdispls
          sndext sendtype recvbuf recvcounts rdispls rcvext recvtype)) s := by
  unfold ialltoallv_inter_rounds
  rw [← foldlM_emitAll]
  congr 1
  funext s i
  unfold alltoallvInterStep
  by_cases h1 : sendcounts i = 0 <;> by_cases h2 : recvcounts i = 0 <;>
    simp [h1, h2, emitAll_nil, PNBC_Sched_send_eq, PNBC_Sched_recv_eq, emitAll_bind]

theorem length_allgathervInterEntries_le (rsize : Int) (sendbuf : Int) (sendcount : Int)
    (sendtype : MPI_Datatype) (recvbuf : Int) (recvcounts displs : Int → Int)
    (rcvext : MPI_Aint) (recvtype : MPI_Datatype) :
    (allgathervInterEntries rsize sendbuf sendcount sendtype recvbuf recvcounts displs rcvext
      recvtype).length ≤ 2 * rsize.toNat := by
  unfold allgathervInterEntries
  rw [List.length_append]
  have h1 := length_flatMap_le 1 (allgathervInterRecv recvbuf recvcounts displs rcvext
    recvtype) (forRange 0 rsize) (fun r => by
      unfold allgathervInterRecv
      by_cases h : recvcounts r = 0 <;> simp [h])
  have h2 := length_flatMap_le 1
    (fun r => [(⟨.send sendbuf false sendcount sendtype r, false⟩ : Entry)])
    (forRange 0 rsize) (fun r => by simp)
  rw [length_forRange] at h1 h2
  by_cases h : sendcount = 0
  · simp only [ne_eq, h, not_true_eq_false, if_false, List.length_nil]
    omega
  · simp only [ne_eq, h, not_false_eq_true, if_true]
    omega

theorem iallgatherv_inter_schedule (sys : System) (sendbuf : Int) (sendcount : Int)
    (sendtype : MPI_Datatype) (recvbuf : Int) (recvcounts displs : Int → Int)
    (recvtype : MPI_Datatype) (comm : ompi_communicator_t) (rcvext : MPI_Aint)
    (hs : sys.succeeds recvtype rcvext (2 * comm.remote_size.toNat)) :
    (ompi_coll_libpnbc_iallgatherv_inter sys sendbuf sendcount sendtype recvbuf recvcounts
        displs recvtype comm).schedule
      = some (allgathervInterEntries comm.remote_size sendbuf sendcount sendtype recvbuf
          recvcounts displs rcvext recvtype) := by
  obtain ⟨h1, _, h3, h4, h5, h6, h7⟩ := hs
  have hl := length_allgathervInterEntries_le comm.remote_size sendbuf sendcount sendtype
    recvbuf recvcounts displs rcvext recvtype
  have hb := emitAll_of_le sys.cap (allgathervInterEntries comm.remote_size sendbuf sendcount
    sendtype recvbuf recvcounts displs rcvext recvtype) []
    (by simp only [List.length_nil]; omega)
  unfold ompi_coll_libpnbc_iallgatherv_inter
  simp only [h1, h3, h5, h6, h7, iallgatherv_inter_rounds_eq]
  rw [hb]
  simp [Outcome.schedule]

theorem ialltoallv_inter_schedule (sys : System) (sendbuf : Int)
    (sendcounts sdispls : Int → Int) (sendtype : MPI_Datatype) (recvbuf : Int)
    (recvcounts rdispls : Int → Int) (recvtype : MPI_Datatype)
    (comm : ompi_communicator_t) (sndext rcvext : MPI_Aint)
    (hsnd : sys.extent sendtype = (MPI_SUCCESS, sndext))
    (hs : sys.succeeds recvtype rcvext (2 * comm.remote_size.toNat)) :
    (ompi_coll_libpnbc_ialltoallv_inter sys sendbuf sendcounts sdispls sendtype recvbuf
        recvcounts rdispls recvtype comm).schedule
      = some ((forRange 0 comm.remote_size).flatMap (alltoallvInterStep sendbuf sendcounts
          sdispls sndext sendtype recvbuf recvcounts rdispls rcvext recvtype)) := by
  obtain ⟨h1, _, h3, h4, h5, h6, h7⟩ := hs
  have hl := length_flatMap_le 2 (alltoallvInterStep sendbuf sendcounts
    sdispls sndext sendtype recvbuf recvcounts rdispls rcvext recvtype)
    (forRange 0 comm.remote_size) (fun i => by
      unfold alltoallvInterStep
      by_cases h1 : sendcounts i = 0 <;> by_cases h2 : recvcounts i = 0 <;> simp [h1, h2])
  rw [length_forRange] at hl
  have hb := emitAll_of_le sys.cap ((forRange 0 comm.remote_size).flatMap
    (alltoallvInterStep sendbuf sendcounts sdispls sndext sendtype recvbuf recvcounts rdispls
      rcvext recvtype)) [] (by simp only [List.length_nil]; omega)
  unfold ompi_coll_libpnbc_ialltoallv_inter
  simp only [hsnd, h1, h3, h5, h6, h7, ialltoallv_inter_rounds_eq]
  rw [hb]
  simp [Outcome.schedule]

theorem System.succeeds.mono {sys : System} {recvtype : MPI_Datatype} {rcvext : MPI_Aint}
    {n m : Nat} (hs : sys.succeeds recvtype rcvext m) (h : n ≤ m) :
    sys.succeeds recvtype rcvext n :=
  ⟨hs.1, hs.2.1, hs.2.2.1, Nat.le_trans h hs.2.2.2.1, hs.2.2.2.2⟩

theorem allgathervInterEntries_count (rsize : Int) (sendbuf : Int) (sendcount : Int)
    (sendtype : MPI_Datatype) (recvbuf : Int) (recvcounts displs : Int → Int)
    (rcvext : MPI_Aint) (recvtype : MPI_Datatype) (e : Entry)
    (he : e ∈ allgathervInterEntries rsize sendbuf sendcount sendtype recvbuf recvcounts
      displs rcvext recvtype) : e.act.count ≠ 0 := by
  unfold allgathervInterEntries at he
  rw [List.mem_append] at he
  rcases he with he | he
  · rw [List.mem_flatMap] at he
    obtain ⟨r, _, he⟩ := he
    unfold allgathervInterRecv at he
    by_cases h : recvcounts r = 0
    · simp [h] at he
    · simp [h] at he
      subst he
      simpa [Action.count] using h
  · by_cases h : sendcount = 0
    · simp [h] at he
    · simp only [ne_eq, h, not_false_eq_true, if_true, List.mem_flatMap] at he
      obtain ⟨r, _, he⟩ := he
      simp at he
      subst he
      simpa [Action.count] using h

theorem alltoallvInterStep_count (sendbuf : Int) (sendcounts sdispls : Int → Int)
    (sndext : MPI_Aint) (sendtype : MPI_Datatype) (recvbuf : Int)
    (recvcounts rdispls : Int → Int) (rcvext : MPI_Aint) (recvtype : MPI_Datatype)
    (i : Int) (e : Entry)
    (he : e ∈ alltoallvInterStep sendbuf sendcounts sdispls sndext sendtype recvbuf
      recvcounts rdispls rcvext recvtype i) : e.act.count ≠ 0 := by
  unfold alltoallvInterStep at he
  by_cases h1 : sendcounts i = 0 <;> by_cases h2 : recvcounts i = 0 <;>
    simp [h1, h2] at he
  · subst he
    simpa [Action.count] using h2
  · subst he
    simpa [Action.count] using h1
  · rcases he with he | he <;> subst he
    · simpa [Action.count] using h1
    · simpa [Action.count] using h2

theorem InplaceShape.count_ne {buf : Int} {counts displs : Int → Int} {ext : MPI_Aint}
    {type : MPI_Datatype} {gap : Int} {strict : Prop} {q : Int} {e : Entry}
    (h : InplaceShape buf counts displs ext type gap strict q e)
    (hc : e.act.isCopy = false ∨ strict) : e.act.count ≠ 0 := by
  rcases h with ⟨rfl, hz⟩ | ⟨hq, rfl | rfl | rfl⟩
  · rcases hc with hc | hc
    · simp [Action.isCopy] at hc
    · intro h0
      exact hz (by simpa [Action.count] using h0) hc
  · simpa [Action.count] using hq
  · simpa [Action.count] using hq
  · simpa [Action.count] using hq

theorem allgathervStep_counts (rank p : Int) (recvbuf : Int) (recvcounts displs : Int → Int)
    (rcvext : MPI_Aint) (recvtype : MPI_Datatype) (r : Int) (e : Entry)
    (he : e ∈ allgathervStep rank p recvbuf recvcounts displs rcvext recvtype r) :
    (∀ q, e.recvsFrom q = true → e.act.count = recvcounts q) ∧
    (e.act.isSend = true → e.act.count = recvcounts rank) := by
  unfold allgathervStep at he
  simp at he
  rcases he with he | he <;> subst he
  · refine ⟨fun q hq => ?_, fun h => ?_⟩
    · simp [Entry.recvsFrom, Action.isRecv, Action.peer] at hq
      simp [Action.count, hq]
    · simp [Action.isSend] at h
  · refine ⟨fun q hq => ?_, fun _ => ?_⟩
    · simp [Entry.recvsFrom, Action.isRecv] at hq
    · simp [Action.count]

/-- No entry the loop of `a2av_sched_inplace` appends has the count zero. -/
theorem inplaceLoop_count_ne (rank p : Int) (buf : Int) (counts displs : Int → Int)
    (ext : MPI_Aint) (type : MPI_Datatype) (gap : Int) (e : Entry)
    (he : e ∈ (forRange 1 ((p + 1).tdiv 2)).flatMap (fun i =>
      inplaceStep buf counts displs ext type gap ((rank + i).tmod p)
        ((rank + p - i).tmod p))) :
    e.act.count ≠ 0 := by
  rw [List.mem_flatMap] at he
  obtain ⟨i, _, he⟩ := he
  rcases inplaceStep_shape buf counts displs ext type gap True _ _ e he with h | h
  · exact h.count_ne (Or.inr trivial)
  · exact h.count_ne (Or.inr trivial)

/-- Of the entries `a2av_sched_inplace` appends after the loop only the last can have
the count zero, and only the LocalCopy has it. -/
theorem inplaceTail_zero (rank p : Int) (buf : Int) (counts displs : Int → Int)
    (ext : MPI_Aint) (type : MPI_Datatype) (gap : Int) :
    (∀ e ∈ (inplaceTail rank p buf counts displs ext type gap).dropLast,
      e.act.count ≠ 0) ∧
    (∀ e ∈ inplaceTail rank p buf counts displs ext type gap, e.act.count = 0 →
      p.tmod 2 = 0 ∧
      e = ⟨.copy (buf + displs ((rank + p.tdiv 2).tmod p) * ext) false
          (counts ((rank + p.tdiv 2).tmod p)) type (-gap) true
          (counts ((rank + p.tdiv 2).tmod p)) type, true⟩) := by
  unfold inplaceTail
  by_cases h : p.tmod 2 = 0
  · by_cases h1 : counts ((rank + p.tdiv 2).tmod p) = 0
    · simp [zero_eq_iff, h, h1, Action.count]
    · simp [zero_eq_iff, h, h1, Action.count, List.dropLast]
  · simp [zero_eq_iff, h]

/-- Counterexample for C7: with `p = 2`, rank 0 and all counts zero,
`ompi_coll_libpnbc_iallgatherv_init` schedules a Receive and a Send of zero elements,
and `a2av_sched_inplace` schedules a LocalCopy of zero elements. -/
theorem zero_count_scheduled :
    (ompi_coll_libpnbc_iallgatherv_init ⟨fun _ => (0, 4), 0, true, 8, 0, 0, 0⟩ 500 0 7 1000
        (fun _ => 0) (fun _ => 0) 7 ⟨0, 2, 0⟩).schedule
      = some [⟨.recv 1000 false 0 7 1, false⟩, ⟨.send 1000 false 0 7 1, false⟩] ∧
    a2av_sched_inplace 8 0 2 [] 1000 (fun _ => 0) (fun _ => 0) 4 7 16
      = .ok [⟨.copy 1000 false 0 7 (-16) true 0 7, true⟩] ∧
    ¬ (∀ s, (ompi_coll_libpnbc_iallgatherv_init ⟨fun _ => (0, 4), 0, true, 8, 0, 0, 0⟩ 500 0 7
          1000 (fun _ => 0) (fun _ => 0) 7 ⟨0, 2, 0⟩).schedule = some s →
        ∀ e ∈ s, e.act.count ≠ 0) ∧
    ¬ (∀ s, a2av_sched_inplace 8 0 2 [] 1000 (fun _ => 0) (fun _ => 0) 4 7 16 = .ok s →
        ∀ e ∈ s, e.act.count ≠ 0) := by
  have h1 : (ompi_coll_libpnbc_iallgatherv_init ⟨fun _ => (0, 4), 0, true, 8, 0, 0, 0⟩ 500 0 7
      1000 (fun _ => 0) (fun _ => 0) 7 ⟨0, 2, 0⟩).schedule
      = some [⟨.recv 1000 false 0 7 1, false⟩, ⟨.send 1000 false 0 7 1, false⟩] := by decide
  have h2 : a2av_sched_inplace 8 0 2 [] 1000 (fun _ => 0) (fun _ => 0) 4 7 16
      = .ok [⟨.copy 1000 false 0 7 (-16) true 0 7, true⟩] := rfl
  refine ⟨h1, h2, fun h => ?_, fun h => ?_⟩
  · exact h _ h1 _ (List.mem_cons_self _ _) rfl
  · exact h _ h2 _ (List.mem_cons_self _ _) rfl

/-- C7, amended: when the collaborators succeed, the schedules built by
`ompi_coll_libpnbc_iallgatherv_inter`, `ompi_coll_libpnbc_ialltoallv_inter`,
`a2av_sched_linear` and `a2av_sched_pairwise` contain no Send, Receive or LocalCopy of
zero elements; in the schedule of `a2av_sched_inplace` every entry but the last has a
nonzero count, and an entry of zero elements can only be, for even `p`, the LocalCopy of
the extra exchange with rank `(rank + p/2) % p` that follows the loop;
`ompi_coll_libpnbc_iallgatherv_init` skips nothing: its schedule always has `2*(p-1)`
entries, each Receive from `q` with the count `recvcounts[q]` and each Send with the
count `recvcounts[rank]`, whatever these counts are. -/
theorem zero_count_policy (sys : System) (sendbuf : Int) (sendcount : Int)
    (sendcounts sdispls : Int → Int) (sndext : MPI_Aint) (sendtype : MPI_Datatype)
    (recvbuf : Int) (recvcounts rdispls : Int → Int) (rcvext : MPI_Aint)
    (recvtype : MPI_Datatype) (gap : Int) (rank p rsize : Int)
    (hp : 1 ≤ p) (h0 : 0 ≤ rank) (hlt : rank < p)
    (hsnd : sys.extent sendtype = (MPI_SUCCESS, sndext))
    (hs : sys.succeeds recvtype rcvext (3 * p.toNat + 2 * rsize.toNat)) :
    (∃ s, (ompi_coll_libpnbc_iallgatherv_inter sys sendbuf sendcount sendtype recvbuf
          recvcounts rdispls recvtype ⟨rank, p, rsize⟩).schedule = some s ∧
        ∀ e ∈ s, e.act.count ≠ 0) ∧
    (∃ s, (ompi_coll_libpnbc_ialltoallv_inter sys sendbuf sendcounts sdispls sendtype recvbuf
          recvcounts rdispls recvtype ⟨rank, p, rsize⟩).schedule = some s ∧
        ∀ e ∈ s, e.act.count ≠ 0) ∧
    (∃ s, a2av_sched_linear sys.cap rank p [] sendbuf sendcounts sdispls sndext sendtype
          recvbuf recvcounts rdispls rcvext recvtype = .ok s ∧
        ∀ e ∈ s, e.act.count ≠ 0) ∧
    (∃ s, a2av_sched_pairwise sys.cap rank p [] sendbuf sendcounts sdispls sndext sendtype
          recvbuf recvcounts rdispls rcvext recvtype = .ok s ∧
        ∀ e ∈ s, e.act.count ≠ 0) ∧
    (∃ s, a2av_sched_inplace sys.cap rank p [] recvbuf recvcounts rdispls rcvext recvtype gap
          = .ok s ∧
        (∀ e ∈ s.dropLast, e.act.count ≠ 0) ∧
        (∀ e ∈ s, e.act.count = 0 → p.tmod 2 = 0 ∧
          e = ⟨.copy (recvbuf + rdispls ((rank + p.tdiv 2).tmod p) * rcvext) false
              (recvcounts ((rank + p.tdiv 2).tmod p)) recvtype (-gap) true
              (recvcounts ((rank + p.tdiv 2).tmod p)) recvtype, true⟩)) ∧
    (∃ s, (ompi_coll_libpnbc_iallgatherv_init sys sendbuf sendcount sendtype recvbuf
          recvcounts rdispls recvtype ⟨rank, p, rsize⟩).schedule = some s ∧
        s.length = 2 * (p - 1).toNat ∧
        ∀ e ∈ s, (∀ q, e.recvsFrom q = true → e.act.count = recvcounts q) ∧
          (e.act.isSend = true → e.act.count = recvcounts rank)) := by
  have hcap : 3 * p.toNat + 2 * rsize.toNat ≤ sys.cap := hs.2.2.2.1
  refine ⟨⟨_, iallgatherv_inter_schedule sys sendbuf sendcount sendtype recvbuf recvcounts
      rdispls recvtype ⟨rank, p, rsize⟩ rcvext (hs.mono (by simp only; omega)), ?_⟩,
    ⟨_, ialltoallv_inter_schedule sys sendbuf sendcounts sdispls sendtype recvbuf recvcounts
      rdispls recvtype ⟨rank, p, rsize⟩ sndext rcvext hsnd (hs.mono (by simp only; omega)), ?_⟩,
    ⟨_, a2av_sched_linear_ok sys.cap rank p sendbuf sendcounts sdispls
      sndext sendtype recvbuf recvcounts rdispls rcvext recvtype (by omega), ?_⟩,
    ⟨_, a2av_sched_pairwise_ok sys.cap rank p sendbuf sendcounts sdispls
      sndext sendtype recvbuf recvcounts rdispls rcvext recvtype (by omega), ?_⟩,
    ⟨_, a2av_sched_inplace_ok sys.cap rank p recvbuf recvcounts rdispls rcvext recvtype gap
      hp (by omega), ?_, ?_⟩,
    ⟨_, iallgatherv_init_schedule sys sendbuf sendcount sendtype recvbuf recvcounts
      rdispls recvtype ⟨rank, p, rsize⟩ rcvext (hs.mono (by simp only; omega)),
      length_allgathervEntries _ _ _ _ _ _ _, ?_⟩⟩
  · exact fun e he => allgathervInterEntries_count _ _ _ _ _ _ _ _ _ e he
  · intro e he
    rw [List.mem_flatMap] at he
    obtain ⟨i, _, he⟩ := he
    exact alltoallvInterStep_count _ _ _ _ _ _ _ _ _ _ i e he
  · intro e he
    rw [List.mem_flatMap] at he
    obtain ⟨i, _, he⟩ := he
    exact (linearStep_flags _ _ _ _ _ _ _ _ _ _ _ i e he).2.2.2.1
  · intro e he
    rw [List.mem_flatMap] at he
    obtain ⟨i, _, he⟩ := he
    exact (pairwiseStep_mem _ _ _ _ _ _ _ _ _ _ _ _ i e he).2.1
  · intro e he
    have _ := h0
    have _ := hlt
    unfold inplaceEntries at he
    have hT := inplaceTail_zero rank p recvbuf recvcounts rdispls rcvext recvtype gap
    by_cases hnil : inplaceTail rank p recvbuf recvcounts rdispls rcvext recvtype gap = []
    · rw [hnil, List.append_nil] at he
      exact inplaceLoop_count_ne rank p recvbuf recvcounts rdispls rcvext recvtype gap e
        (List.mem_of_mem_dropLast he)
    · rw [List.dropLast_append_of_ne_nil _ hnil, List.mem_append] at he
      rcases he with he | he
      · exact inplaceLoop_count_ne rank p recvbuf recvcounts rdispls rcvext recvtype gap e he
      · exact hT.1 e he
  · intro e he hc
    unfold inplaceEntries at he
    rw [List.mem_append] at he
    rcases he with he | he
    · exact absurd hc
        (inplaceLoop_count_ne rank p recvbuf recvcounts rdispls rcvext recvtype gap e he)
    · exact (inplaceTail_zero rank p recvbuf recvcounts rdispls rcvext recvtype gap).2 e he hc
  · intro e he
    simp only [allgathervEntries, List.mem_flatMap] at he
    obtain ⟨r, _, he⟩ := he
    exact allgathervStep_counts _ _ _ _ _ _ _ r e he

/-- Witness for C7 as amended: `p = 4`, rank 1, four remote ranks, counts `{2,1,1,0}`;
rank 3, of count 0, is the peer of the extra exchange of rank 1. -/
theorem zero_count_policy_witness :
    (∃ s, (ompi_coll_libpnbc_iallgatherv_inter ⟨fun _ => (0, 4), 0, true, 20, 0, 0, 0⟩ 500 2
          7 1000 (fun i => if i = 0 then 2 else if i = 3 then 0 else 1) (fun i => 2 * i) 7
          ⟨1, 4, 4⟩).schedule = some s ∧
        ∀ e ∈ s, e.act.count ≠ 0) ∧
    (∃ s, (ompi_coll_libpnbc_ialltoallv_inter ⟨fun _ => (0, 4), 0, true, 20, 0, 0, 0⟩ 500
          (fun i => if i = 0 then 2 else if i = 3 then 0 else 1) (fun i => 2 * i) 7 1000
          (fun i => if i = 0 then 2 else if i = 3 then 0 else 1) (fun i => 2 * i) 7
          ⟨1, 4, 4⟩).schedule = some s ∧
        ∀ e ∈ s, e.act.count ≠ 0) ∧
    (∃ s, a2av_sched_linear 20 1 4 [] 500
          (fun i => if i = 0 then 2 else if i = 3 then 0 else 1) (fun i => 2 * i) 4 7 1000
          (fun i => if i = 0 then 2 else if i = 3 then 0 else 1) (fun i => 2 * i) 4 7 = .ok s ∧
        ∀ e ∈ s, e.act.count ≠ 0) ∧
    (∃ s, a2av_sched_pairwise 20 1 4 [] 500
          (fun i => if i = 0 then 2 else if i = 3 then 0 else 1) (fun i => 2 * i) 4 7 1000
          (fun i => if i = 0 then 2 else if i = 3 then 0 else 1) (fun i => 2 * i) 4 7 = .ok s ∧
        ∀ e ∈ s, e.act.count ≠ 0) ∧
    (∃ s, a2av_sched_inplace 20 1 4 [] 1000
          (fun i => if i = 0 then 2 else if i = 3 then 0 else 1) (fun i => 2 * i) 4 7 16
          = .ok s ∧
        (∀ e ∈ s.dropLast, e.act.count ≠ 0) ∧
        (∀ e ∈ s, e.act.count = 0 → (4 : Int).tmod 2 = 0 ∧
          e = ⟨.copy (1000 + (fun i : Int => 2 * i) (((1 : Int) + (4 : Int).tdiv 2).tmod 4) * 4)
              false ((fun i : Int => if i = 0 then (2 : Int) else if i = 3 then 0 else 1) (((1 : Int) + (4 : Int).tdiv 2).tmod 4)) 7 (-16) true
              ((fun i : Int => if i = 0 then (2 : Int) else if i = 3 then 0 else 1) (((1 : Int) + (4 : Int).tdiv 2).tmod 4)) 7, true⟩)) ∧
    (∃ s, (ompi_coll_libpnbc_iallgatherv_init ⟨fun _ => (0, 4), 0, true, 20, 0, 0, 0⟩ 500 2
          7 1000 (fun i => if i = 0 then 2 else if i = 3 then 0 else 1) (fun i => 2 * i) 7
          ⟨1, 4, 4⟩).schedule = some s ∧
        s.length = 2 * ((4 : Int) - 1).toNat ∧
        ∀ e ∈ s, (∀ q, e.recvsFrom q = true → e.act.count
            = (fun i : Int => if i = 0 then (2 : Int) else if i = 3 then 0 else 1) q) ∧
          (e.act.isSend = true → e.act.count
            = (fun i : Int => if i = 0 then (2 : Int) else if i = 3 then 0 else 1) 1)) :=
  zero_count_policy ⟨fun _ => (0, 4), 0, true, 20, 0, 0, 0⟩ 500 2
    (fun i => if i = 0 then 2 else if i = 3 then 0 else 1) (fun i => 2 * i) 4 7 1000
    (fun i => if i = 0 then 2 else if i = 3 then 0 else 1) (fun i => 2 * i) 4 7 16 1 4 4
    (by decide) (by decide) (by decide) rfl ⟨rfl, rfl, rfl, by decide, rfl, rfl, rfl⟩

/-! ## Rounds -/

/-- Counterexample for C8, the code at `p = 3`, rank 0 (`recvcounts = {2,1,3}`,
`displs = {0,2,3}`, extent 4): every append of `ompi_coll_libpnbc_iallgatherv_init`
passes `false` as its barrier flag, so the four actions of the two loop iterations form
one single round and not `p - 1 = 2` rounds of one Receive and one Send each. -/
theorem iallgatherv_init_one_round :
    (ompi_coll_libpnbc_iallgatherv_init ⟨fun _ => (0, 4), 0, true, 4, 0, 0, 0⟩ 500 2 7 1000
        (fun i => if i = 0 then 2 else if i = 1 then 1 else 3)
        (fun i => if i = 0 then 0 else if i = 1 then 2 else 3) 7 ⟨0, 3, 0⟩).schedule.map rounds
      = some [[.recv 1012 false 3 7 2, .send 1000 false 2 7 1,
               .recv 1008 false 1 7 1, .send 1000 false 2 7 2]] := by
  decide

theorem rounds_shape (s : PNBC_Schedule)
    (h : ∀ e ∈ s, e.barrier = false → e.act.isSend = true) :
    ∀ r ∈ rounds s, r ≠ [] ∧ ∀ a ∈ r.dropLast, a.isSend = true := by
  induction s with
  | nil => simp [rounds]
  | cons e es ih =>
    have ih' := ih (fun e' h' => h e' (List.mem_cons_of_mem _ h'))
    intro r hr
    by_cases hb : e.barrier = true
    · simp only [rounds, hb, if_true, List.mem_cons] at hr
      rcases hr with rfl | hr
      · simp
      · exact ih' r hr
    · have hb' : e.barrier = false := by simpa using hb
      have hse := h e (List.mem_cons_self _ _) hb'
      simp only [rounds, hb'] at hr
      cases hrs : rounds es with
      | nil =>
        rw [hrs] at hr
        simp at hr
        subst hr
        simp
      | cons r0 rs =>
        rw [hrs] at hr ih'
        simp only [Bool.false_eq_true, if_false, List.mem_cons] at hr
        rcases hr with rfl | hr
        · have h0 := ih' r0 (List.mem_cons_self _ _)
          refine ⟨by simp, ?_⟩
          intro a ha
          rw [List.dropLast_cons_of_ne_nil h0.1, List.mem_cons] at ha
          rcases ha with rfl | ha
          · exact hse
          · exact h0.2 a ha
        · exact ih' r (List.mem_cons_of_mem _ hr)

theorem InplaceShape.flag {buf : Int} {counts displs : Int → Int} {ext : MPI_Aint}
    {type : MPI_Datatype} {gap : Int} {strict : Prop} {q : Int} {e : Entry}
    (h : InplaceShape buf counts displs ext type gap strict q e) :
    e.barrier = !e.act.isSend := by
  rcases h with ⟨rfl, _⟩ | ⟨_, rfl | rfl | rfl⟩ <;> simp [Action.isSend]

/-- Counterexample for C9: with `p = 3`, rank 0 and all counts 1 the five appends of
`a2av_sched_inplace` make three rounds, not five: each Send is appended without a barrier
and shares its round with the Receive appended after it. -/
theorem inplace_send_shares_round :
    ∃ s, a2av_sched_inplace 15 0 3 [] 1000 (fun _ => 1) (fun i => i) 4 7 16 = .ok s ∧
      rounds s = [[.copy 1008 false 1 7 (-16) true 1 7],
                  [.send 1004 false 1 7 1, .recv 1008 false 1 7 2],
                  [.send (-16) true 1 7 2, .recv 1004 false 1 7 1]] ∧
      ¬ (∀ e ∈ s, e.barrier = true) := by
  refine ⟨_, rfl, by decide, by decide⟩

/-- C9, amended: for every `p >= 1`, `0 <= rank < p` and counts table, when the storage
takes `3*p` entries, every LocalCopy and every Receive appended by `a2av_sched_inplace`
asks for a round barrier after its action and every Send (from a slot or from the
temporary buffer) does not; so in every round of the schedule each action but the last
is a Send: a Send shares its round with the action appended after it. -/
theorem a2av_sched_inplace_barriers (cap : Nat) (rank p : Int) (buf : Int)
    (counts displs : Int → Int) (ext : MPI_Aint) (type : MPI_Datatype) (gap : Int)
    (hp : 1 ≤ p) (h0 : 0 ≤ rank) (hlt : rank < p) (hcap : 3 * p.toNat ≤ cap) :
    ∃ s : PNBC_Schedule,
      a2av_sched_inplace cap rank p [] buf counts displs ext type gap = .ok s ∧
      (∀ e ∈ s, e.barrier = !e.act.isSend) ∧
      (∀ r ∈ rounds s, r ≠ [] ∧ ∀ a ∈ r.dropLast, a.isSend = true) := by
  have hflag : ∀ e ∈ inplaceEntries rank p buf counts displs ext type gap,
      e.barrier = !e.act.isSend := by
    intro e he
    obtain ⟨q, _, hsh⟩ := inplaceEntries_shape rank p buf counts displs ext type gap h0 hlt e he
    exact hsh.flag
  refine ⟨_, a2av_sched_inplace_ok cap rank p buf counts displs ext type gap hp hcap, hflag,
    rounds_shape _ ?_⟩
  intro e he hb
  have := hflag e he
  rw [hb] at this
  simpa using this.symm

/-- Witness for C9 as amended: `p = 4`, rank 2, counts `{1,0,2,3}`. -/
theorem a2av_sched_inplace_barriers_witness :
    ∃ s : PNBC_Schedule,
      a2av_sched_inplace 12 2 4 [] 1000
          (fun i => if i = 0 then 1 else if i = 1 then 0 else if i = 2 then 2 else 3)
          (fun i => 3 * i) 4 7 16 = .ok s ∧
      (∀ e ∈ s, e.barrier = !e.act.isSend) ∧
      (∀ r ∈ rounds s, r ≠ [] ∧ ∀ a ∈ r.dropLast, a.isSend = true) :=
  a2av_sched_inplace_barriers 12 2 4 1000
    (fun i => if i = 0 then 1 else if i = 1 then 0 else if i = 2 then 2 else 3)
    (fun i => 3 * i) 4 7 16 (by decide) (by decide) (by decide) (by decide)

/-! ## The staged exchange of the in-place strategy -/

theorem flatMap_split {α β : Type} (f : α → List β) (l : List α) (i : α) (hi : i ∈ l) :
    ∃ pre post, l.flatMap f = pre ++ f i ++ post := by
  obtain ⟨s, t, rfl⟩ := List.mem_iff_append.mp hi
  exact ⟨s.flatMap f, t.flatMap f, by simp [List.flatMap_append, List.flatMap_cons]⟩

theorem inplaceStep_acts (buf : Int) (counts displs : Int → Int) (ext : MPI_Aint)
    (type : MPI_Datatype) (gap : Int) (sp rp : Int) (hs : counts sp ≠ 0)
    (hr : counts rp ≠ 0) :
    (inplaceStep buf counts displs ext type gap sp rp).map Entry.act
      = stagedExchange buf counts displs ext type gap sp rp := by
  simp [inplaceStep, stagedExchange, zero_eq_iff, hs, hr]

theorem inplaceTail_acts (rank p : Int) (buf : Int) (counts displs : Int → Int)
    (ext : MPI_Aint) (type : MPI_Datatype) (gap : Int) (hev : p.tmod 2 = 0)
    (hc : counts ((rank + p.tdiv 2).tmod p) ≠ 0) :
    (inplaceTail rank p buf counts displs ext type gap).map Entry.act
      = oppositeExchange buf counts displs ext type gap ((rank + p.tdiv 2).tmod p) := by
  simp [inplaceTail, oppositeExchange, zero_eq_iff, hev, hc]

/-- Counterexample for C10: with `p = 2`, rank 0 and counts `{1,1}` the offset
`i = 1 = floor(p/2)` has `speer = rpeer = 1`, both counts nonzero, and the schedule of
`a2av_sched_inplace` is three actions long: the five actions of the staged exchange do
not occur in it. -/
theorem inplace_no_staged_exchange_at_half :
    ∃ s, a2av_sched_inplace 6 0 2 [] 1000 (fun _ => 1) (fun i => i) 4 7 16 = .ok s ∧
      s.map Entry.act = [.copy 1004 false 1 7 (-16) true 1 7, .send (-16) true 1 7 1,
        .recv 1004 false 1 7 1] ∧
      ¬ ∃ pre post, s.map Entry.act
        = pre ++ stagedExchange 1000 (fun _ => 1) (fun i => i) 4 7 16
            (((0 : Int) + 1) % 2) (((0 : Int) - 1 + 2) % 2) ++ post := by
  refine ⟨_, rfl, by decide, ?_⟩
  rintro ⟨pre, post, h⟩
  have hl := congrArg List.length h
  simp [stagedExchange] at hl
  omega

/-- C10, amended: for every `p >= 1`, `0 <= rank < p` and counts table, when the storage
takes `3*p` entries, `a2av_sched_inplace` performs the staged exchange for every offset
`i` with `1 <= i` and `2*i < p` (the offsets of its loop, `i < (p+1)/2`): with
`speer = (rank + i) mod p`, `rpeer = (rank - i + p) mod p` and both counts nonzero, its
schedule contains, consecutively and in this order, the LocalCopy of slot `rpeer` into
the temporary buffer, the Send of slot `speer` to `speer`, the Receive from `rpeer` into
slot `rpeer`, the Send of the temporary buffer to `rpeer` and the Receive from `speer`
into slot `speer`.  For even `p` the offset `p/2`, where both peers are the opposite rank
`(rank + p/2) mod p`, is served at the end of the schedule by three actions when the
count of that rank is nonzero: LocalCopy of its slot into the temporary buffer, Send of
the temporary buffer to it, Receive from it into its slot. -/
theorem a2av_sched_inplace_staged (cap : Nat) (rank p : Int) (buf : Int)
    (counts displs : Int → Int) (ext : MPI_Aint) (type : MPI_Datatype) (gap : Int)
    (hp : 1 ≤ p) (h0 : 0 ≤ rank) (hlt : rank < p) (hcap : 3 * p.toNat ≤ cap) :
    ∃ s : PNBC_Schedule,
      a2av_sched_inplace cap rank p [] buf counts displs ext type gap = .ok s ∧
      (∀ i : Int, 1 ≤ i → 2 * i < p →
        counts ((rank + i) % p) ≠ 0 → counts ((rank - i + p) % p) ≠ 0 →
        ∃ pre post, s.map Entry.act
          = pre ++ stagedExchange buf counts displs ext type gap ((rank + i) % p)
              ((rank - i + p) % p) ++ post) ∧
      (p % 2 = 0 → counts ((rank + p / 2) % p) ≠ 0 →
        ∃ pre, s.map Entry.act
          = pre ++ oppositeExchange buf counts displs ext type gap ((rank + p / 2) % p)) := by
  have _ := hlt
  refine ⟨_, a2av_sched_inplace_ok cap rank p buf counts displs ext type gap hp hcap, ?_, ?_⟩
  · intro i hi h2i hcs hcr
    have e1 : (rank + i).tmod p = (rank + i) % p := Int.tmod_eq_emod (by omega) (by omega)
    have e2 : (rank + p - i).tmod p = (rank - i + p) % p := by
      rw [Int.tmod_eq_emod (by omega) (by omega)]
      congr 1
      omega
    have hmem : i ∈ forRange 1 ((p + 1).tdiv 2) := by
      rw [mem_inplace_range p i (by omega)]
      exact ⟨hi, h2i⟩
    obtain ⟨pre, post, hsplit⟩ := flatMap_split (fun i =>
      inplaceStep buf counts displs ext type gap ((rank + i).tmod p) ((rank + p - i).tmod p))
      _ i hmem
    refine ⟨pre.map Entry.act, post.map Entry.act ++
      (inplaceTail rank p buf counts displs ext type gap).map Entry.act, ?_⟩
    unfold inplaceEntries
    rw [hsplit]
    simp only [List.map_append, List.append_assoc, e1, e2]
    rw [inplaceStep_acts buf counts displs ext type gap _ _ hcs hcr]
  · intro hev hc
    have e1 : p.tmod 2 = 0 := by rw [tmod_two p (by omega)]; exact hev
    have e2 : (rank + p.tdiv 2).tmod p = (rank + p / 2) % p := by
      rw [tdiv_two p (by omega)]
      exact Int.tmod_eq_emod (by omega) (by omega)
    refine ⟨((forRange 1 ((p + 1).tdiv 2)).flatMap (fun i =>
      inplaceStep buf counts displs ext type gap ((rank + i).tmod p)
        ((rank + p - i).tmod p))).map Entry.act, ?_⟩
    unfold inplaceEntries
    rw [List.map_append, inplaceTail_acts rank p buf counts displs ext type gap e1
      (by rw [e2]; exact hc), e2]

/-- Witness for C10 as amended: `p = 4`, rank 0, counts `i + 1`, displacements `3 * i`. -/
theorem a2av_sched_inplace_staged_witness :
    ∃ s : PNBC_Schedule,
      a2av_sched_inplace 12 0 4 [] 1000 (fun i => i + 1) (fun i => 3 * i) 4 7 16 = .ok s ∧
      (∀ i : Int, 1 ≤ i → 2 * i < 4 →
        (fun i : Int => i + 1) ((0 + i) % 4) ≠ 0 →
        (fun i : Int => i + 1) ((0 - i + 4) % 4) ≠ 0 →
        ∃ pre post, s.map Entry.act
          = pre ++ stagedExchange 1000 (fun i => i + 1) (fun i => 3 * i) 4 7 16 ((0 + i) % 4)
              ((0 - i + 4) % 4) ++ post) ∧
      ((4 : Int) % 2 = 0 → (fun i : Int => i + 1) ((0 + 4 / 2) % 4) ≠ 0 →
        ∃ pre, s.map Entry.act
          = pre ++ oppositeExchange 1000 (fun i => i + 1) (fun i => 3 * i) 4 7 16
              ((0 + 4 / 2) % 4)) :=
  a2av_sched_inplace_staged 12 0 4 1000 (fun i => i + 1) (fun i => 3 * i) 4 7 16
    (by decide) (by decide) (by decide) (by decide)

/-! ## The Pairwise strategy -/

theorem pairwisePlan_eq (rank p : Int) (sendbuf : Int) (sendcounts sdispls : Int → Int)
    (sndext : MPI_Aint) (sendtype : MPI_Datatype) (recvbuf : Int)
    (recvcounts rdispls : Int → Int) (rcvext : MPI_Aint) (recvtype : MPI_Datatype)
    (h0 : 0 ≤ rank) (hlt : rank < p) :
    pairwisePlan rank p sendbuf sendcounts sdispls sndext sendtype recvbuf recvcounts rdispls
        rcvext recvtype
      = (forRange 1 p).flatMap (pairwiseStep rank p sendbuf sendcounts sdispls sndext sendtype
          recvbuf recvcounts rdispls rcvext recvtype) := by
  unfold pairwisePlan
  rw [← forRange_one]
  apply flatMap_congr_mem
  intro i hi
  rw [mem_forRange] at hi
  have e1 : (rank + i).tmod p = (rank + i) % p := Int.tmod_eq_emod (by omega) (by omega)
  have e2 : (rank + p - i).tmod p = (rank - i + p) % p := by
    rw [Int.tmod_eq_emod (by omega) (by omega)]
    congr 1
    omega
  simp only [pairwiseStep, e1, e2]

/-- C11: for every `p >= 1`, `0 <= rank < p` and every tables, when the storage takes the
plan, `a2av_sched_pairwise` on a fresh schedule returns exactly the plan of the
specification: for the offsets `i = 1 .. p-1` ascending a Send of `sendcounts[s]`
elements to `s = (rank + i) mod p` (when `sendcounts[s] != 0`) followed by a Receive of
`recvcounts[q]` elements from `q = (rank - i + p) mod p` (when `recvcounts[q] != 0`);
every Receive is appended with the trailing flag set and every Send with it clear. -/
theorem a2av_sched_pairwise_plan (cap : Nat) (rank p : Int) (sendbuf : Int)
    (sendcounts sdispls : Int → Int) (sndext : MPI_Aint) (sendtype : MPI_Datatype)
    (recvbuf : Int) (recvcounts rdispls : Int → Int) (rcvext : MPI_Aint)
    (recvtype : MPI_Datatype) (hp : 1 ≤ p) (h0 : 0 ≤ rank) (hlt : rank < p)
    (hcap : (pairwisePlan rank p sendbuf sendcounts sdispls sndext sendtype recvbuf
      recvcounts rdispls rcvext recvtype).length ≤ cap) :
    a2av_sched_pairwise cap rank p [] sendbuf sendcounts sdispls sndext sendtype
        recvbuf recvcounts rdispls rcvext recvtype
      = .ok (pairwisePlan rank p sendbuf sendcounts sdispls sndext sendtype recvbuf
          recvcounts rdispls rcvext recvtype) ∧
    (∀ e ∈ pairwisePlan rank p sendbuf sendcounts sdispls sndext sendtype recvbuf recvcounts
        rdispls rcvext recvtype,
      (e.act.isRecv = true → e.barrier = true) ∧ (e.act.isSend = true → e.barrier = false) ∧
        e.act.isCopy = false) := by
  have _ := hp
  constructor
  · rw [a2av_sched_pairwise_eq, ← pairwisePlan_eq _ _ _ _ _ _ _ _ _ _ _ _ h0 hlt]
    simpa using emitAll_of_le cap _ [] (by simpa using hcap)
  · intro e he
    rw [pairwisePlan_eq _ _ _ _ _ _ _ _ _ _ _ _ h0 hlt, List.mem_flatMap] at he
    obtain ⟨i, _, he⟩ := he
    unfold pairwiseStep at he
    by_cases h1 : sendcounts ((rank + i).tmod p) = 0 <;>
      by_cases h2 : recvcounts ((rank + p - i).tmod p) = 0 <;>
      simp [h1, h2] at he
    · subst he; simp [Action.isRecv, Action.isSend, Action.isCopy]
    · subst he; simp [Action.isRecv, Action.isSend, Action.isCopy]
    · rcases he with he | he <;> subst he <;> simp [Action.isRecv, Action.isSend, Action.isCopy]

/-- Witness for C11: `p = 3`, rank 0, `sendcounts = {5,1,2}`, `recvcounts = {5,0,3}`. -/
theorem a2av_sched_pairwise_plan_witness :
    a2av_sched_pairwise 3 0 3 [] 1000 (fun i => if i = 0 then 5 else i) (fun i => 2 * i) 4 7
        2000 (fun i => if i = 0 then 5 else if i = 1 then 0 else 3) (fun i => 3 * i) 8 9
      = .ok [⟨.send 1008 false 1 7 1, false⟩, ⟨.recv 2048 false 3 9 2, true⟩,
             ⟨.send 1016 false 2 7 2, false⟩] :=
  (a2av_sched_pairwise_plan 3 0 3 1000 (fun i => if i = 0 then 5 else i) (fun i => 2 * i) 4 7
    2000 (fun i => if i = 0 then 5 else if i = 1 then 0 else 3) (fun i => 3 * i) 8 9
    (by decide) (by decide) (by decide) (by decide)).1

/-! ## The inter-group plans -/

theorem iallgatherv_inter_ok (sys : System) (sendbuf : Int) (sendcount : Int)
    (sendtype : MPI_Datatype) (recvbuf : Int) (recvcounts displs : Int → Int)
    (recvtype : MPI_Datatype) (comm : ompi_communicator_t) (rcvext : MPI_Aint)
    (hs : sys.succeeds recvtype rcvext (2 * comm.remote_size.toNat)) :
    ompi_coll_libpnbc_iallgatherv_inter sys sendbuf sendcount sendtype recvbuf recvcounts
        displs recvtype comm
      = ⟨OMPI_SUCCESS,
          some (.handle ⟨some (allgathervInterEntries comm.remote_size sendbuf sendcount
            sendtype recvbuf recvcounts displs rcvext recvtype), none⟩),
          [.obj_new, .init_handle, .start (allgathervInterEntries comm.remote_size sendbuf
            sendcount sendtype recvbuf recvcounts displs rcvext recvtype)]⟩ := by
  obtain ⟨h1, _, h3, h4, h5, h6, h7⟩ := hs
  have hl := length_allgathervInterEntries_le comm.remote_size sendbuf sendcount sendtype
    recvbuf recvcounts displs rcvext recvtype
  have hb := emitAll_of_le sys.cap (allgathervInterEntries comm.remote_size sendbuf sendcount
    sendtype recvbuf recvcounts displs rcvext recvtype) []
    (by simp only [List.length_nil]; omega)
  unfold ompi_coll_libpnbc_iallgatherv_inter
  simp only [h1, h3, h5, h6, h7, iallgatherv_inter_rounds_eq]
  rw [hb]
  simp

theorem ialltoallv_inter_ok (sys : System) (sendbuf : Int)
    (sendcounts sdispls : Int → Int) (sendtype : MPI_Datatype) (recvbuf : Int)
    (recvcounts rdispls : Int → Int) (recvtype : MPI_Datatype)
    (comm : ompi_communicator_t) (sndext rcvext : MPI_Aint)
    (hsnd : sys.extent sendtype = (MPI_SUCCESS, sndext))
    (hs : sys.succeeds recvtype rcvext (2 * comm.remote_size.toNat)) :
    ompi_coll_libpnbc_ialltoallv_inter sys sendbuf sendcounts sdispls sendtype recvbuf
        recvcounts rdispls recvtype comm
      = ⟨OMPI_SUCCESS,
          some (.handle ⟨some ((forRange 0 comm.remote_size).flatMap (alltoallvInterStep
            sendbuf sendcounts sdispls sndext sendtype recvbuf recvcounts rdispls rcvext
            recvtype)), none⟩),
          [.obj_new, .init_handle, .start ((forRange 0 comm.remote_size).flatMap
            (alltoallvInterStep sendbuf sendcounts sdispls sndext sendtype recvbuf recvcounts
              rdispls rcvext recvtype))]⟩ := by
  obtain ⟨h1, _, h3, h4, h5, h6, h7⟩ := hs
  have hl := length_flatMap_le 2 (alltoallvInterStep sendbuf sendcounts
    sdispls sndext sendtype recvbuf recvcounts rdispls rcvext recvtype)
    (forRange 0 comm.remote_size) (fun i => by
      unfold alltoallvInterStep
      by_cases h1 : sendcounts i = 0 <;> by_cases h2 : recvcounts i = 0 <;> simp [h1, h2])
  rw [length_forRange] at hl
  have hb := emitAll_of_le sys.cap ((forRange 0 comm.remote_size).flatMap
    (alltoallvInterStep sendbuf sendcounts sdispls sndext sendtype recvbuf recvcounts rdispls
      rcvext recvtype)) [] (by simp only [List.length_nil]; omega)
  unfold ompi_coll_libpnbc_ialltoallv_inter
  simp only [hsnd, h1, h3, h5, h6, h7, ialltoallv_inter_rounds_eq]
  rw [hb]
  simp

theorem flatMap_const_nil {α β : Type} (l : List α) :
    l.flatMap (fun _ => ([] : List β)) = [] := by
  induction l with
  | nil => rfl
  | cons a l ih => simp [List.flatMap_cons, ih]

theorem allgathervInterPlan_eq (rsize : Int) (sendbuf : Int) (sendcount : Int)
    (sendtype : MPI_Datatype) (recvbuf : Int) (recvcounts displs : Int → Int)
    (rcvext : MPI_Aint) (recvtype : MPI_Datatype) :
    allgathervInterPlan rsize sendbuf sendcount sendtype recvbuf recvcounts displs rcvext
        recvtype
      = allgathervInterEntries rsize sendbuf sendcount sendtype recvbuf recvcounts displs
          rcvext recvtype := by
  unfold allgathervInterPlan allgathervInterEntries
  rw [← forRange_zero]
  congr 1
  by_cases h : sendcount = 0
  · simp only [ne_eq, h, not_true_eq_false, if_false]
    exact flatMap_const_nil _
  · simp only [ne_eq, h, not_false_eq_true, if_true]

theorem alltoallvInterPlan_eq (rsize : Int) (sendbuf : Int) (sendcounts sdispls : Int → Int)
    (sndext : MPI_Aint) (sendtype : MPI_Datatype) (recvbuf : Int)
    (recvcounts rdispls : Int → Int) (rcvext : MPI_Aint) (recvtype : MPI_Datatype) :
    alltoallvInterPlan rsize sendbuf sendcounts sdispls sndext sendtype recvbuf recvcounts
        rdispls rcvext recvtype
      = (forRange 0 rsize).flatMap (alltoallvInterStep sendbuf sendcounts sdispls sndext
          sendtype recvbuf recvcounts rdispls rcvext recvtype) := by
  unfold alltoallvInterPlan
  rw [← forRange_zero]
  rfl

/-- C13: for every remote size `rsize >= 0` and every tables, when the collaborators
succeed, `ompi_coll_libpnbc_iallgatherv_inter` returns success with a started handle
whose schedule is the plan of the specification: first, for `r = 0 .. rsize-1`
ascending, a Receive of `recvcounts[r]` elements from the remote rank `r` into
`recvbuf + displs[r]*extent` exactly when `recvcounts[r] != 0`, then, after all
Receives, the Sends of `sendcount` elements of `sendbuf` to the remote ranks in
ascending order, present only when `sendcount != 0`; no append asks for a barrier, so
the schedule is one single round. -/
theorem iallgatherv_inter_plan (sys : System) (sendbuf : Int) (sendcount : Int)
    (sendtype : MPI_Datatype) (recvbuf : Int) (recvcounts displs : Int → Int)
    (recvtype : MPI_Datatype) (rank p rsize : Int) (rcvext : MPI_Aint)
    (hr : 0 ≤ rsize) (hs : sys.succeeds recvtype rcvext (2 * rsize.toNat)) :
    (ompi_coll_libpnbc_iallgatherv_inter sys sendbuf sendcount sendtype recvbuf recvcounts
        displs recvtype ⟨rank, p, rsize⟩).res = OMPI_SUCCESS ∧
    (ompi_coll_libpnbc_iallgatherv_inter sys sendbuf sendcount sendtype recvbuf recvcounts
        displs recvtype ⟨rank, p, rsize⟩).schedule
      = some (allgathervInterPlan rsize sendbuf sendcount sendtype recvbuf recvcounts displs
          rcvext recvtype) ∧
    (∀ e ∈ allgathervInterPlan rsize sendbuf sendcount sendtype recvbuf recvcounts displs
        rcvext recvtype, e.barrier = false) ∧
    (rounds (allgathervInterPlan rsize sendbuf sendcount sendtype recvbuf recvcounts displs
        rcvext recvtype)).length ≤ 1 := by
  have _ := hr
  have hflag : ∀ e ∈ allgathervInterPlan rsize sendbuf sendcount sendtype recvbuf recvcounts
      displs rcvext recvtype, e.barrier = false := by
    intro e he
    unfold allgathervInterPlan at he
    simp only [List.mem_append, List.mem_flatMap] at he
    rcases he with ⟨r, _, he⟩ | ⟨r, _, he⟩
    · by_cases h : recvcounts r = 0
      · simp [h] at he
      · simp [h] at he
        subst he
        rfl
    · by_cases h : sendcount = 0
      · simp [h] at he
      · simp [h] at he
        subst he
        rfl
  rw [iallgatherv_inter_ok sys sendbuf sendcount sendtype recvbuf recvcounts displs recvtype
    ⟨rank, p, rsize⟩ rcvext hs]
  refine ⟨rfl, ?_, hflag, rounds_of_no_barrier _ hflag⟩
  rw [allgathervInterPlan_eq]
  rfl

/-- Witness for C13: three remote ranks, `recvcounts = {2,0,3}`, `displs = {0,2,2}`,
extent 4, `sendcount = 5`. -/
theorem iallgatherv_inter_plan_witness :
    (ompi_coll_libpnbc_iallgatherv_inter ⟨fun _ => (0, 4), 0, true, 6, 0, 0, 0⟩ 500 5 9 1000
        (fun i => if i = 0 then 2 else if i = 1 then 0 else 3)
        (fun i => if i = 0 then 0 else 2) 7 ⟨1, 2, 3⟩).schedule
      = some [⟨.recv 1000 false 2 7 0, false⟩, ⟨.recv 1008 false 3 7 2, false⟩,
              ⟨.send 500 false 5 9 0, false⟩, ⟨.send 500 false 5 9 1, false⟩,
              ⟨.send 500 false 5 9 2, false⟩] :=
  (iallgatherv_inter_plan ⟨fun _ => (0, 4), 0, true, 6, 0, 0, 0⟩ 500 5 9 1000
    (fun i => if i = 0 then 2 else if i = 1 then 0 else 3)
    (fun i => if i = 0 then 0 else 2) 7 1 2 3 4 (by decide)
    ⟨rfl, rfl, rfl, by decide, rfl, rfl, rfl⟩).2.1

/-- C14: for every remote size `rsize >= 0` and every tables, when the collaborators
succeed, `ompi_coll_libpnbc_ialltoallv_inter` returns success with a started handle
whose schedule is the plan of the specification: for each remote rank
`i = 0 .. rsize-1` ascending, a Send of `sendcounts[i]` elements from
`sendbuf + sdispls[i]*sndext` to `i` exactly when `sendcounts[i] != 0` and a Receive of
`recvcounts[i]` elements into `recvbuf + rdispls[i]*rcvext` from `i` exactly when
`recvcounts[i] != 0`; no remote rank is left out, the own rank included, and no append
asks for a barrier, so the schedule is one single round. -/
theorem ialltoallv_inter_plan (sys : System) (sendbuf : Int)
    (sendcounts sdispls : Int → Int) (sendtype : MPI_Datatype) (recvbuf : Int)
    (recvcounts rdispls : Int → Int) (recvtype : MPI_Datatype) (rank p rsize : Int)
    (sndext rcvext : MPI_Aint) (hr : 0 ≤ rsize)
    (hsnd : sys.extent sendtype = (MPI_SUCCESS, sndext))
    (hs : sys.succeeds recvtype rcvext (2 * rsize.toNat)) :
    (ompi_coll_libpnbc_ialltoallv_inter sys sendbuf sendcounts sdispls sendtype recvbuf
        recvcounts rdispls recvtype ⟨rank, p, rsize⟩).res = OMPI_SUCCESS ∧
    (ompi_coll_libpnbc_ialltoallv_inter sys sendbuf sendcounts sdispls sendtype recvbuf
        recvcounts rdispls recvtype ⟨rank, p, rsize⟩).schedule
      = some (alltoallvInterPlan rsize sendbuf sendcounts sdispls sndext sendtype recvbuf
          recvcounts rdispls rcvext recvtype) ∧
    (∀ e ∈ alltoallvInterPlan rsize sendbuf sendcounts sdispls sndext sendtype recvbuf
        recvcounts rdispls rcvext recvtype, e.barrier = false) ∧
    (rounds (alltoallvInterPlan rsize sendbuf sendcounts sdispls sndext sendtype recvbuf
        recvcounts rdispls rcvext recvtype)).length ≤ 1 := by
  have _ := hr
  have hflag : ∀ e ∈ alltoallvInterPlan rsize sendbuf sendcounts sdispls sndext sendtype
      recvbuf recvcounts rdispls rcvext recvtype, e.barrier = false := by
    intro e he
    unfold alltoallvInterPlan at he
    simp only [List.mem_flatMap] at he
    obtain ⟨i, _, he⟩ := he
    by_cases h1 : sendcounts i = 0 <;> by_cases h2 : recvcounts i = 0 <;>
      simp [h1, h2] at he
    · subst he; rfl
    · subst he; rfl
    · rcases he with he | he <;> subst he <;> rfl
  rw [ialltoallv_inter_ok sys sendbuf sendcounts sdispls sendtype recvbuf recvcounts rdispls
    recvtype ⟨rank, p, rsize⟩ sndext rcvext hsnd hs]
  refine ⟨rfl, ?_, hflag, rounds_of_no_barrier _ hflag⟩
  rw [alltoallvInterPlan_eq]
  rfl

/-- Witness for C14: local rank 1, three remote ranks (the remote rank 1 is not left
out), `sendcounts = {1,2,0}`, `recvcounts = {0,4,5}`. -/
theorem ialltoallv_inter_plan_witness :
    (ompi_coll_libpnbc_ialltoallv_inter ⟨fun _ => (0, 4), 0, true, 6, 0, 0, 0⟩ 500
        (fun i => if i = 0 then 1 else if i = 1 then 2 else 0) (fun i => 3 * i) 7 1000
        (fun i => if i = 0 then 0 else if i = 1 then 4 else 5) (fun i => 5 * i) 7
        ⟨1, 2, 3⟩).schedule
      = some [⟨.send 500 false 1 7 0, false⟩, ⟨.send 512 false 2 7 1, false⟩,
              ⟨.recv 1020 false 4 7 1, false⟩, ⟨.recv 1040 false 5 7 2, false⟩] :=
  (ialltoallv_inter_plan ⟨fun _ => (0, 4), 0, true, 6, 0, 0, 0⟩ 500
    (fun i => if i = 0 then 1 else if i = 1 then 2 else 0) (fun i => 3 * i) 7 1000
    (fun i => if i = 0 then 0 else if i = 1 then 4 else 5) (fun i => 5 * i) 7 1 2 3 4 4
    (by decide) rfl ⟨rfl, rfl, rfl, by decide, rfl, rfl, rfl⟩).2.1

/-! ## Error returns of the local all-to-all -/

/-- C12, the code at the failing step: a call that is not in place, with
`sendcounts[rank] = 2`, whose up-front `PNBC_Copy` fails with code `-1`, returns `-1`
with the request unassigned after drawing a handle from the pool and calling the copy:
the handle is not returned to the pool. -/
theorem ialltoallv_init_copy_failure_keeps_handle :
    ompi_coll_libpnbc_ialltoallv_init ⟨fun _ => (0, 4), -1, true, 100, 0, 0, 0⟩
        ⟨fun _ c => (4 * c, 16), fun _ => true⟩ 500
        (fun i => i + 1) (fun i => 2 * i) 7 1000 (fun i => 3 - i) (fun i => 3 * i) 7 ⟨1, 3, 0⟩
      = ⟨-1, none, [.init_handle, .copy 508 2 7 1012 2 7]⟩ ∧
    (ompi_coll_libpnbc_ialltoallv_init ⟨fun _ => (0, 4), -1, true, 100, 0, 0, 0⟩
        ⟨fun _ c => (4 * c, 16), fun _ => true⟩ 500
        (fun i => i + 1) (fun i => 2 * i) 7 1000 (fun i => 3 - i) (fun i => 3 * i) 7
        ⟨1, 3, 0⟩).handleHeld = true := by
  decide

/-- The other error returns of `ompi_coll_libpnbc_ialltoallv_init`: whenever the call
returns an error the request is left unassigned and no schedule object is left
unreleased, and the handle is left outside the pool only on the path of a failed
up-front copy. -/
theorem ialltoallv_init_error_returns (sys : System) (heap : Heap) (sendbuf : Int)
    (sendcounts sdispls : Int → Int) (sendtype : MPI_Datatype) (recvbuf : Int)
    (recvcounts rdispls : Int → Int) (recvtype : MPI_Datatype)
    (comm : ompi_communicator_t)
    (herr : (ompi_coll_libpnbc_ialltoallv_init sys heap sendbuf sendcounts sdispls sendtype
      recvbuf recvcounts rdispls recvtype comm).res ≠ OMPI_SUCCESS) :
    (ompi_coll_libpnbc_ialltoallv_init sys heap sendbuf sendcounts sdispls sendtype
      recvbuf recvcounts rdispls recvtype comm).request = none ∧
    (ompi_coll_libpnbc_ialltoallv_init sys heap sendbuf sendcounts sdispls sendtype
      recvbuf recvcounts rdispls recvtype comm).scheduleHeld = false ∧
    ((ompi_coll_libpnbc_ialltoallv_init sys heap sendbuf sendcounts sdispls sendtype
      recvbuf recvcounts rdispls recvtype comm).handleHeld = true →
      PNBC_IN_PLACE sendbuf recvbuf = false ∧ sendcounts comm.rank ≠ 0 ∧
        sys.copy_res ≠ OMPI_SUCCESS) := by
  revert herr
  unfold ompi_coll_libpnbc_ialltoallv_init
  simp only []
  split_ifs <;> simp_all [Outcome.handleHeld, Outcome.scheduleHeld, MPI_SUCCESS, OMPI_SUCCESS]
  all_goals (split <;> simp_all [Outcome.handleHeld, Outcome.scheduleHeld])

/-! ## The staging region -/

theorem foldl_max_spec (f : Int → Int) (l : List Int) (c0 : Int) :
    c0 ≤ l.foldl (fun count i => if f i > count then f i else count) c0 ∧
    (∀ i ∈ l, f i ≤ l.foldl (fun count i => if f i > count then f i else count) c0) ∧
    (l.foldl (fun count i => if f i > count then f i else count) c0 = c0 ∨
      ∃ i ∈ l, f i = l.foldl (fun count i => if f i > count then f i else count) c0) := by
  induction l generalizing c0 with
  | nil => simp
  | cons a l ih =>
    simp only [List.foldl_cons]
    by_cases hgt : f a > c0
    · simp only [hgt, if_true]
      obtain ⟨h1, h2, h3⟩ := ih (f a)
      refine ⟨by omega, ?_, ?_⟩
      · intro i hi
        rcases List.mem_cons.mp hi with rfl | hi
        · exact h1
        · exact h2 i hi
      · rcases h3 with h3 | ⟨i, hi, h3⟩
        · exact Or.inr ⟨a, List.mem_cons_self _ _, h3.symm⟩
        · exact Or.inr ⟨i, List.mem_cons_of_mem _ hi, h3⟩
    · simp only [hgt, if_false]
      obtain ⟨h1, h2, h3⟩ := ih c0
      refine ⟨h1, ?_, ?_⟩
      · intro i hi
        rcases List.mem_cons.mp hi with rfl | hi
        · omega
        · exact h2 i hi
      · rcases h3 with h3 | ⟨i, hi, h3⟩
        · exact Or.inl h3
        · exact Or.inr ⟨i, List.mem_cons_of_mem _ hi, h3⟩

/-- The count of lines 74-79 is the maximum of 0 and the `recvcounts[i]`, `0 <= i < p`. -/
theorem ialltoallv_init_count_spec (p : Int) (recvcounts : Int → Int) :
    0 ≤ ialltoallv_init_count p recvcounts ∧
    (∀ i, 0 ≤ i → i < p → recvcounts i ≤ ialltoallv_init_count p recvcounts) ∧
    (ialltoallv_init_count p recvcounts = 0 ∨
      ∃ i, 0 ≤ i ∧ i < p ∧ recvcounts i = ialltoallv_init_count p recvcounts) := by
  obtain ⟨h1, h2, h3⟩ := foldl_max_spec recvcounts (forRange 0 p) 0
  refine ⟨h1, fun i hi0 hi => h2 i ((mem_forRange 0 p i).mpr ⟨hi0, hi⟩), ?_⟩
  rcases h3 with h3 | ⟨i, hi, h3⟩
  · exact Or.inl h3
  · rw [mem_forRange] at hi
    exact Or.inr ⟨i, hi.1, hi.2, h3⟩

theorem InplaceShape.maxCount_eq {buf : Int} {counts displs : Int → Int} {ext : MPI_Aint}
    {type : MPI_Datatype} {gap : Int} {strict : Prop} {q : Int} {e : Entry}
    (h : InplaceShape buf counts displs ext type gap strict q e) :
    e.act.maxCount = counts q := by
  rcases h with ⟨rfl, _⟩ | ⟨_, rfl | rfl | rfl⟩ <;> simp [Action.maxCount]

theorem ialltoallv_init_inplace_ok (sys : System) (heap : Heap) (buf : Int)
    (sendcounts sdispls : Int → Int) (sendtype : MPI_Datatype)
    (recvcounts rdispls : Int → Int) (recvtype : MPI_Datatype)
    (comm : ompi_communicator_t) (rcvext : MPI_Aint) (span gap : Int)
    (hp : 1 ≤ comm.size)
    (hs : sys.succeeds recvtype rcvext (3 * comm.size.toNat))
    (hspan : heap.span recvtype (ialltoallv_init_count comm.size recvcounts) = (span, gap))
    (hne : span ≠ 0) (hm : heap.malloc span = true) :
    ompi_coll_libpnbc_ialltoallv_init sys heap buf sendcounts sdispls sendtype buf recvcounts
        rdispls recvtype comm
      = ⟨OMPI_SUCCESS,
          some (.handle ⟨some (inplaceEntries comm.rank comm.size buf recvcounts rdispls rcvext
            recvtype gap), some span⟩),
          [.init_handle, .malloc span, .obj_new]⟩ := by
  obtain ⟨h1, _, h3, h4, h5, h6, _⟩ := hs
  have hb := a2av_sched_inplace_ok sys.cap comm.rank comm.size buf recvcounts rdispls rcvext
    recvtype gap hp h4
  unfold ompi_coll_libpnbc_ialltoallv_init
  simp [PNBC_IN_PLACE, h1, h3, h5, h6, hspan, hne, hm, hb, MPI_SUCCESS, OMPI_SUCCESS]

/-- C15: in the in-place path of `ompi_coll_libpnbc_ialltoallv_init` the element count
handed to the span query that sizes the temporary buffer is the maximum of 0 and all
`recvcounts[i]`, `0 <= i < p`; when the collaborators succeed, the call returns a handle
that owns a temporary buffer of that span together with the schedule of
`a2av_sched_inplace`, and every action of that schedule that touches the temporary
buffer (each LocalCopy into it, each Send out of it) has an element count less than or
equal to that maximum. -/
theorem staging_region_large_enough (sys : System) (heap : Heap) (buf : Int)
    (sendcounts sdispls : Int → Int) (sendtype : MPI_Datatype)
    (recvcounts rdispls : Int → Int) (recvtype : MPI_Datatype) (rank p rsize : Int)
    (rcvext : MPI_Aint) (span gap : Int)
    (hp : 1 ≤ p) (h0 : 0 ≤ rank) (hlt : rank < p)
    (hs : sys.succeeds recvtype rcvext (3 * p.toNat))
    (hspan : heap.span recvtype (ialltoallv_init_count p recvcounts) = (span, gap))
    (hne : span ≠ 0) (hm : heap.malloc span = true) :
    (0 ≤ ialltoallv_init_count p recvcounts ∧
      (∀ i, 0 ≤ i → i < p → recvcounts i ≤ ialltoallv_init_count p recvcounts) ∧
      (ialltoallv_init_count p recvcounts = 0 ∨
        ∃ i, 0 ≤ i ∧ i < p ∧ recvcounts i = ialltoallv_init_count p recvcounts)) ∧
    ∃ s : PNBC_Schedule,
      ompi_coll_libpnbc_ialltoallv_init sys heap buf sendcounts sdispls sendtype buf recvcounts
          rdispls recvtype ⟨rank, p, rsize⟩
        = ⟨OMPI_SUCCESS, some (.handle ⟨some s, some span⟩),
            [.init_handle, .malloc span, .obj_new]⟩ ∧
      a2av_sched_inplace sys.cap rank p [] buf recvcounts rdispls rcvext recvtype gap = .ok s ∧
      ∀ e ∈ s, e.act.usesTmp = true →
        e.act.maxCount ≤ ialltoallv_init_count p recvcounts := by
  refine ⟨ialltoallv_init_count_spec p recvcounts, _,
    ialltoallv_init_inplace_ok sys heap buf sendcounts sdispls sendtype recvcounts rdispls
      recvtype ⟨rank, p, rsize⟩ rcvext span gap hp hs hspan hne hm,
    a2av_sched_inplace_ok sys.cap rank p buf recvcounts rdispls rcvext recvtype gap hp
      hs.2.2.2.1, ?_⟩
  intro e he _
  obtain ⟨q, hq, hsh⟩ := inplaceEntries_shape rank p buf recvcounts rdispls rcvext recvtype gap
    h0 hlt e he
  rw [hsh.maxCount_eq]
  exact (ialltoallv_init_count_spec p recvcounts).2.1 q hq.1 hq.2.1

/-- Witness for C15: `p = 4`, rank 1, `recvcounts = {3,5,0,2}`, a datatype of 4 bytes. -/
theorem staging_region_large_enough_witness :
    (0 ≤ ialltoallv_init_count 4 (fun i => if i = 0 then 3 else if i = 1 then 5
        else if i = 2 then 0 else 2) ∧
      (∀ i, 0 ≤ i → i < 4 → (fun i : Int => if i = 0 then (3 : Int) else if i = 1 then 5
          else if i = 2 then 0 else 2) i
        ≤ ialltoallv_init_count 4 (fun i => if i = 0 then 3 else if i = 1 then 5
            else if i = 2 then 0 else 2)) ∧
      (ialltoallv_init_count 4 (fun i => if i = 0 then 3 else if i = 1 then 5
          else if i = 2 then 0 else 2) = 0 ∨
        ∃ i, 0 ≤ i ∧ i < 4 ∧ (fun i : Int => if i = 0 then (3 : Int) else if i = 1 then 5
            else if i = 2 then 0 else 2) i
          = ialltoallv_init_count 4 (fun i => if i = 0 then 3 else if i = 1 then 5
              else if i = 2 then 0 else 2))) ∧
    ∃ s : PNBC_Schedule,
      ompi_coll_libpnbc_ialltoallv_init ⟨fun _ => (0, 4), 0, true, 12, 0, 0, 0⟩
          ⟨fun _ c => (4 * c, 0), fun _ => true⟩ 1000 (fun _ => 0) (fun _ => 0) 7 1000
          (fun i => if i = 0 then 3 else if i = 1 then 5 else if i = 2 then 0 else 2)
          (fun i => if i = 0 then 0 else if i = 1 then 3 else 8) 7 ⟨1, 4, 0⟩
        = ⟨OMPI_SUCCESS, some (.handle ⟨some s, some 20⟩),
            [.init_handle, .malloc 20, .obj_new]⟩ ∧
      a2av_sched_inplace 12 1 4 [] 1000
          (fun i => if i = 0 then 3 else if i = 1 then 5 else if i = 2 then 0 else 2)
          (fun i => if i = 0 then 0 else if i = 1 then 3 else 8) 4 7 0 = .ok s ∧
      ∀ e ∈ s, e.act.usesTmp = true →
        e.act.maxCount ≤ ialltoallv_init_count 4 (fun i => if i = 0 then 3
          else if i = 1 then 5 else if i = 2 then 0 else 2) :=
  staging_region_large_enough ⟨fun _ => (0, 4), 0, true, 12, 0, 0, 0⟩
    ⟨fun _ c => (4 * c, 0), fun _ => true⟩ 1000 (fun _ => 0) (fun _ => 0) 7
    (fun i => if i = 0 then 3 else if i = 1 then 5 else if i = 2 then 0 else 2)
    (fun i => if i = 0 then 0 else if i = 1 then 3 else 8) 7 1 4 0 4 20 0
    (by decide) (by decide) (by decide) ⟨rfl, rfl, rfl, by decide, rfl, rfl, rfl⟩
    (by decide) (by decide) rfl

/-! ## The send arguments of the local all-gather -/

/-- A call of `ompi_coll_libpnbc_iallgatherv_init` that returns success has built the
schedule of the loop and has made, besides the creation of the schedule and the draw of
the handle, only the up-front copy, and that exactly when it is not in place. -/
theorem iallgatherv_init_success (sys : System) (sendbuf : Int) (sendcount : Int)
    (sendtype : MPI_Datatype) (recvbuf : Int) (recvcounts displs : Int → Int)
    (recvtype : MPI_Datatype) (comm : ompi_communicator_t)
    (h : (ompi_coll_libpnbc_iallgatherv_init sys sendbuf sendcount sendtype recvbuf
      recvcounts displs recvtype comm).res = OMPI_SUCCESS) :
    ompi_coll_libpnbc_iallgatherv_init sys sendbuf sendcount sendtype recvbuf recvcounts
        displs recvtype comm
      = ⟨OMPI_SUCCESS,
          some (.handle ⟨some (allgathervEntries comm.rank comm.size recvbuf recvcounts displs
            (sys.extent recvtype).2 recvtype), none⟩),
          (if PNBC_IN_PLACE sendbuf recvbuf then []
            else [.copy sendbuf sendcount sendtype
              (recvbuf + displs comm.rank * (sys.extent recvtype).2)
              (recvcounts comm.rank) recvtype]) ++ [.obj_new, .init_handle]⟩ := by
  revert h
  unfold ompi_coll_libpnbc_iallgatherv_init
  simp only [iallgatherv_init_rounds_eq, emitAll]
  split_ifs <;>
    simp_all [MPI_SUCCESS, OMPI_SUCCESS, OMPI_ERR_OUT_OF_RESOURCE, allgathervEntries]

/-- C16: two calls of `ompi_coll_libpnbc_iallgatherv_init` with the same collaborators,
communicator, `recvbuf`, `recvcounts`, `displs` and `recvtype`, which differ only in
`sendbuf`, `sendcount`, `sendtype` (one may be in place and the other not): when the
collaborators succeed, or just when both calls return success, both return success with
the same handle and the same schedule, and each call has made, besides the creation of
the schedule and the draw of the handle, only the up-front local copy of its send
arguments, exactly when it is not in place. -/
theorem iallgatherv_init_send_args (sys : System)
    (sendbuf1 sendcount1 : Int) (sendtype1 : MPI_Datatype)
    (sendbuf2 sendcount2 : Int) (sendtype2 : MPI_Datatype)
    (recvbuf : Int) (recvcounts displs : Int → Int) (recvtype : MPI_Datatype)
    (comm : ompi_communicator_t)
    (h : sys.succeeds recvtype (sys.extent recvtype).2 (2 * (comm.size - 1).toNat) ∨
      ((ompi_coll_libpnbc_iallgatherv_init sys sendbuf1 sendcount1 sendtype1 recvbuf
          recvcounts displs recvtype comm).res = OMPI_SUCCESS ∧
       (ompi_coll_libpnbc_iallgatherv_init sys sendbuf2 sendcount2 sendtype2 recvbuf
          recvcounts displs recvtype comm).res = OMPI_SUCCESS)) :
    (ompi_coll_libpnbc_iallgatherv_init sys sendbuf1 sendcount1 sendtype1 recvbuf
        recvcounts displs recvtype comm).res = OMPI_SUCCESS ∧
    (ompi_coll_libpnbc_iallgatherv_init sys sendbuf2 sendcount2 sendtype2 recvbuf
        recvcounts displs recvtype comm).res = OMPI_SUCCESS ∧
    (ompi_coll_libpnbc_iallgatherv_init sys sendbuf1 sendcount1 sendtype1 recvbuf
        recvcounts displs recvtype comm).request
      = (ompi_coll_libpnbc_iallgatherv_init sys sendbuf2 sendcount2 sendtype2 recvbuf
        recvcounts displs recvtype comm).request ∧
    (∃ s, (ompi_coll_libpnbc_iallgatherv_init sys sendbuf1 sendcount1 sendtype1 recvbuf
          recvcounts displs recvtype comm).schedule = some s ∧
        (ompi_coll_libpnbc_iallgatherv_init sys sendbuf2 sendcount2 sendtype2 recvbuf
          recvcounts displs recvtype comm).schedule = some s) ∧
    (ompi_coll_libpnbc_iallgatherv_init sys sendbuf1 sendcount1 sendtype1 recvbuf
        recvcounts displs recvtype comm).trace
      = (if PNBC_IN_PLACE sendbuf1 recvbuf then []
          else [.copy sendbuf1 sendcount1 sendtype1
            (recvbuf + displs comm.rank * (sys.extent recvtype).2)
            (recvcounts comm.rank) recvtype]) ++ [.obj_new, .init_handle] ∧
    (ompi_coll_libpnbc_iallgatherv_init sys sendbuf2 sendcount2 sendtype2 recvbuf
        recvcounts displs recvtype comm).trace
      = (if PNBC_IN_PLACE sendbuf2 recvbuf then []
          else [.copy sendbuf2 sendcount2 sendtype2
            (recvbuf + displs comm.rank * (sys.extent recvtype).2)
            (recvcounts comm.rank) recvtype]) ++ [.obj_new, .init_handle] := by
  have hboth : (ompi_coll_libpnbc_iallgatherv_init sys sendbuf1 sendcount1 sendtype1 recvbuf
        recvcounts displs recvtype comm).res = OMPI_SUCCESS ∧
      (ompi_coll_libpnbc_iallgatherv_init sys sendbuf2 sendcount2 sendtype2 recvbuf
        recvcounts displs recvtype comm).res = OMPI_SUCCESS := by
    rcases h with hs | h
    · constructor
      · rw [iallgatherv_init_ok sys sendbuf1 sendcount1 sendtype1 recvbuf recvcounts displs
          recvtype comm _ hs]
      · rw [iallgatherv_init_ok sys sendbuf2 sendcount2 sendtype2 recvbuf recvcounts displs
          recvtype comm _ hs]
    · exact h
  have e1 := iallgatherv_init_success sys sendbuf1 sendcount1 sendtype1 recvbuf recvcounts
    displs recvtype comm hboth.1
  have e2 := iallgatherv_init_success sys sendbuf2 sendcount2 sendtype2 recvbuf recvcounts
    displs recvtype comm hboth.2
  refine ⟨hboth.1, hboth.2, ?_, ⟨allgathervEntries comm.rank comm.size recvbuf recvcounts
    displs (sys.extent recvtype).2 recvtype, ?_, ?_⟩, ?_, ?_⟩
  · rw [e1, e2]
  · rw [e1]; rfl
  · rw [e2]; rfl
  · rw [e1]
  · rw [e2]

/-- Witness for C16: `p = 3`, rank 1; the first call is in place (its send buffer is the
receive buffer), the second is not. -/
theorem iallgatherv_init_send_args_witness :
    (ompi_coll_libpnbc_iallgatherv_init ⟨fun _ => (0, 4), 0, true, 4, 0, 0, 0⟩ 1000 9 8 1000
        (fun i => i + 1) (fun i => 3 * i) 7 ⟨1, 3, 0⟩).request
      = (ompi_coll_libpnbc_iallgatherv_init ⟨fun _ => (0, 4), 0, true, 4, 0, 0, 0⟩ 500 2 7 1000
        (fun i => i + 1) (fun i => 3 * i) 7 ⟨1, 3, 0⟩).request ∧
    (ompi_coll_libpnbc_iallgatherv_init ⟨fun _ => (0, 4), 0, true, 4, 0, 0, 0⟩ 1000 9 8 1000
        (fun i => i + 1) (fun i => 3 * i) 7 ⟨1, 3, 0⟩).trace = [.obj_new, .init_handle] ∧
    (ompi_coll_libpnbc_iallgatherv_init ⟨fun _ => (0, 4), 0, true, 4, 0, 0, 0⟩ 500 2 7 1000
        (fun i => i + 1) (fun i => 3 * i) 7 ⟨1, 3, 0⟩).trace
      = [.copy 500 2 7 1012 2 7, .obj_new, .init_handle] :=
  have w := iallgatherv_init_send_args ⟨fun _ => (0, 4), 0, true, 4, 0, 0, 0⟩ 1000 9 8 500 2 7
    1000 (fun i => i + 1) (fun i => 3 * i) 7 ⟨1, 3, 0⟩
    (Or.inl ⟨rfl, rfl, rfl, by decide, rfl, rfl, rfl⟩)
  ⟨w.2.2.1, w.2.2.2.2.1, w.2.2.2.2.2⟩

/-! ## Rounds of the in-place schedule when a count is zero -/

/-- C18, the code at `p = 4`, rank 0, `counts = {1,0,1,1}` (`displs = {0,1,2,3}`,
extent 4, buffer at 1000): at the offset 1 the send peer 1 has count zero, so the Send
of the temporary buffer to rank 3 (without barrier) is followed directly by the
LocalCopy of slot 2 into the temporary buffer, in the same round. -/
theorem inplace_tmp_conflict :
    a2av_sched_inplace 15 0 4 [] 1000 (fun i => if i = 1 then 0 else 1) (fun i => i) 4 7 16
      = .ok [⟨.copy 1012 false 1 7 (-16) true 1 7, true⟩, ⟨.recv 1012 false 1 7 3, true⟩,
             ⟨.send (-16) true 1 7 3, false⟩, ⟨.copy 1008 false 1 7 (-16) true 1 7, true⟩,
             ⟨.send (-16) true 1 7 2, false⟩, ⟨.recv 1008 false 1 7 2, true⟩] ∧
    rounds [⟨.copy 1012 false 1 7 (-16) true 1 7, true⟩, ⟨.recv 1012 false 1 7 3, true⟩,
             ⟨.send (-16) true 1 7 3, false⟩, ⟨.copy 1008 false 1 7 (-16) true 1 7, true⟩,
             ⟨.send (-16) true 1 7 2, false⟩, ⟨.recv 1008 false 1 7 2, true⟩]
      = [[.copy 1012 false 1 7 (-16) true 1 7], [.recv 1012 false 1 7 3],
         [.send (-16) true 1 7 3, .copy 1008 false 1 7 (-16) true 1 7],
         [.send (-16) true 1 7 2, .recv 1008 false 1 7 2]] ∧
    tmpConflict [⟨.copy 1012 false 1 7 (-16) true 1 7, true⟩, ⟨.recv 1012 false 1 7 3, true⟩,
             ⟨.send (-16) true 1 7 3, false⟩, ⟨.copy 1008 false 1 7 (-16) true 1 7, true⟩,
             ⟨.send (-16) true 1 7 2, false⟩, ⟨.recv 1008 false 1 7 2, true⟩] 2 3 = true := by
  refine ⟨rfl, by decide, by decide⟩

theorem roundOf_lt_of_barrier (s : PNBC_Schedule) (a b : Nat) (e : Entry) (hab : a < b)
    (he : s.get? a = some e) (hb : e.barrier = true) : roundOf s a < roundOf s b := by
  induction s generalizing a b with
  | nil => simp at he
  | cons x xs ih =>
    cases b with
    | zero => omega
    | succ b' =>
      cases a with
      | zero =>
        simp only [List.get?_cons_zero, Option.some.injEq] at he
        subst he
        simp [roundOf, List.filter_cons, hb]
      | succ a' =>
        simp only [List.get?_cons_succ] at he
        have := ih a' b' (by omega) he
        unfold roundOf at this ⊢
        by_cases hx : x.barrier = true
        · simp [List.take_succ_cons, List.filter_cons, hx]
          omega
        · simp [List.take_succ_cons, List.filter_cons, hx]
          omega

/-- The half of C18 the code keeps for every group and every counts table: a LocalCopy
into the temporary buffer closes its round, so every entry appended after it, the Send
of the staged data in particular, lies in a strictly later round. -/
theorem inplace_staging_copy_closes_round (cap : Nat) (rank p : Int) (buf : Int)
    (counts displs : Int → Int) (ext : MPI_Aint) (type : MPI_Datatype) (gap : Int)
    (hp : 1 ≤ p) (h0 : 0 ≤ rank) (hlt : rank < p) (hcap : 3 * p.toNat ≤ cap) :
    ∃ s : PNBC_Schedule,
      a2av_sched_inplace cap rank p [] buf counts displs ext type gap = .ok s ∧
      ∀ a b e, a < b → s.get? a = some e → e.act.copiesIntoTmp = true →
        roundOf s a < roundOf s b := by
  refine ⟨_, a2av_sched_inplace_ok cap rank p buf counts displs ext type gap hp hcap, ?_⟩
  intro a b e hab he hc
  have hmem : e ∈ inplaceEntries rank p buf counts displs ext type gap :=
    List.get?_mem he
  obtain ⟨q, _, hsh⟩ := inplaceEntries_shape rank p buf counts displs ext type gap h0 hlt e hmem
  have hflag := hsh.flag
  have hns : e.act.isSend = false := by
    cases hact : e.act <;> simp [hact, Action.copiesIntoTmp, Action.isSend] at hc ⊢
  rw [hns] at hflag
  exact roundOf_lt_of_barrier _ a b e hab he (by simpa using hflag)

/-! ## Running the round of the local all-gather -/

theorem foldl_setElem_other (tmp : Bool) (buf : Int) (ext : MPI_Aint) (data : List Int)
    (t : Bool) (x : Int) (n : Nat) (m : Memory)
    (h : ∀ j : Nat, j < n → ¬ (t = tmp ∧ x = buf + (j : Int) * ext)) :
    (List.range n).foldl
      (fun m' (j : Nat) => setElem m' tmp (buf + (j : Int) * ext) (data.getD j 0)) m t x
      = m t x := by
  induction n with
  | zero => rfl
  | succ n ih =>
    rw [List.range_succ, List.foldl_append, List.foldl_cons, List.foldl_nil]
    unfold setElem
    rw [if_neg (h n (Nat.lt_succ_self n))]
    exact ih (fun j hj => h j (Nat.lt_succ_of_lt hj))

theorem foldl_setElem_written (tmp : Bool) (buf : Int) (ext : MPI_Aint) (data : List Int)
    (n : Nat) (m : Memory) (j : Nat) (hj : j < n) :
    ∃ k : Nat, k < n ∧ (k : Int) * ext = (j : Int) * ext ∧
      (List.range n).foldl
        (fun m' (j : Nat) => setElem m' tmp (buf + (j : Int) * ext) (data.getD j 0)) m tmp
          (buf + (j : Int) * ext) = data.getD k 0 := by
  induction n with
  | zero => omega
  | succ n ih =>
    rw [List.range_succ, List.foldl_append, List.foldl_cons, List.foldl_nil]
    unfold setElem
    by_cases hx : buf + (j : Int) * ext = buf + (n : Int) * ext
    · refine ⟨n, Nat.lt_succ_self n, by omega, ?_⟩
      rw [if_pos ⟨rfl, hx⟩]
    · have hjn : j < n := by
        rcases Nat.lt_succ_iff_lt_or_eq.mp hj with h | h
        · exact h
        · subst h; exact absurd rfl hx
      obtain ⟨k, hk, hke, hv⟩ := ih hjn
      refine ⟨k, Nat.lt_succ_of_lt hk, hke, ?_⟩
      rw [if_neg (fun h => hx h.2)]
      exact hv

/-- Storing elements leaves every address outside the written slot as it was. -/
theorem writeElems_other (m : Memory) (tmp : Bool) (buf count : Int) (ext : MPI_Aint)
    (data : List Int) (t : Bool) (x : Int)
    (h : ∀ j : Nat, (j : Int) < count → ¬ (t = tmp ∧ x = buf + (j : Int) * ext)) :
    writeElems m tmp buf count ext data t x = m t x := by
  unfold writeElems
  apply foldl_setElem_other
  intro j hj
  apply h
  have : j < count.toNat := lt_of_lt_of_le hj (min_le_left _ _)
  omega

/-- Storing the elements read from one slot into another slot of the same count and
extent puts each element at the same place of the target slot. -/
theorem writeElems_readElems (m ms : Memory) (tmp ts : Bool) (buf sb count : Int)
    (ext : MPI_Aint) (j : Nat) (hj : (j : Int) < count) :
    writeElems m tmp buf count ext (readElems ms ts sb count ext) tmp (buf + (j : Int) * ext)
      = ms ts (sb + (j : Int) * ext) := by
  unfold writeElems
  have hlen : (readElems ms ts sb count ext).length = count.toNat := by
    simp [readElems]
  rw [hlen, min_self]
  obtain ⟨k, hk, hke, hv⟩ := foldl_setElem_written tmp buf ext (readElems ms ts sb count ext)
    count.toNat m j (by omega)
  rw [hv]
  unfold readElems
  rw [List.getD_eq_getElem _ _ (by simpa using hk)]
  simp only [List.getElem_map, List.getElem_range]
  rw [hke]

/-- Posting a round of Receives and of Sends that all read the same slot leaves the
memory as it was and hands the transport one message per Send. -/
theorem postRound_sends (extent : MPI_Datatype → MPI_Aint) (sbuf c : Int)
    (dt : MPI_Datatype) (b : Int) (m : Memory) (acts : List Action)
    (h : ∀ a ∈ acts, a.isCopy = false ∧
      (a.isSend = true → ∃ dest, a = .send sbuf false c dt dest)) :
    (postRound extent acts m).1 = m ∧
    inboxFrom (postRound extent acts m).2 b
      = List.replicate (acts.countP (fun a => a.isSend && decide (a.peer = some b)))
          (readElems m false sbuf c (extent dt)) := by
  induction acts with
  | nil => exact ⟨rfl, rfl⟩
  | cons a acts ih =>
    have ih' := ih (fun a' ha' => h a' (List.mem_cons_of_mem _ ha'))
    have ha := h a (List.mem_cons_self _ _)
    cases a with
    | send buf tmpbuf count datatype dest =>
      obtain ⟨dest', hd⟩ := ha.2 rfl
      injection hd with h1 h2 h3 h4 h5
      subst h1 h2 h3 h4 h5
      refine ⟨ih'.1, ?_⟩
      by_cases hb : dest = b
      · simp [postRound, inboxFrom, List.countP_cons, Action.isSend, Action.peer, hb,
          List.replicate_succ]
        simpa [inboxFrom] using ih'.2
      · simp [postRound, inboxFrom, List.countP_cons, Action.isSend, Action.peer, hb]
        simpa [inboxFrom] using ih'.2
    | recv buf tmpbuf count datatype source =>
      simpa [postRound, List.countP_cons, Action.isSend] using ih'
    | copy src tmpsrc srccount srctype tgt tmptgt tgtcount tgttype =>
      simp [Action.isCopy] at ha

/-- Completing, in any order, Receives that each take the slot of one rank `q` of a set
`G` of ranks whose slots do not overlap, at most one Receive per rank, each with the
message that holds the slot `sb q` of `q`: the round completes, the slot of every rank
received from holds what the sender's slot held, and every other address is as before. -/
theorem completeRound_gather (extent : MPI_Datatype → MPI_Aint) (rb : Int)
    (counts displs : Int → Int) (rt : MPI_Datatype) (G : Int → Prop) (sb : Int → Int)
    (mems : Int → Memory)
    (hdisj : ∀ q q', G q → G q' → q ≠ q' → ∀ j j' : Nat, (j : Int) < counts q →
      (j' : Int) < counts q' →
      displs q * extent rt + (j : Int) * extent rt
        ≠ displs q' * extent rt + (j' : Int) * extent rt)
    (done : List Action) :
    ∀ (inbox : Int → List (List Int)) (m : Memory),
    (∀ a ∈ done, a.isCopy = false ∧ (a.isRecv = true →
      ∃ q, G q ∧ a = .recv (rb + displs q * extent rt) false (counts q) rt q)) →
    (∀ q, G q → done.countP (fun a => a.isRecv && decide (a.peer = some q)) ≤ 1) →
    (∀ q, Action.recv (rb + displs q * extent rt) false (counts q) rt q ∈ done →
      inbox q = [readElems (mems q) false (sb q) (counts q) (extent rt)]) →
    ∃ m', completeRound extent done inbox m = some m' ∧
      (∀ q, Action.recv (rb + displs q * extent rt) false (counts q) rt q ∈ done →
        ∀ j : Nat, (j : Int) < counts q →
          m' false (rb + displs q * extent rt + (j : Int) * extent rt)
            = mems q false (sb q + (j : Int) * extent rt)) ∧
      (∀ t x, (∀ q, Action.recv (rb + displs q * extent rt) false (counts q) rt q ∈ done →
          ∀ j : Nat, (j : Int) < counts q →
            ¬ (t = false ∧ x = rb + displs q * extent rt + (j : Int) * extent rt)) →
        m' t x = m t x) := by
  induction done with
  | nil =>
    intro inbox m _ _ _
    exact ⟨m, rfl, fun q hq => absurd hq (List.not_mem_nil _), fun _ _ _ => rfl⟩
  | cons a done ih =>
    intro inbox m hshape hcount hin
    have hshape' : ∀ a' ∈ done, a'.isCopy = false ∧ (a'.isRecv = true →
        ∃ q, G q ∧ a' = .recv (rb + displs q * extent rt) false (counts q) rt q) :=
      fun a' ha' => hshape a' (List.mem_cons_of_mem _ ha')
    have hG : ∀ q, Action.recv (rb + displs q * extent rt) false (counts q) rt q ∈ a :: done →
        G q := by
      intro q hq
      obtain ⟨q', hq', he⟩ := (hshape _ hq).2 rfl
      injection he with _ _ _ _ h5
      rw [h5]; exact hq'
    have ha := hshape a (List.mem_cons_self _ _)
    cases a with
    | send buf tmpbuf count datatype dest =>
      have hmem : ∀ q, Action.recv (rb + displs q * extent rt) false (counts q) rt q
          ∈ Action.send buf tmpbuf count datatype dest :: done ↔
          Action.recv (rb + displs q * extent rt) false (counts q) rt q ∈ done := by
        intro q; simp
      obtain ⟨m', hm', h1, h2⟩ := ih inbox m hshape'
        (fun q hq => by
          have := hcount q hq
          simpa [List.countP_cons, Action.isRecv] using this)
        (fun q hq => hin q ((hmem q).2 hq))
      refine ⟨m', by simpa [completeRound] using hm', ?_, ?_⟩
      · intro q hq
        exact h1 q ((hmem q).1 hq)
      · intro t x hx
        exact h2 t x (fun q hq => hx q ((hmem q).2 hq))
    | copy src tmpsrc srccount srctype tgt tmptgt tgtcount tgttype =>
      simp [Action.isCopy] at ha
    | recv buf tmpbuf count datatype source =>
      obtain ⟨q0, hq0, he⟩ := ha.2 rfl
      injection he with h1 h2 h3 h4 h5
      have h4 := h4.symm
      subst h5 h4 h1 h2 h3
      have hc0 : done.countP (fun a => a.isRecv && decide (a.peer = some source)) = 0 := by
        have := hcount source hq0
        rw [List.countP_cons_of_pos _ _ (by simp [Action.isRecv, Action.peer])] at this
        omega
      have hnot : Action.recv (rb + displs source * extent rt) false (counts source) rt source
          ∉ done := by
        intro hmem
        rw [List.countP_eq_zero] at hc0
        have := hc0 _ hmem
        simp [Action.isRecv, Action.peer] at this
      have hne : ∀ q, Action.recv (rb + displs q * extent rt) false (counts q) rt q ∈ done →
          q ≠ source := by
        intro q hq h; subst h; exact hnot hq
      have hinb := hin source (List.mem_cons_self _ _)
      obtain ⟨m', hm', h1, h2⟩ := ih (fun a => if a = source then [] else inbox a)
        (writeElems m false (rb + displs source * extent rt) (counts source) (extent rt)
          (readElems (mems source) false (sb source) (counts source) (extent rt))) hshape'
        (fun q hq => by
          have := hcount q hq
          rw [List.countP_cons] at this
          omega)
        (fun q hq => by
          show (if q = source then [] else inbox q) = _
          rw [if_neg (hne q hq)]
          exact hin q (List.mem_cons_of_mem _ hq))
      refine ⟨m', ?_, ?_, ?_⟩
      · simp only [completeRound, hinb]
        exact hm'
      · intro q hq j hj
        rcases List.mem_cons.mp hq with heq | hq'
        · injection heq with _ _ _ _ h5
          subst h5
          rw [h2 false _ (fun q' hq' j' hj' hcell => by
            have := hdisj q q' hq0 (hG q' (List.mem_cons_of_mem _ hq')) (hne q' hq').symm j j'
              hj hj'
            omega)]
          exact writeElems_readElems _ _ _ _ _ _ _ _ j hj
        · exact h1 q hq' j hj
      · intro t x hx
        rw [h2 t x (fun q hq => hx q (List.mem_cons_of_mem _ hq))]
        exact writeElems_other _ _ _ _ _ _ _ _ (hx source (List.mem_cons_self _ _))

theorem rounds_headD_of_no_barrier (s : PNBC_Schedule) (h : ∀ e ∈ s, e.barrier = false) :
    (rounds s).headD [] = s.map Entry.act := by
  induction s with
  | nil => rfl
  | cons e es ih =>
    have he : e.barrier = false := h e (List.mem_cons_self _ _)
    have ih' := ih (fun e' h' => h e' (List.mem_cons_of_mem _ h'))
    simp only [rounds, he, List.map_cons]
    cases hr : rounds es with
    | nil =>
      rw [hr] at ih'
      simp at ih'
      simp [ih']
    | cons r rs =>
      rw [hr] at ih'
      simp at ih'
      simp [ih']

theorem allgathervEntries_shape (rank p : Int) (recvbuf : Int)
    (recvcounts displs : Int → Int) (rcvext : MPI_Aint) (recvtype : MPI_Datatype)
    (h0 : 0 ≤ rank) (hlt : rank < p) (e : Entry)
    (he : e ∈ allgathervEntries rank p recvbuf recvcounts displs rcvext recvtype) :
    e.barrier = false ∧
    ((∃ q, (0 ≤ q ∧ q < p ∧ q ≠ rank) ∧
        e.act = .recv (recvbuf + displs q * rcvext) false (recvcounts q) recvtype q) ∨
      (∃ dest,
        e.act = .send (recvbuf + displs rank * rcvext) false (recvcounts rank) recvtype dest)) := by
  simp only [allgathervEntries, List.mem_flatMap] at he
  obtain ⟨r, hr, he⟩ := he
  rw [mem_forRange] at hr
  have hrp := peer_behind_cases h0 hlt (show 0 ≤ r by omega) (show r ≤ p by omega)
  have e' : rank - r + p = rank + p - r := by omega
  unfold allgathervStep at he
  simp only [List.mem_cons, List.mem_singleton, List.not_mem_nil, or_false] at he
  rcases he with he | he
  · subst he
    refine ⟨rfl, Or.inl ⟨(rank - r + p).tmod p, ?_, rfl⟩⟩
    rw [e']
    omega
  · subst he
    exact ⟨rfl, Or.inr ⟨_, rfl⟩⟩

/-- The round posted for a schedule of `ompi_coll_libpnbc_iallgatherv_init` holds all its
actions. -/
theorem iallgatherv_init_firstRound (sys : System) (sendbuf : Int) (sendcount : Int)
    (sendtype : MPI_Datatype) (recvbuf : Int) (recvcounts displs : Int → Int)
    (recvtype : MPI_Datatype) (rank p rsize : Int) (rcvext : MPI_Aint)
    (h0 : 0 ≤ rank) (hlt : rank < p)
    (hs : sys.succeeds recvtype rcvext (2 * (p - 1).toNat)) :
    (ompi_coll_libpnbc_iallgatherv_init sys sendbuf sendcount sendtype recvbuf recvcounts
        displs recvtype ⟨rank, p, rsize⟩).firstRound
      = (allgathervEntries rank p recvbuf recvcounts displs rcvext recvtype).map Entry.act := by
  unfold Outcome.firstRound
  rw [iallgatherv_init_schedule sys sendbuf sendcount sendtype recvbuf recvcounts displs
    recvtype ⟨rank, p, rsize⟩ rcvext hs]
  exact rounds_headD_of_no_barrier _
    (fun e he => (allgathervEntries_shape rank p recvbuf recvcounts displs rcvext recvtype
      h0 hlt e he).1)

/-- C1, amended: for every group size `p >= 1` and every `recvcounts`/`displs` table
shared by all ranks in which the slots of different ranks do not overlap (no element of
slot `displs[r]` has the address of an element of slot `displs[r']`, `r != r'`), when the
collaborators of every call succeed: for every two distinct ranks `a`, `b` the schedule
`ompi_coll_libpnbc_iallgatherv_init` builds for rank `a` contains exactly one Send to
`b`, of `recvcounts[a]` elements read from slot `displs[a]`, and the schedule built for
rank `b` contains exactly one Receive from `a`, of `recvcounts[a]` elements written to
slot `displs[a]`; a call that is not in place has copied the own contribution into the
own slot up front; and after all schedules ran, each of at most one round whose actions
complete in any order, slot `r` of every rank's receive buffer holds rank `r`'s
contribution, that is what slot `r` of rank `r` held when the schedules were started. -/
theorem iallgatherv_init_delivers (sys : Int → System) (sendbuf sendcount : Int → Int)
    (sendtype : Int → MPI_Datatype) (recvbuf : Int → Int) (recvcounts displs : Int → Int)
    (recvtype : MPI_Datatype) (p rsize : Int) (extent : MPI_Datatype → MPI_Aint)
    (mems : Int → Memory) (done : Int → List Action)
    (hp : 1 ≤ p)
    (hs : ∀ r, 0 ≤ r → r < p →
      (sys r).succeeds recvtype (extent recvtype) (2 * (p - 1).toNat))
    (hdisj : ∀ r r', 0 ≤ r → r < p → 0 ≤ r' → r' < p → r ≠ r' →
      ∀ j j' : Nat, (j : Int) < recvcounts r → (j' : Int) < recvcounts r' →
        displs r * extent recvtype + (j : Int) * extent recvtype
          ≠ displs r' * extent recvtype + (j' : Int) * extent recvtype)
    (hdone : ∀ b, 0 ≤ b → b < p → (done b).Perm
      (ompi_coll_libpnbc_iallgatherv_init (sys b) (sendbuf b) (sendcount b) (sendtype b)
        (recvbuf b) recvcounts displs recvtype ⟨b, p, rsize⟩).firstRound) :
    (∀ a b, 0 ≤ a → a < p → 0 ≤ b → b < p → a ≠ b →
      ∃ sa sb : PNBC_Schedule,
        (ompi_coll_libpnbc_iallgatherv_init (sys a) (sendbuf a) (sendcount a) (sendtype a)
          (recvbuf a) recvcounts displs recvtype ⟨a, p, rsize⟩).schedule = some sa ∧
        (ompi_coll_libpnbc_iallgatherv_init (sys b) (sendbuf b) (sendcount b) (sendtype b)
          (recvbuf b) recvcounts displs recvtype ⟨b, p, rsize⟩).schedule = some sb ∧
        sa.countP (Entry.sendsTo b) = 1 ∧
        ⟨.send (recvbuf a + displs a * extent recvtype) false (recvcounts a) recvtype b,
          false⟩ ∈ sa ∧
        sb.countP (Entry.recvsFrom a) = 1 ∧
        ⟨.recv (recvbuf b + displs a * extent recvtype) false (recvcounts a) recvtype a,
          false⟩ ∈ sb) ∧
    (∀ a, 0 ≤ a → a < p → PNBC_IN_PLACE (sendbuf a) (recvbuf a) = false →
      Effect.copy (sendbuf a) (sendcount a) (sendtype a)
          (recvbuf a + displs a * extent recvtype) (recvcounts a) recvtype
        ∈ (ompi_coll_libpnbc_iallgatherv_init (sys a) (sendbuf a) (sendcount a) (sendtype a)
            (recvbuf a) recvcounts displs recvtype ⟨a, p, rsize⟩).trace) ∧
    (∀ b, 0 ≤ b → b < p →
      ∃ (sb : PNBC_Schedule) (m' : Memory),
        (ompi_coll_libpnbc_iallgatherv_init (sys b) (sendbuf b) (sendcount b) (sendtype b)
          (recvbuf b) recvcounts displs recvtype ⟨b, p, rsize⟩).schedule = some sb ∧
        (rounds sb).length ≤ 1 ∧
        runRound extent
          (fun a => (ompi_coll_libpnbc_iallgatherv_init (sys a) (sendbuf a) (sendcount a)
            (sendtype a) (recvbuf a) recvcounts displs recvtype ⟨a, p, rsize⟩).firstRound)
          done mems b = some m' ∧
        ∀ r, 0 ≤ r → r < p → ∀ j : Nat, (j : Int) < recvcounts r →
          m' false (recvbuf b + displs r * extent recvtype + (j : Int) * extent recvtype)
            = mems r false
                (recvbuf r + displs r * extent recvtype + (j : Int) * extent recvtype)) := by
  have _ := hp
  have hsched : ∀ a, 0 ≤ a → a < p →
      (ompi_coll_libpnbc_iallgatherv_init (sys a) (sendbuf a) (sendcount a) (sendtype a)
        (recvbuf a) recvcounts displs recvtype ⟨a, p, rsize⟩).schedule
        = some (allgathervEntries a p (recvbuf a) recvcounts displs (extent recvtype)
            recvtype) :=
    fun a ha0 ha => iallgatherv_init_schedule (sys a) (sendbuf a) (sendcount a) (sendtype a)
      (recvbuf a) recvcounts displs recvtype ⟨a, p, rsize⟩ (extent recvtype) (hs a ha0 ha)
  have hround : ∀ a, 0 ≤ a → a < p →
      (ompi_coll_libpnbc_iallgatherv_init (sys a) (sendbuf a) (sendcount a) (sendtype a)
        (recvbuf a) recvcounts displs recvtype ⟨a, p, rsize⟩).firstRound
        = (allgathervEntries a p (recvbuf a) recvcounts displs (extent recvtype)
            recvtype).map Entry.act :=
    fun a ha0 ha => iallgatherv_init_firstRound (sys a) (sendbuf a) (sendcount a)
      (sendtype a) (recvbuf a) recvcounts displs recvtype a p rsize (extent recvtype) ha0 ha
      (hs a ha0 ha)
  have hshape : ∀ a, 0 ≤ a → a < p → ∀ x ∈ (allgathervEntries a p (recvbuf a) recvcounts
      displs (extent recvtype) recvtype).map Entry.act,
      (∃ q, (0 ≤ q ∧ q < p ∧ q ≠ a) ∧ x = .recv (recvbuf a + displs q * extent recvtype)
          false (recvcounts q) recvtype q) ∨
      (∃ dest, x = .send (recvbuf a + displs a * extent recvtype) false (recvcounts a)
          recvtype dest) := by
    intro a ha0 ha x hx
    rw [List.mem_map] at hx
    obtain ⟨e, he, rfl⟩ := hx
    exact (allgathervEntries_shape a p (recvbuf a) recvcounts displs (extent recvtype)
      recvtype ha0 ha e he).2
  refine ⟨?_, ?_, ?_⟩
  · intro a b ha0 ha hb0 hb hab
    have hS := allgathervEntries_one_send a p (recvbuf a) recvcounts displs
      (extent recvtype) recvtype b ha0 ha hb0 hb (Ne.symm hab)
    have hR := allgathervEntries_one_recv b p (recvbuf b) recvcounts displs
      (extent recvtype) recvtype a hb0 hb ha0 ha hab
    exact ⟨_, _, hsched a ha0 ha, hsched b hb0 hb, hS.1, hS.2, hR.1, hR.2⟩
  · intro a ha0 ha hin
    rw [iallgatherv_init_ok (sys a) (sendbuf a) (sendcount a) (sendtype a) (recvbuf a)
      recvcounts displs recvtype ⟨a, p, rsize⟩ (extent recvtype) (hs a ha0 ha)]
    simp [hin]
  · intro b hb0 hb
    have hpost := postRound_sends extent (recvbuf b + displs b * extent recvtype)
      (recvcounts b) recvtype b (mems b)
      ((allgathervEntries b p (recvbuf b) recvcounts displs (extent recvtype)
        recvtype).map Entry.act)
      (fun x hx => by
        rcases hshape b hb0 hb x hx with ⟨q, _, rfl⟩ | ⟨dest, rfl⟩
        · exact ⟨rfl, fun h => by simp [Action.isSend] at h⟩
        · exact ⟨rfl, fun _ => ⟨dest, rfl⟩⟩)
    have hmem : ∀ x, x ∈ done b ↔ x ∈ (allgathervEntries b p (recvbuf b) recvcounts displs
        (extent recvtype) recvtype).map Entry.act := by
      intro x
      rw [(hdone b hb0 hb).mem_iff, hround b hb0 hb]
    have hsrc : ∀ q, Action.recv (recvbuf b + displs q * extent recvtype) false
        (recvcounts q) recvtype q ∈ done b → 0 ≤ q ∧ q < p ∧ q ≠ b := by
      intro q hq
      rcases hshape b hb0 hb _ ((hmem _).1 hq) with ⟨q', hq', he⟩ | ⟨dest, he⟩
      · injection he with _ _ _ _ h5
        rw [h5]; exact hq'
      · cases he
    obtain ⟨m', hm', h1, h2⟩ := completeRound_gather extent (recvbuf b) recvcounts displs
      recvtype (fun q => 0 ≤ q ∧ q < p ∧ q ≠ b)
      (fun q => recvbuf q + displs q * extent recvtype) mems
      (fun q q' hq hq' hne j j' hj hj' =>
        hdisj q q' hq.1 hq.2.1 hq'.1 hq'.2.1 hne j j' hj hj')
      (done b)
      (fun a => inboxFrom (postRound extent
        (ompi_coll_libpnbc_iallgatherv_init (sys a) (sendbuf a) (sendcount a)
          (sendtype a) (recvbuf a) recvcounts displs recvtype ⟨a, p, rsize⟩).firstRound
        (mems a)).2 b)
      (postRound extent
        (ompi_coll_libpnbc_iallgatherv_init (sys b) (sendbuf b) (sendcount b)
          (sendtype b) (recvbuf b) recvcounts displs recvtype ⟨b, p, rsize⟩).firstRound
        (mems b)).1
      (fun x hx => by
        rcases hshape b hb0 hb x ((hmem x).1 hx) with ⟨q, hq, rfl⟩ | ⟨dest, rfl⟩
        · exact ⟨rfl, fun _ => ⟨q, hq, rfl⟩⟩
        · exact ⟨rfl, fun h => by simp [Action.isRecv] at h⟩)
      (fun q hq => by
        rw [(hdone b hb0 hb).countP_eq, hround b hb0 hb, List.countP_map]
        exact le_of_eq (allgathervEntries_one_recv b p (recvbuf b) recvcounts displs
          (extent recvtype) recvtype q hb0 hb hq.1 hq.2.1 hq.2.2).1)
      (fun q hq => by
        have hG := hsrc q hq
        have hS := (allgathervEntries_one_send q p (recvbuf q) recvcounts displs
          (extent recvtype) recvtype b hG.1 hG.2.1 hb0 hb (Ne.symm hG.2.2)).1
        have hpq := (postRound_sends extent (recvbuf q + displs q * extent recvtype)
          (recvcounts q) recvtype b (mems q)
          ((allgathervEntries q p (recvbuf q) recvcounts displs (extent recvtype)
            recvtype).map Entry.act)
          (fun x hx => by
            rcases hshape q hG.1 hG.2.1 x hx with ⟨q', _, rfl⟩ | ⟨dest, rfl⟩
            · exact ⟨rfl, fun h => by simp [Action.isSend] at h⟩
            · exact ⟨rfl, fun _ => ⟨dest, rfl⟩⟩)).2
        rw [List.countP_map] at hpq
        have hc : (allgathervEntries q p (recvbuf q) recvcounts displs (extent recvtype)
            recvtype).countP ((fun a => a.isSend && decide (a.peer = some b)) ∘ Entry.act)
            = 1 := hS
        rw [hc] at hpq
        show inboxFrom _ b = _
        rw [hround q hG.1 hG.2.1, hpq]
        rfl)
    refine ⟨_, m', hsched b hb0 hb, ?_, hm', ?_⟩
    · exact rounds_of_no_barrier _ (fun e he =>
        (allgathervEntries_shape b p (recvbuf b) recvcounts displs (extent recvtype)
          recvtype hb0 hb e he).1)
    · intro r hr0 hr j hj
      by_cases hrb : r = b
      · subst hrb
        rw [h2 false _ (fun q hq j' hj' hcell => by
          have hG := hsrc q hq
          have := hdisj r q hb0 hb hG.1 hG.2.1 (Ne.symm hG.2.2) j j' hj hj'
          omega)]
        rw [hround r hb0 hb, hpost.1]
      · have hR := (allgathervEntries_one_recv b p (recvbuf b) recvcounts displs
          (extent recvtype) recvtype r hb0 hb hr0 hr hrb).2
        exact h1 r ((hmem _).2 (List.mem_map.mpr ⟨_, hR, rfl⟩)) j hj

/-- Witness for C1 as amended, the scenario of the specification: `p = 4`,
`recvcounts = {2,1,3,2}` (`displs = {0,2,3,6}`, extent 4), every receive buffer at 1000,
the actions of every rank completing in the reverse of the order of posting; the buffer
of rank 2 after the run. -/
theorem iallgatherv_init_delivers_witness :
    ∃ (sb : PNBC_Schedule) (m' : Memory),
      (ompi_coll_libpnbc_iallgatherv_init ⟨fun _ => (0, 4), 0, true, 6, 0, 0, 0⟩ 500 2 7 1000
          (fun i => if i = 0 then 2 else if i = 1 then 1 else if i = 2 then 3 else 2)
          (fun i => if i = 0 then 0 else if i = 1 then 2 else if i = 2 then 3 else 6)
          7 ⟨2, 4, 0⟩).schedule = some sb ∧
      (rounds sb).length ≤ 1 ∧
      runRound (fun _ => 4)
        (fun a => (ompi_coll_libpnbc_iallgatherv_init ⟨fun _ => (0, 4), 0, true, 6, 0, 0, 0⟩
          500 2 7 1000
          (fun i => if i = 0 then 2 else if i = 1 then 1 else if i = 2 then 3 else 2)
          (fun i => if i = 0 then 0 else if i = 1 then 2 else if i = 2 then 3 else 6)
          7 ⟨a, 4, 0⟩).firstRound)
        (fun a => (ompi_coll_libpnbc_iallgatherv_init ⟨fun _ => (0, 4), 0, true, 6, 0, 0, 0⟩
          500 2 7 1000
          (fun i => if i = 0 then 2 else if i = 1 then 1 else if i = 2 then 3 else 2)
          (fun i => if i = 0 then 0 else if i = 1 then 2 else if i = 2 then 3 else 6)
          7 ⟨a, 4, 0⟩).firstRound.reverse)
        (fun a _ x => 100000 * a + x) 2 = some m' ∧
      ∀ r, 0 ≤ r → r < 4 → ∀ j : Nat,
        (j : Int) < (fun i : Int => if i = 0 then (2 : Int) else if i = 1 then 1
          else if i = 2 then 3 else 2) r →
        m' false (1000 + (fun i : Int => if i = 0 then (0 : Int) else if i = 1 then 2
            else if i = 2 then 3 else 6) r * 4 + (j : Int) * 4)
          = 100000 * r + (1000 + (fun i : Int => if i = 0 then (0 : Int) else if i = 1 then 2
            else if i = 2 then 3 else 6) r * 4 + (j : Int) * 4) :=
  (iallgatherv_init_delivers (fun _ => ⟨fun _ => (0, 4), 0, true, 6, 0, 0, 0⟩)
    (fun _ => 500) (fun _ => 2) (fun _ => 7) (fun _ => 1000)
    (fun i => if i = 0 then 2 else if i = 1 then 1 else if i = 2 then 3 else 2)
    (fun i => if i = 0 then 0 else if i = 1 then 2 else if i = 2 then 3 else 6)
    7 4 0 (fun _ => 4) (fun a _ x => 100000 * a + x)
    (fun a => (ompi_coll_libpnbc_iallgatherv_init ⟨fun _ => (0, 4), 0, true, 6, 0, 0, 0⟩
      500 2 7 1000
      (fun i => if i = 0 then 2 else if i = 1 then 1 else if i = 2 then 3 else 2)
      (fun i => if i = 0 then 0 else if i = 1 then 2 else if i = 2 then 3 else 6)
      7 ⟨a, 4, 0⟩).firstRound.reverse)
    (by decide)
    (fun _ _ _ => ⟨rfl, rfl, rfl, show 2 * ((4 : Int) - 1).toNat ≤ 6 by decide, rfl, rfl, rfl⟩)
    (by
      intro r r' h0 h1 h0' h1' hne j j' hj hj'
      interval_cases r <;> interval_cases r' <;> simp at hj hj' hne ⊢ <;> omega)
    (fun _ _ _ => List.reverse_perm _)).2.2 2 (by decide) (by decide)

/-- Counterexample for C1: `p = 2`, `recvcounts = {1,1}`, `displs = {0,0}` (extent 4),
both ranks in place with the buffer at 1000, rank 0 contributing the element `10` and
rank 1 the element `11`.  Both slots are the address 1000: after the two schedules ran
slot 0 of rank 0 holds `11`, not rank 0's contribution `10`; and whatever a run does, no
memory holds the contribution of rank `r` in slot `r` for both ranks. -/
theorem iallgatherv_init_slots_overlap :
    (runRound (fun _ => 4)
        (fun a => (ompi_coll_libpnbc_iallgatherv_init ⟨fun _ => (0, 4), 0, true, 2, 0, 0, 0⟩
          1000 1 7 1000 (fun _ => 1) (fun _ => 0) 7 ⟨a, 2, 0⟩).firstRound)
        (fun a => (ompi_coll_libpnbc_iallgatherv_init ⟨fun _ => (0, 4), 0, true, 2, 0, 0, 0⟩
          1000 1 7 1000 (fun _ => 1) (fun _ => 0) 7 ⟨a, 2, 0⟩).firstRound)
        (fun a _ _ => 10 + a) 0).map (fun m' => m' false (1000 + 0 * 4 + 0 * 4))
      = some 11 ∧
    (fun a _ _ => 10 + a : Int → Memory) 0 false (1000 + 0 * 4 + 0 * 4) = 10 ∧
    ¬ ∃ m' : Memory, ∀ r : Int, 0 ≤ r → r < 2 →
      m' false (1000 + (fun _ : Int => (0 : Int)) r * 4 + 0 * 4)
        = (fun a _ _ => 10 + a : Int → Memory) r false
            (1000 + (fun _ : Int => (0 : Int)) r * 4 + 0 * 4) := by
  refine ⟨by decide, by decide, ?_⟩
  rintro ⟨m', h⟩
  have h0 := h 0 (by decide) (by decide)
  have h1 := h 1 (by decide) (by decide)
  simp only at h0 h1
  omega

/-! ## The single round of the local all-gather -/

theorem rounds_eq_single (s : PNBC_Schedule) (hne : s ≠ [])
    (h : ∀ e ∈ s, e.barrier = false) : rounds s = [s.map Entry.act] := by
  have h1 := rounds_of_no_barrier s h
  have h2 := rounds_headD_of_no_barrier s h
  cases hr : rounds s with
  | nil =>
    rw [hr] at h2
    cases s with
    | nil => exact absurd rfl hne
    | cons e es => simp at h2
  | cons r rs =>
    rw [hr] at h1 h2
    simp at h1 h2
    rw [h1, h2]

/-- C8, amended: for every `p >= 2` and `0 <= rank < p`, when the collaborators succeed,
no append call of `ompi_coll_libpnbc_iallgatherv_init` requests a round barrier, so the
schedule it builds is exactly one round; that round holds, for `r = 1, .., p-1` in that
order, the one Receive from `(rank - r) mod p` followed by the one Send to
`(rank + r) mod p`, `2*(p-1)` actions in all. -/
theorem iallgatherv_init_single_round (sys : System) (sendbuf : Int) (sendcount : Int)
    (sendtype : MPI_Datatype) (recvbuf : Int) (recvcounts displs : Int → Int)
    (recvtype : MPI_Datatype) (rank p rsize : Int) (rcvext : MPI_Aint)
    (hp : 2 ≤ p) (h0 : 0 ≤ rank) (hlt : rank < p)
    (hs : sys.succeeds recvtype rcvext (2 * (p - 1).toNat)) :
    ∃ s, (ompi_coll_libpnbc_iallgatherv_init sys sendbuf sendcount sendtype recvbuf
          recvcounts displs recvtype ⟨rank, p, rsize⟩).schedule = some s ∧
      (∀ e ∈ s, e.barrier = false) ∧
      rounds s = [allgathervPlan rank p recvbuf recvcounts displs rcvext recvtype] ∧
      ((allgathervPlan rank p recvbuf recvcounts displs rcvext recvtype).length : Int)
        = 2 * (p - 1) := by
  have hflag : ∀ e ∈ allgathervEntries rank p recvbuf recvcounts displs rcvext recvtype,
      e.barrier = false := fun e he =>
    (allgathervEntries_shape rank p recvbuf recvcounts displs rcvext recvtype h0 hlt e he).1
  have hlen := length_allgathervEntries rank p recvbuf recvcounts displs rcvext recvtype
  have hne : allgathervEntries rank p recvbuf recvcounts displs rcvext recvtype ≠ [] := by
    intro h
    rw [h] at hlen
    simp at hlen
    omega
  refine ⟨_, iallgatherv_init_schedule sys sendbuf sendcount sendtype recvbuf recvcounts
    displs recvtype ⟨rank, p, rsize⟩ rcvext hs, hflag, ?_, ?_⟩
  · rw [rounds_eq_single _ hne hflag, allgathervEntries_acts _ _ _ _ _ _ _ h0 hlt]
  · rw [← allgathervEntries_acts _ _ _ _ _ _ _ h0 hlt, List.length_map, hlen]
    omega

/-- Witness for C8 as amended: `p = 4`, rank 3, `recvcounts = {2,1,3,2}`,
`displs = {0,2,3,6}`, extent 4, receive buffer at 1000. -/
theorem iallgatherv_init_single_round_witness :
    ∃ s, (ompi_coll_libpnbc_iallgatherv_init ⟨fun _ => (0, 4), 0, true, 6, 0, 0, 0⟩ 500 2 7
          1000 (fun i => if i = 0 then 2 else if i = 1 then 1 else if i = 2 then 3 else 2)
          (fun i => if i = 0 then 0 else if i = 1 then 2 else if i = 2 then 3 else 6)
          7 ⟨3, 4, 0⟩).schedule = some s ∧
      (∀ e ∈ s, e.barrier = false) ∧
      rounds s = [allgathervPlan 3 4 1000
        (fun i => if i = 0 then 2 else if i = 1 then 1 else if i = 2 then 3 else 2)
        (fun i => if i = 0 then 0 else if i = 1 then 2 else if i = 2 then 3 else 6) 4 7] ∧
      ((allgathervPlan 3 4 1000
        (fun i => if i = 0 then 2 else if i = 1 then 1 else if i = 2 then 3 else 2)
        (fun i => if i = 0 then 0 else if i = 1 then 2 else if i = 2 then 3 else 6)
        4 7).length : Int) = 2 * (4 - 1) :=
  iallgatherv_init_single_round ⟨fun _ => (0, 4), 0, true, 6, 0, 0, 0⟩ 500 2 7 1000
    (fun i => if i = 0 then 2 else if i = 1 then 1 else if i = 2 then 3 else 2)
    (fun i => if i = 0 then 0 else if i = 1 then 2 else if i = 2 then 3 else 6)
    7 3 4 0 4 (by decide) (by decide) (by decide)
    ⟨rfl, rfl, rfl, by decide, rfl, rfl, rfl⟩

end PNBC
